import Mathlib

/-!
# Tribute Lands NPC Database — verification of spec claims

A shallow embedding of the core of `npc_database` (a Flask + SQLite CRUD
application) sufficient to settle the frozen claims: the JSON-ish value
model stored in SQLite columns, the HTTP API handlers for NPCs and their
child tables, the die-string helpers, the client-side build audit's
derived-stat check, the catalogue filters, the Fantasy Grounds XML
exporter and the Markdown statblock generator, and a statement-trace
model of per-request transactions.

Machine integers do not occur (Python ints are unbounded); SQLite values
are modelled by the dynamic type `JVal`.  Fallible handler code returns
`Except`.
-/

namespace TributeLands

/-- A dynamically typed value as stored in a SQLite column / carried in a
JSON request body: `NULL`, an integer, a text string, or a boolean.
(Floats are not needed by any claim.) -/
inductive JVal where
  | jnull : JVal
  | jint : Int → JVal
  | jstr : String → JVal
  | jbool : Bool → JVal
deriving DecidableEq, Repr

/-- A row (or a JSON object body): an association list from column names to
values; lookup is first-binding-wins. -/
abbrev Row := List (String × JVal)

/-- Python truthiness of a stored value (`if value: ...`):
`None`, `0`, `""` and `False` are falsy. -/
def truthy : JVal → Bool
  | .jnull => false
  | .jint i => i ≠ 0
  | .jstr s => s ≠ ""
  | .jbool b => b

/-- The decimal digit character for `d < 10`. -/
def digitChar10 (d : Nat) : Char := Char.ofNat (48 + d)

/-- Decimal rendering of a natural number (fuelled; `fuel ≥ n` suffices). -/
def natReprAux : Nat → Nat → List Char
  | 0, _ => []
  | fuel + 1, n =>
    if n < 10 then [digitChar10 n]
    else natReprAux fuel (n / 10) ++ [digitChar10 (n % 10)]

/-- Decimal rendering of a natural number. -/
def natRepr (n : Nat) : String := String.mk (natReprAux (n + 1) n)

/-- Decimal rendering of an integer. -/
def intRepr (i : Int) : String :=
  if i < 0 then "-" ++ natRepr (-i).toNat else natRepr i.toNat

/-- Python `str(v)` / f-string interpolation of a value. -/
def pyStr : JVal → String
  | .jnull => "None"
  | .jint i => intRepr i
  | .jstr s => s
  | .jbool b => if b then "True" else "False"

/-- Python `v > 0`: defined for ints and bools (bools are ints), a
`TypeError` (modelled as `Except.error ()`) for `None` and strings. -/
def pyGtZero : JVal → Except Unit Bool
  | .jint i => .ok (0 < i)
  | .jbool b => .ok b
  | _ => .error ()

/-- Python `a or b` (used as `npc["pace"] or 6`). -/
def pyOr (a b : JVal) : JVal := if truthy a then a else b

/-- `row[k]` with SQL-`NULL` semantics for a column the row never set
(`SELECT *` materialises missing columns as `NULL` in this model). -/
def rowGet (r : Row) (k : String) : JVal := (r.lookup k).getD .jnull

/-- `UPDATE ... SET k = v` on a single row: replace every binding of `k`
(stored rows are duplicate-free), or append the binding if absent. -/
def rowSet (r : Row) (k : String) (v : JVal) : Row :=
  if (r.lookup k).isSome then
    r.map (fun kv => if kv.1 = k then (k, v) else kv)
  else
    r ++ [(k, v)]

/-! ## Die-string helpers (claim C10)

Three copies of `die_str` exist in the source; the first two render a
missing die as an em dash, the exporter's copy as the empty string. -/

/-- `app.py` `die_str` (lines 220–223):
`if value and value > 0: return f"d{value}"` / `return "—"`; the `>`
comparison can raise for non-numeric values. -/
def app_die_str (value : JVal) : Except Unit String :=
  if truthy value then do
    let b ← pyGtZero value
    pure (if b then "d" ++ pyStr value else "—")
  else pure "—"

/-- `npc_manager.py` `die_str` (lines 59–63): identical logic to the
`app.py` helper, rendering an untrained die as `"—"`. -/
def manager_die_str (value : JVal) : Except Unit String :=
  if truthy value then do
    let b ← pyGtZero value
    pure (if b then "d" ++ pyStr value else "—")
  else pure "—"

/-- `fg_export.py` `die_str` (lines 46–49): same guard, but the fallback
is the empty string. -/
def fg_die_str (value : JVal) : Except Unit String :=
  if truthy value then do
    let b ← pyGtZero value
    pure (if b then "d" ++ pyStr value else "")
  else pure ""

/-! ## Client-side build audit — derived Parry check (claim C1)

Embeds the derived-stats portion of `auditCharacter` (app.py HTML/JS,
lines 1527–1579) that checks Parry, together with the client `dieStr`
helper (line 1354) used in its messages. -/

/-- One audit finding, as built by `F(level, category, msg)`. -/
structure Finding where
  level : String
  category : String
  msg : String
deriving DecidableEq, Repr

/-- A skill row as seen by the client audit: a name and a die value. -/
structure AuditSkill where
  name : String
  die : Int
deriving DecidableEq, Repr

/-- Client-side `dieStr` (app.py line 1354):
`v > 0 ? 'd'+v : '—'`. -/
def dieStrJS (v : Int) : String :=
  if 0 < v then "d" ++ toString v else "—"

/-- `fDie` in `auditCharacter`: the die of the skill named `Fighting`,
or `0` when the skill list has no such entry. -/
def fightingDie (skills : List AuditSkill) : Int :=
  match skills.find? (fun s => s.name = "Fighting") with
  | some s => s.die
  | none => 0

/-- `expParry` in `auditCharacter` (line 1551):
`fDie > 0 ? 2 + Math.floor(fDie / 2) : 2`. -/
def expParry (skills : List AuditSkill) : Int :=
  let fDie := fightingDie skills
  if 0 < fDie then 2 + fDie / 2 else 2

/-- `hasBlock` in `auditCharacter` (line 1558): some legacy edge string
contains `"Block"`. -/
def hasBlock (edgesLegacy : List String) : Bool :=
  edgesLegacy.any (fun e => (e.splitOn "Block").length != 1)

/-- The Parry finding emitted by `auditCharacter` (lines 1566–1571):
a `warn` (or, with Block explaining a +1, an `info`) when `parry` differs
from the expected value, otherwise a `pass`. -/
def auditParryFinding (skills : List AuditSkill) (edgesLegacy : List String)
    (parry : Int) : Finding :=
  let fDie := fightingDie skills
  let exp := expParry skills
  if parry ≠ exp then
    let diff := parry - exp
    if hasBlock edgesLegacy ∧ diff = 1 then
      { level := "info", category := "derived"
        msg := "Parry " ++ toString parry ++ " — includes Block (+1)" }
    else
      { level := "warn", category := "derived"
        msg := "Parry " ++ toString parry ++ " — expected " ++ toString exp ++
          " (2 + Fighting " ++ dieStrJS fDie ++ "÷2). Shield or Edge modifier?" }
  else
    { level := "pass", category := "derived"
      msg := "Parry " ++ toString parry ++ " = 2 + " ++ dieStrJS fDie ++ "÷2 ✓" }

/-! ## Catalogue filters (claim C5)

`equipment_catalogue.py` `get_weapons` / `get_armor` / `get_gear`
(lines 370–383), `hindrances/__init__.py` `get_hindrances`
(lines 41–48), and the HTTP endpoints `api_catalogue_weapons` /
`api_catalogue_armor` / `api_catalogue_gear` (app.py lines 3961–3980).
The module-level catalogue lists (`WEAPONS`, `ARMOR`, `GEAR`,
`HINDRANCES`) are static data; each function closes over its list, which
the embedding passes explicitly as `cat`.  Entries are dicts, embedded as
`Row`s, and every entry carries a `"source"` key. -/

/-- `get_weapons(source)`: `if source and source != "All"` filter by
`w["source"] == source`, else return the whole list. -/
def get_weapons (cat : List Row) (source : Option String) : List Row :=
  match source with
  | some s =>
    if s ≠ "" ∧ s ≠ "All" then cat.filter (fun w => rowGet w "source" = .jstr s)
    else cat
  | none => cat

/-- `get_armor(source)`: same body as `get_weapons`, over `ARMOR`. -/
def get_armor (cat : List Row) (source : Option String) : List Row :=
  match source with
  | some s =>
    if s ≠ "" ∧ s ≠ "All" then cat.filter (fun a => rowGet a "source" = .jstr s)
    else cat
  | none => cat

/-- `get_gear(source)`: same body as `get_weapons`, over `GEAR`. -/
def get_gear (cat : List Row) (source : Option String) : List Row :=
  match source with
  | some s =>
    if s ≠ "" ∧ s ≠ "All" then cat.filter (fun g => rowGet g "source" = .jstr s)
    else cat
  | none => cat

/-- `get_hindrances(source, severity)`: two successive filters, each
skipped for `None`/`"All"`. -/
def get_hindrances (cat : List Row) (source severity : Option String) : List Row :=
  let r1 :=
    match source with
    | some s =>
      if s ≠ "" ∧ s ≠ "All" then cat.filter (fun h => rowGet h "source" = .jstr s)
      else cat
    | none => cat
  match severity with
  | some sv =>
    if sv ≠ "" ∧ sv ≠ "All" then r1.filter (fun h => rowGet h "severity" = .jstr sv)
    else r1
  | none => r1

/-- `api_catalogue_weapons`: `source = request.args.get('source','All')`;
full list for `"All"`, otherwise filter. -/
def api_catalogue_weapons (cat : List Row) (sourceArg : Option String) : List Row :=
  let s := sourceArg.getD "All"
  if s = "All" then cat else cat.filter (fun w => rowGet w "source" = .jstr s)

/-- `api_catalogue_armor`: same shape as `api_catalogue_weapons`. -/
def api_catalogue_armor (cat : List Row) (sourceArg : Option String) : List Row :=
  let s := sourceArg.getD "All"
  if s = "All" then cat else cat.filter (fun a => rowGet a "source" = .jstr s)

/-- `api_catalogue_gear`: same shape as `api_catalogue_weapons`. -/
def api_catalogue_gear (cat : List Row) (sourceArg : Option String) : List Row :=
  let s := sourceArg.getD "All"
  if s = "All" then cat else cat.filter (fun g => rowGet g "source" = .jstr s)

/-! ## A model of `json.loads` / `json.dumps` on the legacy `*_json` columns

The application stores JSON arrays of strings in the four legacy columns
`edges_json`, `hindrances_json`, `gear_json`, `powers_json` and parses
them with `json.loads` at read time.  Two read paths differ:
`jsonLoadsArr` parses exactly the JSON string-array sublanguage and
models the paths that go on to `', '.join` the elements or to regex-parse
each element as a string (the statblock and exporter endpoints, the
legacy migration loop), where any other shape raises; `jsonParse` below
is a full JSON parser and models the bare `json.loads` of
`api_get_npc`, which succeeds on any valid JSON document. -/

/-- JSON whitespace. -/
def isJsonWs (c : Char) : Bool := c = ' ' ∨ c = '\t' ∨ c = '\n' ∨ c = '\r'

/-- Decode one JSON escape character (after a backslash). -/
def jsonUnescape (c : Char) : Option Char :=
  if c = '"' then some '"'
  else if c = '\\' then some '\\'
  else if c = '/' then some '/'
  else if c = 'n' then some '\n'
  else if c = 't' then some '\t'
  else if c = 'r' then some '\r'
  else none

/-- Scan the body of a JSON string (after the opening quote); returns the
decoded content and the input after the closing quote. -/
def jsonStrBody : List Char → Option (List Char × List Char)
  | [] => none
  | '"' :: rest => some ([], rest)
  | '\\' :: c :: rest => do
    let d ← jsonUnescape c
    let (s, r) ← jsonStrBody rest
    pure (d :: s, r)
  | '\\' :: [] => none
  | c :: rest => do
    let (s, r) ← jsonStrBody rest
    pure (c :: s, r)

/-- Parse the items of a JSON array of strings, positioned right after
`[` or after a `,`; `fuel` bounds recursion depth. -/
def jsonArrItems (fuel : Nat) (cs : List Char) : Option (List String × List Char) :=
  match fuel with
  | 0 => none
  | fuel + 1 =>
    let cs := cs.dropWhile isJsonWs
    match cs with
    | '"' :: rest => do
      let (s, r) ← jsonStrBody rest
      let r := r.dropWhile isJsonWs
      match r with
      | ']' :: r2 => pure ([String.mk s], r2)
      | ',' :: r2 => do
        let (items, r3) ← jsonArrItems fuel r2
        pure (String.mk s :: items, r3)
      | _ => none
    | _ => none

/-- `json.loads(s)` restricted to arrays of strings: `Option.none` models
the exception path of the source read (a `ValueError` from `json.loads`,
or the `TypeError` in the subsequent string `join`). -/
def jsonLoadsArr (s : String) : Option (List String) :=
  let cs := s.toList.dropWhile isJsonWs
  match cs with
  | '[' :: rest =>
    let r := rest.dropWhile isJsonWs
    match r with
    | ']' :: r2 => if r2.dropWhile isJsonWs = [] then some [] else none
    | _ => do
      let (items, r2) ← jsonArrItems (r.length + 1) r
      if r2.dropWhile isJsonWs = [] then pure items else none
  | _ => none

/-- Encode one character of a JSON string per `json.dumps`. -/
def jsonEscChar (c : Char) : List Char :=
  if c = '"' then ['\\', '"']
  else if c = '\\' then ['\\', '\\']
  else if c = '\n' then ['\\', 'n']
  else if c = '\t' then ['\\', 't']
  else if c = '\r' then ['\\', 'r']
  else [c]

/-- `json.dumps` of a list of strings (ASCII escaping of non-ASCII
characters is not modelled; no claim inspects the encoded text). -/
def jsonDumps (items : List String) : String :=
  "[" ++ String.intercalate ", " (items.map (fun s =>
    "\"" ++ String.mk (s.toList.flatMap jsonEscChar) ++ "\"")) ++ "]"

/-- Drop leading JSON whitespace. -/
def skipWs (cs : List Char) : List Char := cs.dropWhile isJsonWs

/-- The value of one hexadecimal digit. -/
def hexDigitVal (c : Char) : Option Nat :=
  if '0' ≤ c ∧ c ≤ '9' then some (c.toNat - 48)
  else if 'a' ≤ c ∧ c ≤ 'f' then some (c.toNat - 87)
  else if 'A' ≤ c ∧ c ≤ 'F' then some (c.toNat - 55)
  else none

/-- Decode one single-character JSON string escape (after the
backslash), per `json.loads`. -/
def jsonEscDecode (c : Char) : Option Char :=
  if c = '"' then some '"'
  else if c = '\\' then some '\\'
  else if c = '/' then some '/'
  else if c = 'b' then some (Char.ofNat 8)
  else if c = 'f' then some (Char.ofNat 12)
  else if c = 'n' then some '\n'
  else if c = 'r' then some '\r'
  else if c = 't' then some '\t'
  else none

/-- A parsed JSON value, as `json.loads` returns it.  Numbers (including
the non-standard `NaN` / `Infinity` / `-Infinity` Python accepts) are
carried by their lexeme: no claim computes with the numeric value. -/
inductive JData where
  | jnull
  | jbool (b : Bool)
  | jnum (lexeme : String)
  | jstr (s : String)
  | jarr (items : List JData)
  | jobj (fields : List (String × JData))
deriving Repr

/-- Scan the body of a JSON string after the opening quote, per strict
`json.loads`: the escapes `\" \\ \/ \b \f \n \r \t \uXXXX`, raw
control characters rejected.  A `\u` code that is not a Unicode scalar
(a lone surrogate, which Python keeps and `Char` cannot hold) decodes as
`Char.ofNat`'s fallback; acceptance is unaffected and no claim inspects
such content. -/
def jsonStrChars : List Char → Option (List Char × List Char)
  | [] => none
  | '"' :: rest => some ([], rest)
  | '\\' :: 'u' :: a :: b :: c :: d :: rest => do
    let va ← hexDigitVal a
    let vb ← hexDigitVal b
    let vc ← hexDigitVal c
    let vd ← hexDigitVal d
    let (s, r) ← jsonStrChars rest
    pure (Char.ofNat (((va * 16 + vb) * 16 + vc) * 16 + vd) :: s, r)
  | '\\' :: e :: rest => do
    let d ← jsonEscDecode e
    let (s, r) ← jsonStrChars rest
    pure (d :: s, r)
  | c :: rest =>
    if c.toNat < 32 then none
    else do
      let (s, r) ← jsonStrChars rest
      pure (c :: s, r)

/-- Lex a JSON number at the head of the input: optional minus, an
integer part with no leading zero, optional fraction and exponent
(`-?(0|[1-9][0-9]*)(\.[0-9]+)?([eE][+-]?[0-9]+)?`); returns the lexeme
and the rest. -/
def jsonNumLex (cs : List Char) : Option (List Char × List Char) :=
  let (sign, cs1) :=
    match cs with
    | '-' :: r => ((['-'] : List Char), r)
    | _ => ([], cs)
  match cs1 with
  | [] => none
  | c0 :: _ =>
    if ¬ c0.isDigit then none
    else
      let (ip, cs2) :=
        match cs1 with
        | '0' :: r => ((['0'] : List Char), r)
        | _ => (cs1.takeWhile Char.isDigit, cs1.dropWhile Char.isDigit)
      let frac : Option (List Char × List Char) :=
        match cs2 with
        | '.' :: r =>
          let ds := r.takeWhile Char.isDigit
          if ds = [] then none else some ('.' :: ds, r.dropWhile Char.isDigit)
        | _ => some ([], cs2)
      match frac with
      | none => none
      | some (fp, cs3) =>
        let expo : Option (List Char × List Char) :=
          match cs3 with
          | e :: r =>
            if e = 'e' ∨ e = 'E' then
              let (es, r2) :=
                match r with
                | '+' :: r2 => (([e, '+'] : List Char), r2)
                | '-' :: r2 => ([e, '-'], r2)
                | _ => ([e], r)
              let ds := r2.takeWhile Char.isDigit
              if ds = [] then none else some (es ++ ds, r2.dropWhile Char.isDigit)
            else some ([], cs3)
          | [] => some ([], cs3)
        match expo with
        | none => none
        | some (ep, cs4) => some (sign ++ ip ++ fp ++ ep, cs4)

/-- One open container of the JSON parser: an array with its elements so
far (reversed), or an object with its members so far and the key whose
value is being read. -/
inductive JFrame where
  | farr (items : List JData)
  | fobj (fields : List (String × JData)) (key : String)

/-- The JSON parser's main loop, a shift-reduce machine over the
characters: `none` as the last argument means a value is expected,
`some v` that `v` was just completed and the enclosing container (the
frame stack) continues.  Every step consumes at least one character, so
`fuel` larger than the input length never runs out. -/
def jloop : Nat → List Char → List JFrame → Option JData → Option (JData × List Char)
  | 0, _, _, _ => none
  | fuel + 1, cs, stack, some v =>
    match stack with
    | [] => some (v, cs)
    | .farr items :: rest =>
      match skipWs cs with
      | ',' :: cs' => jloop fuel cs' (.farr (v :: items) :: rest) none
      | ']' :: cs' => jloop fuel cs' rest (some (.jarr (v :: items).reverse))
      | _ => none
    | .fobj fields key :: rest =>
      match skipWs cs with
      | ',' :: cs' =>
        match skipWs cs' with
        | '"' :: cs'' =>
          match jsonStrChars cs'' with
          | some (k2, cs3) =>
            match skipWs cs3 with
            | ':' :: cs4 =>
              jloop fuel cs4 (.fobj ((key, v) :: fields) (String.mk k2) :: rest) none
            | _ => none
          | none => none
        | _ => none
      | '}' :: cs' => jloop fuel cs' rest (some (.jobj ((key, v) :: fields).reverse))
      | _ => none
  | fuel + 1, cs, stack, none =>
    match skipWs cs with
    | '{' :: cs' =>
      match skipWs cs' with
      | '}' :: cs'' => jloop fuel cs'' stack (some (.jobj []))
      | '"' :: cs'' =>
        match jsonStrChars cs'' with
        | some (k, cs3) =>
          match skipWs cs3 with
          | ':' :: cs4 => jloop fuel cs4 (.fobj [] (String.mk k) :: stack) none
          | _ => none
        | none => none
      | _ => none
    | '[' :: cs' =>
      match skipWs cs' with
      | ']' :: cs'' => jloop fuel cs'' stack (some (.jarr []))
      | _ => jloop fuel cs' (.farr [] :: stack) none
    | '"' :: cs' =>
      match jsonStrChars cs' with
      | some (s, cs'') => jloop fuel cs'' stack (some (.jstr (String.mk s)))
      | none => none
    | 't' :: 'r' :: 'u' :: 'e' :: cs' => jloop fuel cs' stack (some (.jbool true))
    | 'f' :: 'a' :: 'l' :: 's' :: 'e' :: cs' => jloop fuel cs' stack (some (.jbool false))
    | 'n' :: 'u' :: 'l' :: 'l' :: cs' => jloop fuel cs' stack (some .jnull)
    | 'N' :: 'a' :: 'N' :: cs' => jloop fuel cs' stack (some (.jnum "NaN"))
    | 'I' :: 'n' :: 'f' :: 'i' :: 'n' :: 'i' :: 't' :: 'y' :: cs' =>
      jloop fuel cs' stack (some (.jnum "Infinity"))
    | '-' :: 'I' :: 'n' :: 'f' :: 'i' :: 'n' :: 'i' :: 't' :: 'y' :: cs' =>
      jloop fuel cs' stack (some (.jnum "-Infinity"))
    | c :: _ =>
      if c = '-' ∨ c.isDigit then
        match jsonNumLex (skipWs cs) with
        | some (lex, cs') => jloop fuel cs' stack (some (.jnum (String.mk lex)))
        | none => none
      else none
    | [] => none

/-- `json.loads(s)` in full: one JSON value and nothing but whitespace
after it. -/
def jsonParse (s : String) : Option JData :=
  match jloop (s.length + 2) s.toList [] none with
  | some (j, rest) => if skipWs rest = [] then some j else none
  | none => none

/-! ## The database state and the API handlers

State model of the SQLite file as seen through the HTTP API: the `npcs`
table and its seven child tables (the association tables
`npc_organisations` / `npc_connections` / `npc_appearances` have no
write route in `app.py` and stay empty in every API-reachable state, so
they are not carried).  Connections are opened with
`PRAGMA foreign_keys=ON` (`get_db`, app.py lines 98–102), so inserts
check the parent key and `DELETE FROM npcs` cascades.  `AUTOINCREMENT`
id allocation is modelled by a per-table sequence. -/

/-- A row of the `npcs` table: the integer primary key plus the remaining
columns. -/
structure NpcRow where
  id : Int
  fields : Row
deriving DecidableEq, Repr

/-- A row of one of the child tables: its own id, the `npc_id` foreign
key, and the remaining columns. -/
structure ChildRow where
  id : Int
  npcId : Int
  fields : Row
deriving DecidableEq, Repr

/-- The database state. -/
structure DB where
  npcs : List NpcRow
  skills : List ChildRow
  weapons : List ChildRow
  armor : List ChildRow
  gear : List ChildRow
  hindrances : List ChildRow
  edges : List ChildRow
  powers : List ChildRow
  seqNpc : Int := 0
  seqSkill : Int := 0
  seqWeapon : Int := 0
  seqArmor : Int := 0
  seqGear : Int := 0
  seqHindrance : Int := 0
  seqEdge : Int := 0
  seqPower : Int := 0
deriving DecidableEq, Repr

/-- The freshly created database (schema applied, no rows). -/
def emptyDB : DB :=
  { npcs := [], skills := [], weapons := [], armor := [], gear := []
    hindrances := [], edges := [], powers := [] }

/-- `AUTOINCREMENT` id allocation: one larger than both the sequence and
every id currently in the table. -/
def freshId (seq : Int) (ids : List Int) : Int := (ids.foldl max seq) + 1

/-- The allowed field list of `api_create_npc` (app.py lines 3652–3657). -/
def npcFields : List String :=
  ["name", "title", "region", "tier", "archetype", "rank_guideline", "quote",
   "description", "background", "motivation", "secret", "services", "adventure_hook",
   "tactics", "agility", "smarts", "spirit", "strength", "vigor", "pace", "parry",
   "toughness", "toughness_armor", "bennies", "power_points", "arcane_bg",
   "edges_json", "hindrances_json", "gear_json", "powers_json",
   "stat_block_complete", "narrative_complete", "fg_export_ready",
   "source_document", "notes"]

/-- Columns of the `npcs` table beyond the creation field list.
Modelled from the spec: `schema.sql` is not under `src/`; the extra
columns are those the code under `src/` reads or migrates in
(`id`, `portrait_path`, `special_abilities_json`, `size`). -/
def npcColumns : List String :=
  "id" :: "portrait_path" :: "special_abilities_json" :: "size" :: npcFields

/-- `api_create_npc` (app.py lines 3648–3670): keep the supplied subset of
the allowed fields and insert one row; returns the new id.
Modelled from the spec: `schema.sql` is not under `src/`; per the spec's
data model (`NPC: core entity — name, …`; errors include "missing
required field") the insert fails when no non-null `name` is supplied. -/
def api_create_npc (db : DB) (data : Row) : Except Unit (Int × DB) :=
  let present := npcFields.filterMap (fun k => (data.lookup k).map (fun v => (k, v)))
  match present.lookup "name" with
  | none => .error ()
  | some .jnull => .error ()
  | some _ =>
    let nid := freshId db.seqNpc (db.npcs.map (·.id))
    .ok (nid, { db with npcs := db.npcs ++ [⟨nid, present⟩], seqNpc := nid })

/-- `json.loads(npc.get(col) or '[]')` on a legacy JSON column value,
on the read paths that then `join` or regex-parse the elements as
strings (statblock, exporter, migration): any shape other than a string
array raises there. -/
def loadJsonField (v : JVal) : Except Unit (List String) :=
  if truthy v then
    match v with
    | .jstr s =>
      match jsonLoadsArr s with
      | some items => .ok items
      | none => .error ()
    | _ => .error ()
  else .ok []

/-- `json.loads(npc.get(col) or '[]')` on a legacy JSON column value in
`api_get_npc`, where the parsed value is returned as is: any valid JSON
document is accepted; a falsy column reads as the empty array; a truthy
non-string raises (`json.loads` `TypeError`). -/
def loadJsonAny (v : JVal) : Except Unit JData :=
  if truthy v then
    match v with
    | .jstr s =>
      match jsonParse s with
      | some j => .ok j
      | none => .error ()
    | _ => .error ()
  else .ok (.jarr [])

/-- SQLite cross-type ordering of stored values for `ORDER BY`:
`NULL < numeric < text` (booleans are bound as integers). -/
def jvalRank : JVal → Nat
  | .jnull => 0
  | .jint _ => 1
  | .jbool _ => 1
  | .jstr _ => 2

/-- Numeric value of a stored numeric (bool binds as 0/1). -/
def jvalNum : JVal → Int
  | .jint i => i
  | .jbool b => if b then 1 else 0
  | _ => 0

/-- SQLite `ORDER BY` comparison on stored values. -/
def jvalLe (a b : JVal) : Bool :=
  if jvalRank a ≠ jvalRank b then jvalRank a < jvalRank b
  else
    match a, b with
    | .jstr x, .jstr y => x ≤ y
    | _, _ => jvalNum a ≤ jvalNum b

/-- The JSON object returned for a child row (`SELECT *`). -/
def childRowOut (c : ChildRow) : Row :=
  ("id", .jint c.id) :: ("npc_id", .jint c.npcId) :: c.fields

/-- `SELECT * ... ORDER BY name` on a list of serialized child rows. -/
def sortByName (rows : List Row) : List Row :=
  rows.insertionSort (fun a b => jvalLe (rowGet a "name") (rowGet b "name") = true)

/-- `ORDER BY severity DESC, name` (for `npc_hindrances`). -/
def sortBySeverityName (rows : List Row) : List Row :=
  rows.insertionSort (fun a b =>
    (jvalLe (rowGet b "severity") (rowGet a "severity") ∧
      (rowGet a "severity" = rowGet b "severity" →
        jvalLe (rowGet a "name") (rowGet b "name") = true)))

/-- The JSON document assembled by `api_get_npc` (app.py lines 3602–3646):
the raw row, the five parsed legacy arrays, and the child collections.
(The `organisations_detail` / `connections` / `appearances` joins read
tables that no API route writes; they are empty in every API-reachable
state and are not carried.) -/
structure NpcView where
  fields : Row
  edges : JData
  hindrances : JData
  gear : JData
  powers : JData
  specialAbilities : JData
  skills : List Row
  weapons : List Row
  armor : List Row
  gearItems : List Row
  hindranceItems : List Row
  edgeItems : List Row
  powerItems : List Row
deriving Repr

/-- HTTP-level error outcomes. -/
inductive HErr where
  | notFound
  | badRequest
  | serverErr
deriving DecidableEq, Repr

/-- The JSON error body sent with an `HErr`. -/
def errBody : HErr → Row
  | .notFound => [("error", .jstr "Not found")]
  | .badRequest => [("error", .jstr "Bad request")]
  | .serverErr => []

/-- `api_get_npc` (app.py lines 3602–3646): `404` when no row matches,
otherwise the row plus the five legacy columns parsed with bare
`json.loads` — any valid JSON reads back — and the child collections
(a column that is not valid JSON makes the handler raise — HTTP 500). -/
def api_get_npc (db : DB) (npcId : Int) : Except HErr NpcView :=
  match db.npcs.find? (fun n => n.id = npcId) with
  | none => .error .notFound
  | some n =>
    let row : Row := ("id", .jint n.id) :: n.fields
    match loadJsonAny (rowGet row "edges_json"),
        loadJsonAny (rowGet row "hindrances_json"),
        loadJsonAny (rowGet row "gear_json"),
        loadJsonAny (rowGet row "powers_json"),
        loadJsonAny (rowGet row "special_abilities_json") with
    | .ok ed, .ok hi, .ok ge, .ok po, .ok sp =>
      .ok
        { fields := row
          edges := ed, hindrances := hi, gear := ge, powers := po
          specialAbilities := sp
          skills := sortByName ((db.skills.filter (fun c => c.npcId = npcId)).map childRowOut)
          weapons := (db.weapons.filter (fun c => c.npcId = npcId)).map childRowOut
          armor := sortByName ((db.armor.filter (fun c => c.npcId = npcId)).map childRowOut)
          gearItems := sortByName ((db.gear.filter (fun c => c.npcId = npcId)).map childRowOut)
          hindranceItems :=
            sortBySeverityName ((db.hindrances.filter (fun c => c.npcId = npcId)).map childRowOut)
          edgeItems := sortByName ((db.edges.filter (fun c => c.npcId = npcId)).map childRowOut)
          powerItems := sortByName ((db.powers.filter (fun c => c.npcId = npcId)).map childRowOut) }
    | _, _, _, _, _ => .error .serverErr

/-- An integer acceptable for the `INTEGER PRIMARY KEY` column
(Python bools bind as integers). -/
def idValAsInt : JVal → Option Int
  | .jint i => some i
  | .jbool b => some (if b then 1 else 0)
  | _ => none

/-- True when some child row references the given NPC id. -/
def childRef (db : DB) (npcId : Int) : Bool :=
  db.skills.any (fun c => c.npcId = npcId) ∨ db.weapons.any (fun c => c.npcId = npcId) ∨
  db.armor.any (fun c => c.npcId = npcId) ∨ db.gear.any (fun c => c.npcId = npcId) ∨
  db.hindrances.any (fun c => c.npcId = npcId) ∨ db.edges.any (fun c => c.npcId = npcId) ∨
  db.powers.any (fun c => c.npcId = npcId)

/-- The `SET` clause applied to one row's non-id columns. -/
def applySets (r : Row) (data : Row) : Row :=
  data.foldl (fun acc kv => if kv.1 = "id" then acc else rowSet acc kv.1 kv.2) r

/-- `api_update_npc` (app.py lines 3672–3687): build `SET k = ?` from every
key of the body and run one `UPDATE`.  Failure paths of the statement:
an empty body (empty `SET` clause — syntax error), an unknown column, or
a change of `id` that collides with another row or would orphan child
rows (`PRAGMA foreign_keys=ON`, parent-key update).  A non-matching id
updates zero rows and still succeeds. -/
def api_update_npc (db : DB) (npcId : Int) (data : Row) : Except Unit DB :=
  if data = [] then .error ()
  else if data.any (fun kv => ¬ npcColumns.contains kv.1) then .error ()
  else
    match db.npcs.find? (fun n => n.id = npcId) with
    | none => .ok db
    | some _ =>
      match data.lookup "id" with
      | none =>
        .ok { db with npcs := db.npcs.map (fun m =>
          if m.id = npcId then ⟨m.id, applySets m.fields data⟩ else m) }
      | some v =>
        match idValAsInt v with
        | none => .error ()
        | some j =>
          if j ≠ npcId ∧ db.npcs.any (fun m => m.id = j) then .error ()
          else if j ≠ npcId ∧ childRef db npcId then .error ()
          else
            .ok { db with npcs := db.npcs.map (fun m =>
              if m.id = npcId then ⟨j, applySets m.fields data⟩ else m) }

/-- `api_delete_npc` (app.py lines 3689–3695): one `DELETE FROM npcs`;
child rows cascade.  The five migration-created child tables declare
`ON DELETE CASCADE` in `init_db_if_needed` (app.py lines 141–203);
for `npc_skills` / `npc_weapons` the cascade is modelled from the spec
(`schema.sql` is not under `src/`): child tables are "cascade-deleted
with the parent".  Always returns the success body `{'deleted': id}`. -/
def api_delete_npc (db : DB) (npcId : Int) : Row × DB :=
  ([("deleted", .jint npcId)],
   { db with
      npcs := db.npcs.filter (fun n => n.id ≠ npcId)
      skills := db.skills.filter (fun c => c.npcId ≠ npcId)
      weapons := db.weapons.filter (fun c => c.npcId ≠ npcId)
      armor := db.armor.filter (fun c => c.npcId ≠ npcId)
      gear := db.gear.filter (fun c => c.npcId ≠ npcId)
      hindrances := db.hindrances.filter (fun c => c.npcId ≠ npcId)
      edges := db.edges.filter (fun c => c.npcId ≠ npcId)
      powers := db.powers.filter (fun c => c.npcId ≠ npcId) })

/-- The parent-key check run by every child-table `INSERT`
(`PRAGMA foreign_keys=ON`): the referenced NPC row must exist. -/
def npcExists (db : DB) (npcId : Int) : Bool :=
  db.npcs.any (fun n => n.id = npcId)

/-- `api_add_skill` (app.py lines 3705–3713):
`INSERT OR REPLACE INTO npc_skills (npc_id, name, die)`; `data['name']`
and `data['die']` raise when absent.  Modelled from the spec
(`schema.sql` is not under `src/`): `npc_skills` has a uniqueness
constraint on `(npc_id, name)` — the handler relies on `OR REPLACE` to
overwrite an existing skill of the same name. -/
def api_add_skill (db : DB) (npcId : Int) (data : Row) : Except Unit DB :=
  match data.lookup "name", data.lookup "die" with
  | some nameV, some dieV =>
    if npcExists db npcId then
      let kept := db.skills.filter (fun c => ¬(c.npcId = npcId ∧ rowGet c.fields "name" = nameV))
      let sid := freshId db.seqSkill (db.skills.map (·.id))
      .ok { db with
              skills := kept ++ [⟨sid, npcId, [("name", nameV), ("die", dieV)]⟩]
              seqSkill := sid }
    else .error ()
  | _, _ => .error ()

/-- `api_delete_skill` (app.py lines 3715–3721): unconditional
`DELETE FROM npc_skills WHERE id=?`, success body `{'deleted': id}`. -/
def api_delete_skill (db : DB) (skillId : Int) : Row × DB :=
  ([("deleted", .jint skillId)],
   { db with skills := db.skills.filter (fun c => c.id ≠ skillId) })

/-- `api_add_weapon` (app.py lines 3731–3743): insert with required
`name` / `damage_str` / `damagedice` and defaulted optional fields. -/
def api_add_weapon (db : DB) (npcId : Int) (d : Row) : Except Unit DB :=
  match d.lookup "name", d.lookup "damage_str", d.lookup "damagedice" with
  | some nameV, some dsV, some ddV =>
    if npcExists db npcId then
      let wid := freshId db.seqWeapon (db.weapons.map (·.id))
      .ok { db with
              weapons := db.weapons ++ [⟨wid, npcId,
                [("name", nameV), ("damage_str", dsV), ("damagedice", ddV),
                 ("armor_piercing", (d.lookup "armor_piercing").getD (.jint 0)),
                 ("trait_type", (d.lookup "trait_type").getD (.jstr "Melee")),
                 ("range", (d.lookup "range").getD .jnull),
                 ("reach", (d.lookup "reach").getD (.jint 0)),
                 ("notes", (d.lookup "notes").getD .jnull)]⟩]
              seqWeapon := wid }
    else .error ()
  | _, _, _ => .error ()

/-- `api_delete_weapon` (app.py lines 3745–3751). -/
def api_delete_weapon (db : DB) (weaponId : Int) : Row × DB :=
  ([("deleted", .jint weaponId)],
   { db with weapons := db.weapons.filter (fun c => c.id ≠ weaponId) })

/-- `api_add_armor` (app.py lines 3761–3773). -/
def api_add_armor (db : DB) (npcId : Int) (d : Row) : Except Unit DB :=
  match d.lookup "name" with
  | some nameV =>
    if npcExists db npcId then
      let aid := freshId db.seqArmor (db.armor.map (·.id))
      .ok { db with
              armor := db.armor ++ [⟨aid, npcId,
                [("name", nameV),
                 ("protection", (d.lookup "protection").getD (.jint 0)),
                 ("area_protected", (d.lookup "area_protected").getD .jnull),
                 ("min_strength", (d.lookup "min_strength").getD .jnull),
                 ("weight", (d.lookup "weight").getD (.jint 0)),
                 ("cost", (d.lookup "cost").getD .jnull),
                 ("notes", (d.lookup "notes").getD .jnull)]⟩]
              seqArmor := aid }
    else .error ()
  | none => .error ()

/-- `api_delete_armor` (app.py lines 3775–3781). -/
def api_delete_armor (db : DB) (armorId : Int) : Row × DB :=
  ([("deleted", .jint armorId)],
   { db with armor := db.armor.filter (fun c => c.id ≠ armorId) })

/-- `api_add_gear` (app.py lines 3791–3801). -/
def api_add_gear (db : DB) (npcId : Int) (d : Row) : Except Unit DB :=
  match d.lookup "name" with
  | some nameV =>
    if npcExists db npcId then
      let gid := freshId db.seqGear (db.gear.map (·.id))
      .ok { db with
              gear := db.gear ++ [⟨gid, npcId,
                [("name", nameV),
                 ("quantity", (d.lookup "quantity").getD (.jint 1)),
                 ("weight", (d.lookup "weight").getD (.jint 0)),
                 ("cost", (d.lookup "cost").getD .jnull),
                 ("notes", (d.lookup "notes").getD .jnull)]⟩]
              seqGear := gid }
    else .error ()
  | none => .error ()

/-- `api_delete_gear` (app.py lines 3803–3809). -/
def api_delete_gear (db : DB) (gearId : Int) : Row × DB :=
  ([("deleted", .jint gearId)],
   { db with gear := db.gear.filter (fun c => c.id ≠ gearId) })

/-- `api_add_npc_hindrance` (app.py lines 4012–4022): required `name` and
`severity`, optional `source` / `notes`; stored without validation. -/
def api_add_npc_hindrance (db : DB) (npcId : Int) (data : Row) : Except Unit DB :=
  match data.lookup "name", data.lookup "severity" with
  | some nameV, some sevV =>
    if npcExists db npcId then
      let hid := freshId db.seqHindrance (db.hindrances.map (·.id))
      .ok { db with
              hindrances := db.hindrances ++ [⟨hid, npcId,
                [("name", nameV), ("severity", sevV),
                 ("source", (data.lookup "source").getD .jnull),
                 ("notes", (data.lookup "notes").getD .jnull)]⟩]
              seqHindrance := hid }
    else .error ()
  | _, _ => .error ()

/-- `api_delete_npc_hindrance` (app.py lines 4024–4030):
`DELETE ... WHERE id = ? AND npc_id = ?`. -/
def api_delete_npc_hindrance (db : DB) (npcId hindId : Int) : Row × DB :=
  ([("success", .jbool true)],
   { db with hindrances := db.hindrances.filter (fun c => ¬(c.id = hindId ∧ c.npcId = npcId)) })

/-- `api_add_npc_edge` (app.py lines 4055–4065). -/
def api_add_npc_edge (db : DB) (npcId : Int) (data : Row) : Except Unit DB :=
  match data.lookup "name" with
  | some nameV =>
    if npcExists db npcId then
      let eid := freshId db.seqEdge (db.edges.map (·.id))
      .ok { db with
              edges := db.edges ++ [⟨eid, npcId,
                [("name", nameV),
                 ("source", (data.lookup "source").getD .jnull),
                 ("notes", (data.lookup "notes").getD .jnull)]⟩]
              seqEdge := eid }
    else .error ()
  | none => .error ()

/-- `api_delete_npc_edge` (app.py lines 4067–4073). -/
def api_delete_npc_edge (db : DB) (npcId edgeId : Int) : Row × DB :=
  ([("success", .jbool true)],
   { db with edges := db.edges.filter (fun c => ¬(c.id = edgeId ∧ c.npcId = npcId)) })

/-- `api_add_npc_power` (app.py lines 4098–4109). -/
def api_add_npc_power (db : DB) (npcId : Int) (data : Row) : Except Unit DB :=
  match data.lookup "name" with
  | some nameV =>
    if npcExists db npcId then
      let pid := freshId db.seqPower (db.powers.map (·.id))
      .ok { db with
              powers := db.powers ++ [⟨pid, npcId,
                [("name", nameV),
                 ("power_points", (data.lookup "power_points").getD (.jint 0)),
                 ("range", (data.lookup "range").getD .jnull),
                 ("duration", (data.lookup "duration").getD .jnull),
                 ("trapping", (data.lookup "trapping").getD .jnull),
                 ("source", (data.lookup "source").getD .jnull),
                 ("notes", (data.lookup "notes").getD .jnull)]⟩]
              seqPower := pid }
    else .error ()
  | none => .error ()

/-- `api_delete_npc_power` (app.py lines 4111–4117). -/
def api_delete_npc_power (db : DB) (npcId powerId : Int) : Row × DB :=
  ([("success", .jbool true)],
   { db with powers := db.powers.filter (fun c => ¬(c.id = powerId ∧ c.npcId = npcId)) })

/-- `api_delete_legacy_gear` (app.py lines 3811–3828): pop an index out of
the `gear_json` array and write the remainder back.  The parse is
modelled with the string-array reader: the source would also pop from a
JSON list of non-strings, but every state that write produces is also
produced by `api_update_npc` setting the same column, so the narrowing
leaves the set of reachable states unchanged. -/
def api_delete_legacy_gear (db : DB) (npcId : Int) (index : Int) : Except HErr DB :=
  match db.npcs.find? (fun n => n.id = npcId) with
  | none => .error .notFound
  | some n =>
    let gj := rowGet n.fields "gear_json"
    if ¬ truthy gj then .error .notFound
    else
      match gj with
      | .jstr s =>
        match jsonLoadsArr s with
        | none => .error .serverErr
        | some items =>
          if index < 0 ∨ (items.length : Int) ≤ index then .error .badRequest
          else
            let remaining := items.eraseIdx index.toNat
            .ok { db with npcs := db.npcs.map (fun m =>
              if m.id = npcId then
                ⟨m.id, rowSet m.fields "gear_json" (.jstr (jsonDumps remaining))⟩
              else m) }
      | _ => .error .serverErr

/-- `Path(filename).suffix.lower()` for the portrait upload: the final
dot-extension of the last path component, empty for a bare or hidden
name. -/
def pathSuffixLower (filename : String) : String :=
  let name := (filename.splitOn "/").getLastD ""
  let segs := name.splitOn "."
  match segs with
  | [] => ""
  | [_] => ""
  | first :: rest =>
    if first = "" ∧ rest.length = 1 then ""
    else ("." ++ (segs.getLastD "")).toLower

/-- `api_upload_portrait` (app.py lines 4670–4691): three validation
rejections (no file part, empty filename, unknown extension) answer 400
without touching the database; otherwise one `UPDATE npcs SET
portrait_path=?` is committed (the saved image file is outside the
database state). -/
def api_upload_portrait (db : DB) (npcId : Int) (hasFile : Bool) (filename : String) :
    Nat × DB :=
  if ¬ hasFile then (400, db)
  else if filename = "" then (400, db)
  else
    let ext := pathSuffixLower filename
    if ¬ [".png", ".jpg", ".jpeg", ".webp", ".gif"].contains ext then (400, db)
    else
      let safeName := "npc_" ++ toString npcId ++ ext
      (200, { db with npcs := db.npcs.map (fun m =>
        if m.id = npcId then ⟨m.id, rowSet m.fields "portrait_path" (.jstr safeName)⟩ else m) })

/-! ## Legacy-JSON migration (`api_migration_execute`, app.py 4565–4660)

The handler loops over all NPCs, parses each legacy `*_json` column,
inserts non-duplicate child rows, clears the legacy columns of touched
NPCs, and commits once at the end.  The string-mangling helpers
`_parse_hindrance` / `_parse_edge` (regexes) and the catalogue matchers
are passed as parameters; every theorem below holds for all of them. -/

/-- Result shape of `_parse_hindrance` (app.py lines 4457–4468). -/
structure ParsedHindrance where
  name : String
  severity : String
  notes : String
deriving DecidableEq, Repr

/-- One database write issued inside a request, named by its statement. -/
inductive SqlWrite where
  | wInsHindrance (r : ChildRow)
  | wInsEdge (r : ChildRow)
  | wInsPower (r : ChildRow)
  | wClearLegacy (npcId : Int)
  | wSetPortrait (npcId : Int) (path : String)
deriving DecidableEq, Repr

/-- Effect of one write on the database. -/
def applyWrite : SqlWrite → DB → DB
  | .wInsHindrance r, db =>
    { db with hindrances := db.hindrances ++ [r], seqHindrance := r.id }
  | .wInsEdge r, db => { db with edges := db.edges ++ [r], seqEdge := r.id }
  | .wInsPower r, db => { db with powers := db.powers ++ [r], seqPower := r.id }
  | .wClearLegacy npcId, db =>
    { db with npcs := db.npcs.map (fun m =>
        if m.id = npcId then
          ⟨m.id, rowSet (rowSet (rowSet m.fields "hindrances_json" (.jstr "[]"))
            "edges_json" (.jstr "[]")) "powers_json" (.jstr "[]")⟩
        else m) }
  | .wSetPortrait npcId path, db =>
    { db with npcs := db.npcs.map (fun m =>
        if m.id = npcId then ⟨m.id, rowSet m.fields "portrait_path" (.jstr path)⟩ else m) }

/-- Apply a list of writes in order. -/
def applyWrites (ws : List SqlWrite) (db : DB) : DB := ws.foldl (fun d w => applyWrite w d) db

/-- The migration loop body for the hindrances of one NPC: emit an insert
per non-duplicate parsed legacy hindrance.  Accumulates the write list,
the pending database (the duplicate-check `SELECT` sees earlier
uncommitted inserts of the same request), and the `npc_touched` flag. -/
def migHindrances (parseH : String → ParsedHindrance) (matchH : String → Option String)
    (nid : Int) (raws : List String) (acc : List SqlWrite × DB × Bool) :
    List SqlWrite × DB × Bool :=
  raws.foldl (fun (acc : List SqlWrite × DB × Bool) raw =>
    let (ws, st, _touched) := acc
    let parsed := parseH raw
    let source := (matchH parsed.name).getD "Custom"
    if st.hindrances.any (fun c => c.npcId = nid ∧ rowGet c.fields "name" = .jstr parsed.name)
    then acc
    else
      let hid := freshId st.seqHindrance (st.hindrances.map (·.id))
      let r : ChildRow := ⟨hid, nid,
        [("name", .jstr parsed.name), ("severity", .jstr parsed.severity),
         ("source", .jstr source), ("notes", .jstr parsed.notes)]⟩
      (ws ++ [.wInsHindrance r], applyWrite (.wInsHindrance r) st, true)) acc

/-- The migration loop body for the edges of one NPC. -/
def migEdges (parseE : String → String × String) (matchE : String → Option String)
    (nid : Int) (raws : List String) (acc : List SqlWrite × DB × Bool) :
    List SqlWrite × DB × Bool :=
  raws.foldl (fun (acc : List SqlWrite × DB × Bool) raw =>
    let (ws, st, _touched) := acc
    let parsed := parseE raw
    let source := (matchE parsed.1).getD "Custom"
    if st.edges.any (fun c => c.npcId = nid ∧ rowGet c.fields "name" = .jstr parsed.1)
    then acc
    else
      let eid := freshId st.seqEdge (st.edges.map (·.id))
      let r : ChildRow := ⟨eid, nid,
        [("name", .jstr parsed.1), ("source", .jstr source), ("notes", .jstr parsed.2)]⟩
      (ws ++ [.wInsEdge r], applyWrite (.wInsEdge r) st, true)) acc

/-- The migration loop body for the powers of one NPC; `matchP` returns
the matched catalogue source and point cost, `none` for `Custom`/0. -/
def migPowers (matchP : String → Option (String × Int))
    (nid : Int) (raws : List String) (acc : List SqlWrite × DB × Bool) :
    List SqlWrite × DB × Bool :=
  raws.foldl (fun (acc : List SqlWrite × DB × Bool) raw =>
    let (ws, st, _touched) := acc
    let pName := raw.trim
    let (source, pp) := (matchP pName).getD ("Custom", 0)
    if st.powers.any (fun c => c.npcId = nid ∧ rowGet c.fields "name" = .jstr pName)
    then acc
    else
      let pid := freshId st.seqPower (st.powers.map (·.id))
      let r : ChildRow := ⟨pid, nid,
        [("name", .jstr pName), ("power_points", .jint pp),
         ("source", .jstr source), ("notes", .jstr "")]⟩
      (ws ++ [.wInsPower r], applyWrite (.wInsPower r) st, true)) acc

/-- The migration body for one NPC of the initial `fetchall`.  `none`
models the request aborting with an exception (a legacy column that does
not parse), carrying the writes already issued (they are never
committed). -/
def migNpc (parseH : String → ParsedHindrance) (parseE : String → String × String)
    (matchH matchE : String → Option String) (matchP : String → Option (String × Int))
    (acc : List SqlWrite × DB) (n : NpcRow) : Except (List SqlWrite) (List SqlWrite × DB) :=
  match loadJsonField (rowGet n.fields "hindrances_json"),
      loadJsonField (rowGet n.fields "edges_json"),
      loadJsonField (rowGet n.fields "powers_json") with
  | .ok hRaw, .ok eRaw, .ok pRaw =>
    if hRaw = [] ∧ eRaw = [] ∧ pRaw = [] then .ok acc
    else
      let a1 := migHindrances parseH matchH n.id hRaw (acc.1, acc.2, false)
      let a2 := migEdges parseE matchE n.id eRaw a1
      let (ws, st, touched) := migPowers matchP n.id pRaw a2
      if touched then
        .ok (ws ++ [.wClearLegacy n.id], applyWrite (.wClearLegacy n.id) st)
      else .ok (ws, st)
  | _, _, _ => .error acc.1

/-- The whole migration pass: fold the per-NPC body over the initial
`SELECT ... FROM npcs` snapshot; the error case carries the uncommitted
writes issued before the aborting exception (the three `json.loads`
calls of an NPC run before any of its inserts). -/
def migFold (parseH : String → ParsedHindrance) (parseE : String → String × String)
    (matchH matchE : String → Option String) (matchP : String → Option (String × Int))
    (db : DB) : Except (List SqlWrite) (List SqlWrite × DB) :=
  db.npcs.foldlM (migNpc parseH parseE matchH matchE matchP) ([], db)

/-- `api_migration_execute` (app.py lines 4565–4660) at the state level:
all inserts and legacy-column clears, or an error with the database
unchanged (the single `conn.commit()` never runs). -/
def api_migration_execute (parseH : String → ParsedHindrance)
    (parseE : String → String × String) (matchH matchE : String → Option String)
    (matchP : String → Option (String × Int)) (db : DB) : Except Unit DB :=
  match migFold parseH parseE matchH matchE matchP db with
  | .ok (_, st) => .ok st
  | .error _ => .error ()

/-! ## Per-request transaction traces (claim C8)

Each handler opens a connection, executes statements against it, and
calls `conn.commit()` exactly once at the end (or raises first).
A trace is the statement list of one request; SQLite's deferred
transaction makes uncommitted writes invisible: closing the connection
without commit rolls them back. -/

/-- One statement of a request trace. -/
inductive Stmt where
  | write (w : SqlWrite)
  | commit
deriving DecidableEq, Repr

/-- Run a trace: `committed` is the durable database, `pending` the
uncommitted view of the open connection; when the trace ends (the
request finishes or dies and the connection closes) only `committed`
survives. -/
def runStmts : List Stmt → DB → DB → DB
  | [], committed, _ => committed
  | .write w :: rest, committed, pending => runStmts rest committed (applyWrite w pending)
  | .commit :: rest, _, pending => runStmts rest pending pending

/-- The observable database if the request dies after the first `k`
statements (for `k` = trace length: the full request). -/
def observableAt (trace : List Stmt) (k : Nat) (db : DB) : DB :=
  runStmts (trace.take k) db db

/-- The statement trace of `api_migration_execute`: every write of the
loop followed by the single final `conn.commit()`; a request aborted by
a parse exception never reaches the commit. -/
def migrationTrace (parseH : String → ParsedHindrance)
    (parseE : String → String × String) (matchH matchE : String → Option String)
    (matchP : String → Option (String × Int)) (db : DB) : List Stmt :=
  match migFold parseH parseE matchH matchE matchP db with
  | .ok (ws, _) => ws.map .write ++ [.commit]
  | .error ws => ws.map .write

/-- The statement trace of `api_upload_portrait`: nothing on a validation
rejection, otherwise one `UPDATE` and the commit. -/
def portraitTrace (npcId : Int) (hasFile : Bool) (filename : String) : List Stmt :=
  if ¬ hasFile then []
  else if filename = "" then []
  else
    let ext := pathSuffixLower filename
    if ¬ [".png", ".jpg", ".jpeg", ".webp", ".gif"].contains ext then []
    else [.write (.wSetPortrait npcId ("npc_" ++ toString npcId ++ ext)), .commit]

/-! ## XML model (`fg_export.py`)

The exporter builds the XML document line by line; the embedding builds
the same document as a tree whose serialisation is the concatenation of
those lines.  Well-formedness of the serialised document is stated over
the flattened tag-event stream: tags balance, element names are valid,
and character data contains no raw `<` and only entity-forming `&`. -/

/-- One `replace(old, new)` step on a single character. -/
def replaceChar (t : Char) (rep : List Char) (cs : List Char) : List Char :=
  cs.flatMap (fun c => if c = t then rep else [c])

/-- `xml.sax.saxutils.escape`: `&` then `<` then `>` replaced by their
entities. -/
def xmlEscapeList (cs : List Char) : List Char :=
  replaceChar '>' "&gt;".toList (replaceChar '<' "&lt;".toList
    (replaceChar '&' "&amp;".toList cs))

/-- `fg_export.py` `xml_escape` (lines 35–38):
`""` for falsy input, `escape(str(text))` otherwise. -/
def xml_escape (v : JVal) : String :=
  if truthy v then String.mk (xmlEscapeList (pyStr v).toList) else ""

/-- Collapse runs of `_` to a single `_` (`re.sub(r'_+', '_', ...)`);
the flag records whether the previous kept character was `_`. -/
def collapseUnderscores : Bool → List Char → List Char
  | _, [] => []
  | prevU, c :: rest =>
    if c = '_' then
      if prevU then collapseUnderscores true rest
      else '_' :: collapseUnderscores true rest
    else c :: collapseUnderscores false rest

/-- `str.strip('_')`. -/
def stripUnderscores (cs : List Char) : List Char :=
  ((cs.dropWhile (fun c => c = '_')).reverse.dropWhile (fun c => c = '_')).reverse

/-- `fg_export.py` `make_id` (lines 40–44): lower-case the name, replace
every character outside `[a-zA-Z0-9_]` by `_`, collapse `_` runs, strip
leading/trailing `_`. -/
def make_id (name : String) : String :=
  let lowered := name.toList.map Char.toLower
  let subbed := lowered.map (fun c => if c.isAlphanum ∨ c = '_' then c else '_')
  String.mk (stripUnderscores (collapseUnderscores false subbed))

/-- A valid XML element/attribute name over the ASCII alphabet the
exporter emits: a letter or `_` first, then letters, digits, `_`, `-`,
`.`. -/
def validXmlName (s : String) : Bool :=
  match s.toList with
  | [] => false
  | c :: rest => (c.isAlpha ∨ c = '_') ∧ rest.all (fun d => d.isAlphanum ∨ d = '_' ∨ d = '-' ∨ d = '.')

/-- Valid XML character data: no raw `<`, and every `&` opens one of the
entities the exporter can emit (`&amp;` `&lt;` `&gt;` `&quot;`). -/
def textOkAux : List Char → Bool
  | [] => true
  | c :: rest =>
    if c = '<' then false
    else if c = '&' then
      match rest with
      | 'a' :: 'm' :: 'p' :: ';' :: r => textOkAux r
      | 'l' :: 't' :: ';' :: r => textOkAux r
      | 'g' :: 't' :: ';' :: r => textOkAux r
      | 'q' :: 'u' :: 'o' :: 't' :: ';' :: r => textOkAux r
      | _ => false
    else textOkAux rest

/-- Valid XML character data (string form). -/
def textOk (s : String) : Bool := textOkAux s.toList

/-- A valid attribute: valid name, and a double-quoted value free of
`"`, `<`, `&`. -/
def attrOk (a : String × String) : Bool :=
  validXmlName a.1 ∧ a.2.toList.all (fun c => c ≠ '"' ∧ c ≠ '<' ∧ c ≠ '&')

mutual

/-- An XML tree: an element with attributes and children, or character
data. -/
inductive XTree where
  | el (tag : String) (attrs : List (String × String)) (kids : XForest)
  | txt (s : String)

/-- A list of sibling XML trees (a separate inductive keeps every
recursion structural, hence kernel-evaluable). -/
inductive XForest where
  | nilF
  | consF (t : XTree) (rest : XForest)

end

/-- Build a forest from a list of trees. -/
def XForest.ofList (l : List XTree) : XForest := l.foldr .consF .nilF

mutual

/-- All names valid and all character data properly escaped. -/
def treeOk : XTree → Bool
  | .txt s => textOk s
  | .el tag attrs kids => validXmlName tag && attrs.all attrOk && forestOk kids

/-- `treeOk` over sibling trees. -/
def forestOk : XForest → Bool
  | .nilF => true
  | .consF t ts => treeOk t && forestOk ts

end

/-- One tag event of the serialised document. -/
inductive XEvt where
  | tagOpen (tag : String) (attrs : List (String × String))
  | tagClose (tag : String)
  | chars (s : String)
deriving DecidableEq, Repr

mutual

/-- The tag-event stream of a serialised tree. -/
def flattenTree : XTree → List XEvt
  | .txt s => [.chars s]
  | .el tag attrs kids => .tagOpen tag attrs :: flattenForest kids ++ [.tagClose tag]

/-- Event stream of a forest. -/
def flattenForest : XForest → List XEvt
  | .nilF => []
  | .consF t ts => flattenTree t ++ flattenForest ts

end

/-- The well-formedness checker over an event stream: a pushdown scan
matching every close tag against the innermost open tag and validating
names, attributes and character data.  Returns the remaining open-tag
stack, `none` on a violation. -/
def consume : List XEvt → List String → Option (List String)
  | [], st => some st
  | e :: rest, st =>
    match e, st with
    | .tagOpen t a, st =>
      if validXmlName t ∧ a.all attrOk then consume rest (t :: st) else none
    | .tagClose t, t' :: st' => if t = t' then consume rest st' else none
    | .tagClose _, [] => none
    | .chars s, st => if textOk s then consume rest st else none

/-- A well-formed document: the scan succeeds and every tag is closed. -/
def wfXml (events : List XEvt) : Bool := consume events [] = some []

/-! ## The Fantasy Grounds exporter (`fg_export.py` `npc_to_fg_xml`, lines 55–195) -/

/-- `if value and value > 0` (short-circuit: the comparison only runs on
truthy values and can raise there). -/
def pyTruthyGtZero (v : JVal) : Except Unit Bool :=
  if truthy v then pyGtZero v else .ok false

/-- Python `v != 0` (never raises). -/
def pyNeZero : JVal → Bool
  | .jint i => i ≠ 0
  | .jbool b => b
  | .jstr _ => true
  | .jnull => true

/-- Python `v > 1` for the gear quantity check (ints and bools only). -/
def pyGtOne : JVal → Except Unit Bool
  | .jint i => .ok (1 < i)
  | .jbool _ => .ok false
  | _ => .error ()

/-- `f"id-{idx:05d}"`. -/
def pad5 (n : Nat) : String :=
  let s := natRepr n
  if s.length < 5 then String.mk (List.replicate (5 - s.length) '0') ++ s else s

/-- `<tag type="string">…</tag>`. -/
def elStr (tag content : String) : XTree := .el tag [("type", "string")] (.ofList [.txt content])

/-- `<tag type="number">…</tag>`. -/
def elNum (tag content : String) : XTree := .el tag [("type", "number")] (.ofList [.txt content])

/-- `<tag type="dice">…</tag>`. -/
def elDice (tag content : String) : XTree := .el tag [("type", "dice")] (.ofList [.txt content])

/-- Wild Card block (fg_export.py lines 71–74). -/
def fgWildcardEls (npc : Row) : List XTree :=
  if rowGet npc "tier" = .jstr "Wild Card" then
    [elNum "wildcard" "1", elNum "bennies" (pyStr (pyOr (rowGet npc "bennies") (.jint 3)))]
  else []

/-- One attribute element when `val and val > 0` (fg_export.py 76–80). -/
def fgAttrEl (npc : Row) (attr : String) : Except Unit (List XTree) := do
  let val := rowGet npc attr
  if (← pyTruthyGtZero val) then
    pure [elDice attr (← fg_die_str val)]
  else pure []

/-- The five attribute elements, in source order. -/
def fgAttrEls (npc : Row) : Except Unit (List XTree) := do
  pure ((← fgAttrEl npc "agility") ++ (← fgAttrEl npc "smarts") ++ (← fgAttrEl npc "spirit") ++
    (← fgAttrEl npc "strength") ++ (← fgAttrEl npc "vigor"))

/-- Derived stats block (fg_export.py 82–85). -/
def fgDerivedEls (npc : Row) : List XTree :=
  [elNum "pace" (pyStr (pyOr (rowGet npc "pace") (.jint 6))),
   elNum "parry" (pyStr (pyOr (rowGet npc "parry") (.jint 2))),
   elNum "toughness" (pyStr (pyOr (rowGet npc "toughness") (.jint 5)))]

/-- `toughnessarmor` element (fg_export.py 86–87). -/
def fgToughArmorEls (npc : Row) : Except Unit (List XTree) := do
  if (← pyTruthyGtZero (rowGet npc "toughness_armor")) then
    pure [elNum "toughnessarmor" (pyStr (rowGet npc "toughness_armor"))]
  else pure []

/-- `size` element (fg_export.py 88–89). -/
def fgSizeEls (npc : Row) : List XTree :=
  let sz := rowGet npc "size"
  if truthy sz ∧ pyNeZero sz then [elNum "size" (pyStr sz)] else []

/-- One skill element of the `<skills>` list (fg_export.py 97–105). -/
def fgSkillEl (p : Nat × Row) : Except Unit XTree := do
  let ds ← fg_die_str (rowGet p.2 "die")
  pure (XTree.el ("id-" ++ pad5 (p.1 + 1)) [] (.ofList
    [elStr "name" (xml_escape (rowGet p.2 "name")),
     elDice "skill" ds,
     elNum "adjustment" (pyStr (pyOr (rowGet p.2 "modifier") (.jint 0))),
     elNum "skillmod" (pyStr (pyOr (rowGet p.2 "modifier") (.jint 0)))]))

/-- The `<skills>` block (fg_export.py 92–106). -/
def fgSkillsEls (skills : List Row) : Except Unit (List XTree) := do
  if skills ≠ [] then
    pure [XTree.el "skills" [] (.ofList (← skills.enum.mapM fgSkillEl))]
  else pure []

/-- A legacy JSON column rendered as a single string element when
non-empty (the edges / hindrances / gear / powers / special-abilities
pattern of fg_export.py 108–124, 165–171). -/
def fgJsonEls (tag sep : String) (v : JVal) : Except Unit (List XTree) := do
  let items ← loadJsonField v
  if items ≠ [] then
    pure [elStr tag (xml_escape (.jstr (String.intercalate sep items)))]
  else pure []

/-- The optional `armorpiercing` element (fg_export.py 140–141). -/
def fgApEls (w : Row) : Except Unit (List XTree) := do
  if (← pyTruthyGtZero (rowGet w "armor_piercing")) then
    pure [elNum "armorpiercing" (pyStr (rowGet w "armor_piercing"))]
  else pure []

/-- The `reach` element (fg_export.py 147–150). -/
def fgReachEls (w : Row) : Except Unit (List XTree) := do
  if (← pyTruthyGtZero (rowGet w "reach")) then
    pure [elNum "reach" (pyStr (rowGet w "reach"))]
  else pure [elNum "reach" "0"]

/-- One weapon element of `<weaponlist>` (fg_export.py 131–156);
`trait_type` is interpolated by the source without `xml_escape`. -/
def fgWeaponEl (p : Nat × Row) : Except Unit XTree := do
  let w := p.2
  let apEls ← fgApEls w
  let rangeEls :=
    if truthy (rowGet w "range") then [elStr "range" (xml_escape (rowGet w "range"))] else []
  let reachEls ← fgReachEls w
  let notesEls :=
    if truthy (rowGet w "notes") then [elStr "notes" (xml_escape (rowGet w "notes"))] else []
  pure (XTree.el ("id-" ++ pad5 (p.1 + 1)) [] (XForest.ofList
    ([elStr "name" (xml_escape (rowGet w "name")),
      elStr "damage" (xml_escape (rowGet w "damage_str")),
      elDice "damagedice" (xml_escape (rowGet w "damagedice")),
      elNum "damagebonus" (pyStr (pyOr (rowGet w "damage_bonus") (.jint 0)))] ++
     apEls ++
     [elStr "traittype" (pyStr (rowGet w "trait_type")),
      elNum "traitcount" "0", elNum "fumble" "1"] ++
     rangeEls ++ reachEls ++ notesEls ++
     [XTree.el "bonuslist" [] .nilF,
      XTree.el "link" [("type", "windowreference")] (.ofList
        [XTree.el "class" [] (.ofList [.txt "weapon"]), XTree.el "recordname" [] .nilF])])))

/-- The `<weaponlist>` block (fg_export.py 127–156). -/
def fgWeaponsEls (weapons : List Row) : Except Unit (List XTree) := do
  if weapons ≠ [] then
    pure [XTree.el "weaponlist" [] (.ofList (← weapons.enum.mapM fgWeaponEl))]
  else pure []

/-- The power-points block (fg_export.py 158–163). -/
def fgPowerEls (npc : Row) : Except Unit (List XTree) := do
  if (← pyTruthyGtZero (rowGet npc "power_points")) then
    pure ([elNum "powerpoints" (pyStr (rowGet npc "power_points"))] ++
      (← fgJsonEls "powers" ", " (rowGet npc "powers_json")))
  else pure []

/-- One `<p>` of the formatted-text description (fg_export.py 173–189). -/
def fgDescPart (npc : Row) (field : String) (label : Option String) : List XTree :=
  if truthy (rowGet npc field) then
    match label with
    | none => [XTree.el "p" [] (.ofList [.txt (xml_escape (rowGet npc field))])]
    | some lab => [XTree.el "p" [] (.ofList [XTree.el "b" [] (.ofList [.txt lab]),
        .txt (" " ++ xml_escape (rowGet npc field))])]
  else []

/-- The description parts, in source order (the quote wraps its escaped
text in literal `&quot;` inside `<i>`). -/
def fgDescParts (npc : Row) : List XTree :=
  (if truthy (rowGet npc "quote") then
    [XTree.el "p" [] (.ofList [XTree.el "i" [] (.ofList
      [.txt ("&quot;" ++ xml_escape (rowGet npc "quote") ++ "&quot;")])])]
   else []) ++
  fgDescPart npc "description" none ++
  fgDescPart npc "background" none ++
  fgDescPart npc "motivation" (some "What They Want:") ++
  fgDescPart npc "secret" (some "Their Secret:") ++
  fgDescPart npc "tactics" (some "Tactics:") ++
  fgDescPart npc "services" (some "Services:")

/-- The `<text type="formattedtext">` element (fg_export.py 191–193). -/
def fgDescEls (npc : Row) : List XTree :=
  let parts := fgDescParts npc
  if ¬ parts.isEmpty then [XTree.el "text" [("type", "formattedtext")] (.ofList parts)] else []

/-- `npc_to_fg_xml(conn, npc)` as a tree: one child block per source
block, in source order.  `skills` are the rows of `SELECT name, die,
modifier FROM npc_skills … ORDER BY name`, `weapons` of `SELECT * FROM
npc_weapons`.  Errors model the exceptions of the source (a non-string
`name` for `make_id`, a non-numeric value in a `> 0` comparison, an
unparseable legacy JSON column). -/
def npc_to_fg_xml (npc : Row) (skills weapons : List Row) : Except Unit XTree := do
  let nameV := rowGet npc "name"
  let nm ← (match nameV with | .jstr s => Except.ok s | _ => Except.error ())
  pure (XTree.el (make_id nm) [] (XForest.ofList
    ([elStr "name" (xml_escape nameV)] ++
     fgWildcardEls npc ++
     (← fgAttrEls npc) ++
     fgDerivedEls npc ++
     (← fgToughArmorEls npc) ++
     fgSizeEls npc ++
     (← fgSkillsEls skills) ++
     (← fgJsonEls "edges" ", " (rowGet npc "edges_json")) ++
     (← fgJsonEls "hindrances" ", " (rowGet npc "hindrances_json")) ++
     (← fgJsonEls "gear" ", " (rowGet npc "gear_json")) ++
     (← fgWeaponsEls weapons) ++
     (← fgPowerEls npc) ++
     (← fgJsonEls "specialabilities" "; " (rowGet npc "special_abilities_json")) ++
     fgDescEls npc ++
     [XTree.el "token" [("type", "token")] (.ofList [.txt ("tokens/" ++ make_id nm ++ ".png")])])))

/-- `api_fg_xml` (app.py lines 3920–3931): `404` for a missing id,
otherwise the exporter run on the row and its children. -/
def api_fg_xml (db : DB) (npcId : Int) : Except HErr XTree :=
  match db.npcs.find? (fun n => n.id = npcId) with
  | none => .error .notFound
  | some n =>
    let row : Row := ("id", .jint n.id) :: n.fields
    let skills := sortByName ((db.skills.filter (fun c => c.npcId = npcId)).map (·.fields))
    let weapons := (db.weapons.filter (fun c => c.npcId = npcId)).map childRowOut
    match npc_to_fg_xml row skills weapons with
    | .ok t => .ok t
    | .error _ => .error .serverErr

/-! ## The Markdown statblock (`api_statblock`, app.py lines 3830–3918) -/

/-- The statblock text assembled line by line by `api_statblock`; child
collections are passed in the order their `SELECT`s produce. -/
def statblock_lines (npc : Row) (skills managedH managedE gearItems armorItems managedP : List Row) :
    Except Unit String := do
  let mut lines : List String := []
  let wc := if rowGet npc "tier" = .jstr "Wild Card" then " (Wild Card)" else ""
  lines := lines ++ ["**" ++ pyStr (rowGet npc "name") ++ wc ++ "**"]
  if truthy (rowGet npc "quote") then
    lines := lines ++ ["*\"" ++ pyStr (rowGet npc "quote") ++ "\"*"]
  if truthy (rowGet npc "description") then
    lines := lines ++ ["\n" ++ pyStr (rowGet npc "description")]
  lines := lines ++ [""]
  -- `if npc['agility'] > 0` — raises on a NULL or non-numeric attribute
  let agiPos ← pyGtZero (rowGet npc "agility")
  if agiPos then
    lines := lines ++ ["**Attributes:** Agility " ++ (← app_die_str (rowGet npc "agility")) ++
      ", Smarts " ++ (← app_die_str (rowGet npc "smarts")) ++
      ", Spirit " ++ (← app_die_str (rowGet npc "spirit")) ++
      ", Strength " ++ (← app_die_str (rowGet npc "strength")) ++
      ", Vigor " ++ (← app_die_str (rowGet npc "vigor"))]
  if skills ≠ [] then
    let parts ← skills.mapM (fun s => do
      pure (pyStr (rowGet s "name") ++ " " ++ (← app_die_str (rowGet s "die"))))
    lines := lines ++ ["**Skills:** " ++ String.intercalate ", " parts]
  if agiPos then
    let t :=
      if truthy (rowGet npc "toughness_armor") then
        pyStr (rowGet npc "toughness") ++ " (" ++ pyStr (rowGet npc "toughness_armor") ++ ")"
      else pyStr (rowGet npc "toughness")
    lines := lines ++ ["**Pace:** " ++ pyStr (rowGet npc "pace") ++ "; **Parry:** " ++
      pyStr (rowGet npc "parry") ++ "; **Toughness:** " ++ t]
  let hindLegacy ← loadJsonField (rowGet npc "hindrances_json")
  if hindLegacy ≠ [] then
    lines := lines ++ ["**Hindrances:** " ++ String.intercalate ", " hindLegacy]
  let edgeLegacy ← loadJsonField (rowGet npc "edges_json")
  if edgeLegacy ≠ [] then
    lines := lines ++ ["**Edges:** " ++ String.intercalate ", " edgeLegacy]
  if managedH ≠ [] then
    let parts := managedH.map (fun h =>
      let base := pyStr (rowGet h "name")
      let base := if rowGet h "severity" = .jstr "Major" then base ++ " (Major)" else base
      if truthy (rowGet h "notes") then base ++ " — " ++ pyStr (rowGet h "notes") else base)
    lines := (lines.filter (fun l => ¬ l.startsWith "**Hindrances:**")) ++
      ["**Hindrances:** " ++ String.intercalate ", " parts]
  if managedE ≠ [] then
    let parts := managedE.map (fun e =>
      pyStr (rowGet e "name") ++
        (if truthy (rowGet e "notes") then " (" ++ pyStr (rowGet e "notes") ++ ")" else ""))
    lines := (lines.filter (fun l => ¬ l.startsWith "**Edges:**")) ++
      ["**Edges:** " ++ String.intercalate ", " parts]
  if gearItems ≠ [] then
    let parts ← gearItems.mapM (fun g => do
      let q := rowGet g "quantity"
      let big ← (if truthy q then pyGtOne q else Except.ok false)
      let base := if big then pyStr (rowGet g "name") ++ " ×" ++ pyStr q else pyStr (rowGet g "name")
      pure (if truthy (rowGet g "notes") then base ++ " (" ++ pyStr (rowGet g "notes") ++ ")" else base))
    lines := lines ++ ["**Gear:** " ++ String.intercalate ", " parts]
  else
    let legacy ← loadJsonField (rowGet npc "gear_json")
    if legacy ≠ [] then
      lines := lines ++ ["**Gear:** " ++ String.intercalate ", " legacy]
  if armorItems ≠ [] then
    let parts := armorItems.map (fun a =>
      pyStr (rowGet a "name") ++ " (+" ++ pyStr (rowGet a "protection") ++ ")" ++
        (if truthy (rowGet a "area_protected") then " — " ++ pyStr (rowGet a "area_protected") else ""))
    lines := lines ++ ["**Armour:** " ++ String.intercalate ", " parts]
  if (← pyTruthyGtZero (rowGet npc "power_points")) then
    if managedP ≠ [] then
      let parts := managedP.map (fun pr =>
        pyStr (rowGet pr "name") ++
          (if truthy (rowGet pr "trapping") then " [" ++ pyStr (rowGet pr "trapping") ++ "]" else ""))
      lines := lines ++ ["**Powers (" ++ pyStr (rowGet npc "power_points") ++ " PP):** " ++
        String.intercalate ", " parts]
    else
      let powers ← loadJsonField (rowGet npc "powers_json")
      lines := lines ++ ["**Powers (" ++ pyStr (rowGet npc "power_points") ++ " PP):** " ++
        String.intercalate ", " powers]
  if truthy (rowGet npc "tactics") then
    lines := lines ++ ["**Tactics:** " ++ pyStr (rowGet npc "tactics")]
  pure (String.intercalate "\n" lines)

/-- `api_statblock` (app.py lines 3830–3918): `404` for a missing id,
otherwise the Markdown statblock of the row and its children. -/
def api_statblock (db : DB) (npcId : Int) : Except HErr String :=
  match db.npcs.find? (fun n => n.id = npcId) with
  | none => .error .notFound
  | some n =>
    let row : Row := ("id", .jint n.id) :: n.fields
    let skills := sortByName ((db.skills.filter (fun c => c.npcId = npcId)).map (·.fields))
    let managedH :=
      sortBySeverityName ((db.hindrances.filter (fun c => c.npcId = npcId)).map (·.fields))
    let managedE := sortByName ((db.edges.filter (fun c => c.npcId = npcId)).map (·.fields))
    let gearItems := sortByName ((db.gear.filter (fun c => c.npcId = npcId)).map (·.fields))
    let armorItems := (db.armor.filter (fun c => c.npcId = npcId)).map (·.fields)
    let managedP := sortByName ((db.powers.filter (fun c => c.npcId = npcId)).map (·.fields))
    match statblock_lines row skills managedH managedE gearItems armorItems managedP with
    | .ok s => .ok s
    | .error _ => .error .serverErr

/-! ## Reachable database states and the claimed invariants (C3, C7) -/

/-- The child row's foreign key refers to an existing NPC row. -/
def refOk (npcs : List NpcRow) (c : ChildRow) : Prop := ∃ n ∈ npcs, n.id = c.npcId

/-- Every row of a child table refers to an existing NPC row. -/
def refAll (npcs : List NpcRow) (cs : List ChildRow) : Prop := ∀ c ∈ cs, refOk npcs c

/-- Referential integrity: every row of every child table refers to an
existing `npcs` row. -/
def fkInv (db : DB) : Prop :=
  refAll db.npcs db.skills ∧ refAll db.npcs db.weapons ∧
  refAll db.npcs db.armor ∧ refAll db.npcs db.gear ∧
  refAll db.npcs db.hindrances ∧ refAll db.npcs db.edges ∧
  refAll db.npcs db.powers

instance (npcs : List NpcRow) (c : ChildRow) : Decidable (refOk npcs c) := by
  unfold refOk; infer_instance

instance (npcs : List NpcRow) (cs : List ChildRow) : Decidable (refAll npcs cs) := by
  unfold refAll; infer_instance

instance (db : DB) : Decidable (fkInv db) := by unfold fkInv; infer_instance

/-- The database states reachable through the write routes of the HTTP
API, starting from the freshly created database.  Handlers that return
an error leave no new state (the transaction rolls back). -/
inductive Reach : DB → Prop where
  | init : Reach emptyDB
  | create {db data nid db'} : Reach db → api_create_npc db data = .ok (nid, db') → Reach db'
  | update {db npcId data db'} : Reach db → api_update_npc db npcId data = .ok db' → Reach db'
  | deleteNpc {db npcId} : Reach db → Reach (api_delete_npc db npcId).2
  | addSkill {db npcId data db'} : Reach db → api_add_skill db npcId data = .ok db' → Reach db'
  | addWeapon {db npcId d db'} : Reach db → api_add_weapon db npcId d = .ok db' → Reach db'
  | addArmor {db npcId d db'} : Reach db → api_add_armor db npcId d = .ok db' → Reach db'
  | addGear {db npcId d db'} : Reach db → api_add_gear db npcId d = .ok db' → Reach db'
  | addHindrance {db npcId data db'} : Reach db →
      api_add_npc_hindrance db npcId data = .ok db' → Reach db'
  | addEdge {db npcId data db'} : Reach db → api_add_npc_edge db npcId data = .ok db' → Reach db'
  | addPower {db npcId data db'} : Reach db → api_add_npc_power db npcId data = .ok db' → Reach db'
  | delSkill {db sid} : Reach db → Reach (api_delete_skill db sid).2
  | delWeapon {db wid} : Reach db → Reach (api_delete_weapon db wid).2
  | delArmor {db aid} : Reach db → Reach (api_delete_armor db aid).2
  | delGear {db gid} : Reach db → Reach (api_delete_gear db gid).2
  | delHindrance {db npcId hid} : Reach db → Reach (api_delete_npc_hindrance db npcId hid).2
  | delEdge {db npcId eid} : Reach db → Reach (api_delete_npc_edge db npcId eid).2
  | delPower {db npcId pid} : Reach db → Reach (api_delete_npc_power db npcId pid).2
  | legacyGear {db npcId idx db'} : Reach db →
      api_delete_legacy_gear db npcId idx = .ok db' → Reach db'
  | portrait {db npcId hasFile fname} : Reach db →
      Reach (api_upload_portrait db npcId hasFile fname).2
  | migrate {parseH parseE matchH matchE matchP db db'} : Reach db →
      api_migration_execute parseH parseE matchH matchE matchP db = .ok db' → Reach db'

/-- A die value of the SWADE ladder (`0` = untrained). -/
def dieOk (v : JVal) : Prop :=
  v = .jint 0 ∨ v = .jint 4 ∨ v = .jint 6 ∨ v = .jint 8 ∨ v = .jint 10 ∨ v = .jint 12

/-- A hindrance severity. -/
def sevOk (v : JVal) : Prop := v = .jstr "Minor" ∨ v = .jstr "Major"

/-- The five attribute columns. -/
def attrNames : List String := ["agility", "smarts", "spirit", "strength", "vigor"]

/-- A request body whose attribute die values (when supplied) are on the
ladder. -/
def goodNpcData (data : Row) : Prop :=
  ∀ kv ∈ data, kv.1 ∈ attrNames → dieOk kv.2

/-- A skill body whose `die` values are on the ladder. -/
def goodSkillData (data : Row) : Prop := ∀ kv ∈ data, kv.1 = "die" → dieOk kv.2

/-- A hindrance body whose `severity` values are `Minor`/`Major`. -/
def goodHindranceData (data : Row) : Prop := ∀ kv ∈ data, kv.1 = "severity" → sevOk kv.2

instance (v : JVal) : Decidable (dieOk v) := by unfold dieOk; infer_instance

instance (v : JVal) : Decidable (sevOk v) := by unfold sevOk; infer_instance

instance (data : Row) : Decidable (goodNpcData data) := by unfold goodNpcData; infer_instance

instance (data : Row) : Decidable (goodSkillData data) := by unfold goodSkillData; infer_instance

instance (data : Row) : Decidable (goodHindranceData data) := by
  unfold goodHindranceData; infer_instance

/-- The die/severity invariant of claim C7 over the stored state. -/
def dieInv (db : DB) : Prop :=
  (∀ n ∈ db.npcs, ∀ a ∈ attrNames, ∀ v, n.fields.lookup a = some v → dieOk v) ∧
  (∀ c ∈ db.skills, ∀ v, c.fields.lookup "die" = some v → dieOk v) ∧
  (∀ c ∈ db.hindrances, ∀ v, c.fields.lookup "severity" = some v → sevOk v)

/-- The states reachable through the operations named by claim C7
(NPC create/update, skill add, hindrance add, and the corresponding
deletes) when every supplied die value and severity is well-formed. -/
inductive ReachGood : DB → Prop where
  | init : ReachGood emptyDB
  | create {db data nid db'} : ReachGood db → goodNpcData data →
      api_create_npc db data = .ok (nid, db') → ReachGood db'
  | update {db npcId data db'} : ReachGood db → goodNpcData data →
      api_update_npc db npcId data = .ok db' → ReachGood db'
  | addSkill {db npcId data db'} : ReachGood db → goodSkillData data →
      api_add_skill db npcId data = .ok db' → ReachGood db'
  | addHindrance {db npcId data db'} : ReachGood db → goodHindranceData data →
      api_add_npc_hindrance db npcId data = .ok db' → ReachGood db'
  | deleteNpc {db npcId} : ReachGood db → ReachGood (api_delete_npc db npcId).2
  | delSkill {db sid} : ReachGood db → ReachGood (api_delete_skill db sid).2
  | delHindrance {db npcId hid} : ReachGood db → ReachGood (api_delete_npc_hindrance db npcId hid).2

/-! ## Hypothesis predicates for the exporter claims

The exporter interpolates some column values into the XML without
escaping; an NPC is renderable exactly when those values carry no markup
characters (integer and `NULL` values always qualify). -/

/-- The NPC columns `npc_to_fg_xml` interpolates without `xml_escape`
render as markup-free text. -/
def rawFieldsOk (npc : Row) : Prop :=
  textOk (pyStr (pyOr (rowGet npc "bennies") (.jint 3))) = true ∧
  textOk (pyStr (pyOr (rowGet npc "pace") (.jint 6))) = true ∧
  textOk (pyStr (pyOr (rowGet npc "parry") (.jint 2))) = true ∧
  textOk (pyStr (pyOr (rowGet npc "toughness") (.jint 5))) = true ∧
  textOk (pyStr (rowGet npc "toughness_armor")) = true ∧
  textOk (pyStr (rowGet npc "size")) = true ∧
  textOk (pyStr (rowGet npc "power_points")) = true

/-- The weapon columns interpolated without `xml_escape` (notably
`trait_type`) render as markup-free text. -/
def weaponRawOk (w : Row) : Prop :=
  textOk (pyStr (rowGet w "trait_type")) = true ∧
  textOk (pyStr (pyOr (rowGet w "damage_bonus") (.jint 0))) = true ∧
  textOk (pyStr (rowGet w "armor_piercing")) = true ∧
  textOk (pyStr (rowGet w "reach")) = true

/-- The skill `modifier` column renders as markup-free text. -/
def skillRawOk (s : Row) : Prop :=
  textOk (pyStr (pyOr (rowGet s "modifier") (.jint 0))) = true

/-! # Theorems -/

/-! ## Shared helper lemmas -/

theorem textOkAux_cons_safe {c : Char} (h1 : c ≠ '<') (h2 : c ≠ '&') (cs : List Char) :
    textOkAux (c :: cs) = textOkAux cs := by
  rw [textOkAux.eq_def]
  simp [h1, h2]

theorem textOkAux_append {a b : List Char} (ha : textOkAux a = true) (hb : textOkAux b = true) :
    textOkAux (a ++ b) = true := by
  induction a using textOkAux.induct with
  | case1 => simpa using hb
  | case2 rest =>
    rw [textOkAux.eq_def] at ha
    simp at ha
  | case3 r _h ih =>
    rw [textOkAux.eq_def] at ha
    simp at ha
    simp only [List.cons_append]
    rw [textOkAux.eq_def]
    simp only []
    simp
    exact ih ha
  | case4 r _h ih =>
    rw [textOkAux.eq_def] at ha
    simp at ha
    simp only [List.cons_append]
    rw [textOkAux.eq_def]
    simp
    exact ih ha
  | case5 r _h ih =>
    rw [textOkAux.eq_def] at ha
    simp at ha
    simp only [List.cons_append]
    rw [textOkAux.eq_def]
    simp
    exact ih ha
  | case6 r _h ih =>
    rw [textOkAux.eq_def] at ha
    simp at ha
    simp only [List.cons_append]
    rw [textOkAux.eq_def]
    simp
    exact ih ha
  | case7 rest hamp hlt hgt hquot _h =>
    exfalso
    rw [textOkAux.eq_def] at ha
    simp at ha
  | case8 c rest h1 h2 ih =>
    rw [textOkAux_cons_safe h1 h2] at ha
    rw [List.cons_append, textOkAux_cons_safe h1 h2]
    exact ih ha

theorem textOkAux_of_all_safe {cs : List Char} (h : ∀ c ∈ cs, c ≠ '<' ∧ c ≠ '&') :
    textOkAux cs = true := by
  induction cs with
  | nil => rfl
  | cons c rest ih =>
    have hc := h c (by simp)
    rw [textOkAux_cons_safe hc.1 hc.2]
    exact ih (fun d hd => h d (by simp [hd]))

theorem digitChar10_isDigit {d : Nat} (h : d < 10) : (digitChar10 d).isDigit = true := by
  interval_cases d <;> decide

theorem digitChar10_safe {d : Nat} (h : d < 10) :
    digitChar10 d ≠ '<' ∧ digitChar10 d ≠ '&' := by
  interval_cases d <;> decide

theorem natReprAux_digits {fuel n : Nat} : ∀ c ∈ natReprAux fuel n, c.isDigit = true := by
  induction fuel generalizing n with
  | zero => simp [natReprAux]
  | succ fuel ih =>
    intro c hc
    rw [natReprAux] at hc
    by_cases h : n < 10
    · simp [h] at hc
      subst hc
      exact digitChar10_isDigit h
    · simp [h] at hc
      rcases hc with hc | hc
      · exact ih _ hc
      · subst hc
        exact digitChar10_isDigit (Nat.mod_lt _ (by norm_num))

theorem digit_safe {c : Char} (h : c.isDigit = true) : c ≠ '<' ∧ c ≠ '&' := by
  refine ⟨?_, ?_⟩ <;> rintro rfl <;> simp [Char.isDigit] at h

theorem textOk_natRepr (n : Nat) : textOk (natRepr n) = true := by
  apply textOkAux_of_all_safe
  intro c hc
  exact digit_safe (natReprAux_digits c hc)

theorem textOk_intRepr (i : Int) : textOk (intRepr i) = true := by
  rw [intRepr]
  split
  · apply textOkAux_of_all_safe
    intro c hc
    simp [String.toList] at hc
    rcases hc with rfl | hc
    · decide
    · exact digit_safe (natReprAux_digits c hc)
  · exact textOk_natRepr _

/-- A rendered integer is always markup-free text. -/
theorem textOk_pyStr_int (i : Int) : textOk (pyStr (.jint i)) = true := textOk_intRepr i

theorem xmlEscapeList_append (a b : List Char) :
    xmlEscapeList (a ++ b) = xmlEscapeList a ++ xmlEscapeList b := by
  simp [xmlEscapeList, replaceChar, List.flatMap_append]

theorem textOkAux_xmlEscapeList (cs : List Char) : textOkAux (xmlEscapeList cs) = true := by
  induction cs with
  | nil => rfl
  | cons c rest ih =>
    have : c :: rest = [c] ++ rest := rfl
    rw [this, xmlEscapeList_append]
    apply textOkAux_append _ ih
    by_cases h1 : c = '&'
    · subst h1; decide
    · by_cases h2 : c = '<'
      · subst h2; decide
      · by_cases h3 : c = '>'
        · subst h3; decide
        · have : xmlEscapeList [c] = [c] := by
            simp [xmlEscapeList, replaceChar, h1, h2, h3]
          rw [this]
          by_cases h4 : c = '"'
          · subst h4; decide
          · exact textOkAux_of_all_safe (by simp [h1, h2])

/-- `xml_escape` always yields markup-free character data. -/
theorem textOk_xml_escape (v : JVal) : textOk (xml_escape v) = true := by
  rw [xml_escape]
  split
  · exact textOkAux_xmlEscapeList _
  · rfl

theorem textOk_append {a b : String} (ha : textOk a = true) (hb : textOk b = true) :
    textOk (a ++ b) = true := by
  have hdata : (a ++ b).toList = a.toList ++ b.toList := by
    simp [String.toList]
  rw [textOk, hdata]
  exact textOkAux_append ha hb

theorem consume_append (a b : List XEvt) (st : List String) :
    consume (a ++ b) st = (consume a st).bind (fun st' => consume b st') := by
  induction a generalizing st with
  | nil => simp [consume]
  | cons e rest ih =>
    cases e with
    | tagOpen t attrs =>
      simp only [List.cons_append, consume]
      by_cases h : validXmlName t ∧ attrs.all attrOk
      · simp only [if_pos h]
        exact ih (t :: st)
      · rw [if_neg h, if_neg h]
        rfl
    | tagClose t =>
      match st with
      | [] =>
        simp only [List.cons_append, consume]
        rfl
      | t' :: st' =>
        simp only [List.cons_append, consume]
        by_cases h : t = t'
        · subst h
          simp only [if_pos rfl]
          exact ih st'
        · rw [if_neg h, if_neg h]
          rfl
    | chars s =>
      simp only [List.cons_append, consume]
      by_cases h : textOk s
      · simp only [if_pos h]
        exact ih st
      · rw [if_neg h, if_neg h]
        rfl

mutual

theorem consume_flattenTree (t : XTree) (h : treeOk t = true) (st : List String) :
    consume (flattenTree t) st = some st := by
  cases t with
  | txt s =>
    rw [treeOk] at h
    rw [flattenTree, consume]
    simp [h, consume]
  | el tag attrs kids =>
    rw [treeOk] at h
    simp only [Bool.and_eq_true, decide_eq_true_eq] at h
    obtain ⟨⟨hname, hattrs⟩, hkids⟩ := h
    rw [flattenTree, List.cons_append, consume]
    simp only [hname, hattrs, and_self, if_true, if_pos]
    rw [consume_append, consume_flattenForest kids hkids (tag :: st)]
    simp [consume]

theorem consume_flattenForest (ts : XForest) (h : forestOk ts = true) (st : List String) :
    consume (flattenForest ts) st = some st := by
  cases ts with
  | nilF =>
    rw [flattenForest]
    rfl
  | consF t rest =>
    rw [forestOk] at h
    simp only [Bool.and_eq_true] at h
    rw [flattenForest, consume_append, consume_flattenTree t h.1 st]
    exact consume_flattenForest rest h.2 st

end

/-- A tree with valid names, attributes and text serialises to a
well-formed document. -/
theorem wfXml_of_treeOk {t : XTree} (h : treeOk t = true) : wfXml (flattenTree t) = true := by
  rw [wfXml, consume_flattenTree t h []]
  simp

theorem forestOk_ofList_cons (t : XTree) (ts : List XTree) :
    forestOk (XForest.ofList (t :: ts)) = (treeOk t && forestOk (XForest.ofList ts)) := by
  rw [XForest.ofList, List.foldr_cons, forestOk, XForest.ofList]

theorem forestOk_ofList_append {a b : List XTree}
    (ha : forestOk (XForest.ofList a) = true) (hb : forestOk (XForest.ofList b) = true) :
    forestOk (XForest.ofList (a ++ b)) = true := by
  induction a with
  | nil => simpa using hb
  | cons t rest ih =>
    rw [forestOk_ofList_cons] at ha
    simp only [Bool.and_eq_true] at ha
    rw [List.cons_append, forestOk_ofList_cons]
    simp only [Bool.and_eq_true]
    exact ⟨ha.1, ih ha.2⟩

theorem forestOk_single {t : XTree} (h : treeOk t = true) :
    forestOk (XForest.ofList [t]) = true := by
  rw [forestOk_ofList_cons, h]
  rfl

theorem treeOk_el_text {tag : String} {attrs : List (String × String)} {s : String}
    (htag : validXmlName tag = true) (hattrs : attrs.all attrOk = true)
    (hs : textOk s = true) : treeOk (.el tag attrs (.ofList [.txt s])) = true := by
  rw [treeOk, htag, hattrs, forestOk_single (by rw [treeOk]; exact hs)]
  rfl

theorem treeOk_elStr {tag s : String} (htag : validXmlName tag = true)
    (hs : textOk s = true) : treeOk (elStr tag s) = true :=
  treeOk_el_text htag (by decide) hs

theorem treeOk_elNum {tag s : String} (htag : validXmlName tag = true)
    (hs : textOk s = true) : treeOk (elNum tag s) = true :=
  treeOk_el_text htag (by decide) hs

theorem treeOk_elDice {tag s : String} (htag : validXmlName tag = true)
    (hs : textOk s = true) : treeOk (elDice tag s) = true :=
  treeOk_el_text htag (by decide) hs

theorem pad5_digits {n : Nat} : ∀ c ∈ (pad5 n).toList, c.isDigit = true := by
  intro c hc
  by_cases h : (natRepr n).length < 5
  · have hp : pad5 n = String.mk (List.replicate (5 - (natRepr n).length) '0') ++ natRepr n := by
      rw [pad5]
      simp [h]
    rw [hp] at hc
    simp only [String.toList, String.data_append] at hc
    rcases List.mem_append.1 hc with hmem | hmem
    · have : c = '0' := List.eq_of_mem_replicate hmem
      subst this
      decide
    · exact natReprAux_digits c hmem
  · have hp : pad5 n = natRepr n := by
      rw [pad5]
      simp [h]
    rw [hp] at hc
    exact natReprAux_digits c hc

theorem validXmlName_idTag (n : Nat) : validXmlName ("id-" ++ pad5 n) = true := by
  have h1 : ("id-" ++ pad5 n).toList = 'i' :: 'd' :: '-' :: (pad5 n).toList := by
    simp [String.toList]
  rw [validXmlName, h1]
  simp only [List.all_cons, Bool.and_eq_true, decide_eq_true_eq]
  refine ⟨by decide, ⟨by decide, by decide, ?_⟩⟩
  rw [List.all_eq_true]
  intro c hc
  have hd := pad5_digits c hc
  simp [Char.isAlphanum, hd]

theorem textOk_fg_die {v : JVal} {s : String} (h : fg_die_str v = .ok s) :
    textOk s = true := by
  rw [fg_die_str] at h
  by_cases ht : truthy v
  · rw [if_pos ht] at h
    cases v with
    | jint i =>
      simp only [pyGtZero, Bind.bind, Except.bind, Pure.pure, Except.pure] at h
      have hs := Except.ok.inj h
      subst hs
      split
      · exact textOk_append (by decide) (textOk_pyStr_int i)
      · decide
    | jbool b =>
      simp only [pyGtZero, Bind.bind, Except.bind, Pure.pure, Except.pure] at h
      have hs := Except.ok.inj h
      subst hs
      cases b
      · decide
      · exact textOk_append (by decide) (by decide)
    | jnull => simp [truthy] at ht
    | jstr t =>
      simp only [pyGtZero, Bind.bind, Except.bind] at h
      exact absurd h (by simp)
  · rw [if_neg ht] at h
    have hs := Except.ok.inj h
    subst hs
    decide

theorem textOk_make_id (s : String) : textOk (make_id s) = true := by
  apply textOkAux_of_all_safe
  intro c hc
  rw [make_id] at hc
  simp only [String.toList] at hc
  have hstrip : ∀ x ∈ stripUnderscores (collapseUnderscores false
      ((s.toList.map Char.toLower).map (fun c => if c.isAlphanum ∨ c = '_' then c else '_'))),
      x ∈ collapseUnderscores false
        ((s.toList.map Char.toLower).map (fun c => if c.isAlphanum ∨ c = '_' then c else '_')) := by
    intro x hx
    rw [stripUnderscores] at hx
    have h1 := List.mem_reverse.1 hx
    have h2 := (List.dropWhile_sublist _).mem h1
    have h3 := List.mem_reverse.1 h2
    exact (List.dropWhile_sublist _).mem h3
  have hcol : ∀ (b : Bool) (l : List Char), (∀ x ∈ l, x.isAlphanum ∨ x = '_') →
      ∀ x ∈ collapseUnderscores b l, x.isAlphanum ∨ x = '_' := by
    intro b l
    induction l generalizing b with
    | nil => intro _ x hx; simp [collapseUnderscores] at hx
    | cons d rest ih =>
      intro hl x hx
      rw [collapseUnderscores] at hx
      by_cases hd : d = '_'
      · rw [if_pos hd] at hx
        by_cases hb : b
        · rw [if_pos hb] at hx
          exact ih true (fun y hy => hl y (by simp [hy])) x hx
        · rw [if_neg hb] at hx
          rcases List.mem_cons.1 hx with rfl | hx'
          · right; rfl
          · exact ih true (fun y hy => hl y (by simp [hy])) x hx'
      · rw [if_neg hd] at hx
        rcases List.mem_cons.1 hx with rfl | hx'
        · exact hl x (by simp)
        · exact ih false (fun y hy => hl y (by simp [hy])) x hx'
  have hsub : ∀ x ∈ (s.toList.map Char.toLower).map
      (fun c => if c.isAlphanum ∨ c = '_' then c else '_'), x.isAlphanum ∨ x = '_' := by
    intro x hx
    rcases List.mem_map.1 hx with ⟨y, _, rfl⟩
    split
    · next h => exact h
    · right; rfl
  have := hcol false _ hsub c (hstrip c hc)
  rcases this with h | rfl
  · constructor <;> rintro rfl <;> simp [Char.isAlphanum, Char.isAlpha, Char.isDigit,
      Char.isLower, Char.isUpper] at h
  · decide

theorem forestOk_ofList_forall {l : List XTree} (h : ∀ t ∈ l, treeOk t = true) :
    forestOk (XForest.ofList l) = true := by
  induction l with
  | nil => rfl
  | cons t rest ih =>
    rw [forestOk_ofList_cons, h t (by simp), ih (fun x hx => h x (by simp [hx]))]
    rfl

theorem mapM_ok_mem {α β : Type} {f : α → Except Unit β} :
    ∀ {l : List α} {res : List β}, l.mapM f = .ok res → ∀ b ∈ res, ∃ a ∈ l, f a = .ok b := by
  intro l
  induction l with
  | nil =>
    intro res h b hb
    rw [List.mapM_nil] at h
    have hres : res = [] := (Except.ok.inj h).symm
    subst hres
    simp at hb
  | cons a rest ih =>
    intro res h b hb
    rw [List.mapM_cons] at h
    cases hfa : f a with
    | error e =>
      rw [hfa] at h
      simp only [Bind.bind, Except.bind] at h
      exact absurd h (by simp)
    | ok b0 =>
      rw [hfa] at h
      simp only [Bind.bind, Except.bind] at h
      cases hrest : rest.mapM f with
      | error e =>
        rw [hrest] at h
        exact absurd h (by simp)
      | ok bs =>
        rw [hrest] at h
        simp only [Pure.pure, Except.pure] at h
        have hres := Except.ok.inj h
        subst hres
        rcases List.mem_cons.1 hb with rfl | hbs
        · exact ⟨a, by simp, hfa⟩
        · obtain ⟨a', ha', hfa'⟩ := ih hrest b hbs
          exact ⟨a', by simp [ha'], hfa'⟩

theorem fgWildcardEls_ok {npc : Row}
    (hben : textOk (pyStr (pyOr (rowGet npc "bennies") (.jint 3))) = true) :
    ∀ t ∈ fgWildcardEls npc, treeOk t = true := by
  intro t ht
  rw [fgWildcardEls] at ht
  split at ht
  · rcases List.mem_cons.1 ht with rfl | ht'
    · exact treeOk_elNum (by decide) (by decide)
    · rcases List.mem_cons.1 ht' with rfl | ht''
      · exact treeOk_elNum (by decide) hben
      · simp at ht''
  · simp at ht

theorem fgAttrEl_ok {npc : Row} {attr : String} {els : List XTree}
    (hattr : validXmlName attr = true) (h : fgAttrEl npc attr = .ok els) :
    ∀ t ∈ els, treeOk t = true := by
  rw [fgAttrEl] at h
  cases hg : pyTruthyGtZero (rowGet npc attr) with
  | error e =>
    rw [hg] at h
    simp only [Bind.bind, Except.bind] at h
    exact absurd h (by simp)
  | ok b =>
    rw [hg] at h
    simp only [Bind.bind, Except.bind] at h
    cases b with
    | false =>
      simp only [Bool.false_eq_true, if_false, Pure.pure, Except.pure] at h
      have := Except.ok.inj h
      subst this
      simp
    | true =>
      simp only [if_true, if_pos] at h
      cases hd : fg_die_str (rowGet npc attr) with
      | error e =>
        rw [hd] at h
        exact absurd h (by simp)
      | ok ds =>
        rw [hd] at h
        simp only [Pure.pure, Except.pure] at h
        have := Except.ok.inj h
        subst this
        intro t ht
        rcases List.mem_singleton.1 ht with rfl
        exact treeOk_elDice hattr (textOk_fg_die hd)

theorem fgAttrEls_ok {npc : Row} {els : List XTree} (h : fgAttrEls npc = .ok els) :
    ∀ t ∈ els, treeOk t = true := by
  rw [fgAttrEls] at h
  cases h1 : fgAttrEl npc "agility" with
  | error e => rw [h1] at h; simp only [Bind.bind, Except.bind] at h; exact absurd h (by simp)
  | ok l1 =>
    rw [h1] at h
    simp only [Bind.bind, Except.bind] at h
    cases h2 : fgAttrEl npc "smarts" with
    | error e => rw [h2] at h; exact absurd h (by simp)
    | ok l2 =>
      rw [h2] at h
      cases h3 : fgAttrEl npc "spirit" with
      | error e => rw [h3] at h; exact absurd h (by simp)
      | ok l3 =>
        rw [h3] at h
        cases h4 : fgAttrEl npc "strength" with
        | error e => rw [h4] at h; exact absurd h (by simp)
        | ok l4 =>
          rw [h4] at h
          cases h5 : fgAttrEl npc "vigor" with
          | error e => rw [h5] at h; exact absurd h (by simp)
          | ok l5 =>
            rw [h5] at h
            simp only [Pure.pure, Except.pure] at h
            have := Except.ok.inj h
            subst this
            intro t ht
            simp only [List.mem_append] at ht
            rcases ht with ((((ht | ht) | ht) | ht) | ht)
            · exact fgAttrEl_ok (by decide) h1 t ht
            · exact fgAttrEl_ok (by decide) h2 t ht
            · exact fgAttrEl_ok (by decide) h3 t ht
            · exact fgAttrEl_ok (by decide) h4 t ht
            · exact fgAttrEl_ok (by decide) h5 t ht

theorem fgDerivedEls_ok {npc : Row}
    (hpace : textOk (pyStr (pyOr (rowGet npc "pace") (.jint 6))) = true)
    (hparry : textOk (pyStr (pyOr (rowGet npc "parry") (.jint 2))) = true)
    (htough : textOk (pyStr (pyOr (rowGet npc "toughness") (.jint 5))) = true) :
    ∀ t ∈ fgDerivedEls npc, treeOk t = true := by
  intro t ht
  rw [fgDerivedEls] at ht
  rcases List.mem_cons.1 ht with rfl | ht'
  · exact treeOk_elNum (by decide) hpace
  · rcases List.mem_cons.1 ht' with rfl | ht''
    · exact treeOk_elNum (by decide) hparry
    · rcases List.mem_cons.1 ht'' with rfl | ht3
      · exact treeOk_elNum (by decide) htough
      · simp at ht3

theorem fgToughArmorEls_ok {npc : Row} {els : List XTree}
    (hta : textOk (pyStr (rowGet npc "toughness_armor")) = true)
    (h : fgToughArmorEls npc = .ok els) : ∀ t ∈ els, treeOk t = true := by
  rw [fgToughArmorEls] at h
  cases hg : pyTruthyGtZero (rowGet npc "toughness_armor") with
  | error e => rw [hg] at h; simp only [Bind.bind, Except.bind] at h; exact absurd h (by simp)
  | ok b =>
    rw [hg] at h
    simp only [Bind.bind, Except.bind] at h
    cases b with
    | false =>
      simp only [Bool.false_eq_true, if_false, Pure.pure, Except.pure] at h
      have := Except.ok.inj h
      subst this
      simp
    | true =>
      simp only [if_true, Pure.pure, Except.pure] at h
      have := Except.ok.inj h
      subst this
      intro t ht
      rcases List.mem_singleton.1 ht with rfl
      exact treeOk_elNum (by decide) hta

theorem fgSizeEls_ok {npc : Row} (hsz : textOk (pyStr (rowGet npc "size")) = true) :
    ∀ t ∈ fgSizeEls npc, treeOk t = true := by
  intro t ht
  rw [fgSizeEls] at ht
  split at ht
  · rcases List.mem_singleton.1 ht with rfl
    exact treeOk_elNum (by decide) hsz
  · simp at ht

theorem fgSkillEl_ok {p : Nat × Row} {t : XTree} (hsafe : skillRawOk p.2)
    (h : fgSkillEl p = .ok t) : treeOk t = true := by
  rw [fgSkillEl] at h
  cases hd : fg_die_str (rowGet p.2 "die") with
  | error e => rw [hd] at h; simp only [Bind.bind, Except.bind] at h; exact absurd h (by simp)
  | ok ds =>
    rw [hd] at h
    simp only [Bind.bind, Except.bind, Pure.pure, Except.pure] at h
    have := Except.ok.inj h
    subst this
    rw [treeOk, validXmlName_idTag]
    simp only [Bool.true_and, List.all_nil]
    apply forestOk_ofList_forall
    intro x hx
    rcases List.mem_cons.1 hx with rfl | hx1
    · exact treeOk_elStr (by decide) (textOk_xml_escape _)
    · rcases List.mem_cons.1 hx1 with rfl | hx2
      · exact treeOk_elDice (by decide) (textOk_fg_die hd)
      · rcases List.mem_cons.1 hx2 with rfl | hx3
        · exact treeOk_elNum (by decide) hsafe
        · rcases List.mem_cons.1 hx3 with rfl | hx4
          · exact treeOk_elNum (by decide) hsafe
          · simp at hx4

theorem fgSkillsEls_ok {skills : List Row} {els : List XTree}
    (hsafe : ∀ s ∈ skills, skillRawOk s) (h : fgSkillsEls skills = .ok els) :
    ∀ t ∈ els, treeOk t = true := by
  rw [fgSkillsEls] at h
  split at h
  · cases hm : skills.enum.mapM fgSkillEl with
    | error e => rw [hm] at h; simp only [Bind.bind, Except.bind] at h; exact absurd h (by simp)
    | ok l =>
      rw [hm] at h
      simp only [Bind.bind, Except.bind, Pure.pure, Except.pure] at h
      have := Except.ok.inj h
      subst this
      intro t ht
      rcases List.mem_singleton.1 ht with rfl
      rw [treeOk]
      simp only [Bool.and_eq_true]
      refine ⟨⟨by decide, by decide⟩, ?_⟩
      apply forestOk_ofList_forall
      intro x hx
      obtain ⟨p, hp, hfp⟩ := mapM_ok_mem hm x hx
      have hmem : p.2 ∈ skills :=
        List.getElem?_mem (List.mem_enum_iff_getElem?.1 hp)
      exact fgSkillEl_ok (hsafe p.2 hmem) hfp
  · simp only [Pure.pure, Except.pure] at h
    have := Except.ok.inj h
    subst this
    simp

theorem fgJsonEls_ok {tag sep : String} {v : JVal} {els : List XTree}
    (htag : validXmlName tag = true) (h : fgJsonEls tag sep v = .ok els) :
    ∀ t ∈ els, treeOk t = true := by
  rw [fgJsonEls] at h
  cases hl : loadJsonField v with
  | error e => rw [hl] at h; simp only [Bind.bind, Except.bind] at h; exact absurd h (by simp)
  | ok items =>
    rw [hl] at h
    simp only [Bind.bind, Except.bind] at h
    split at h
    · simp only [Pure.pure, Except.pure] at h
      have := Except.ok.inj h
      subst this
      intro t ht
      rcases List.mem_singleton.1 ht with rfl
      exact treeOk_elStr htag (textOk_xml_escape _)
    · simp only [Pure.pure, Except.pure] at h
      have := Except.ok.inj h
      subst this
      simp

theorem fgApEls_ok {w : Row} {els : List XTree}
    (hap : textOk (pyStr (rowGet w "armor_piercing")) = true)
    (h : fgApEls w = .ok els) : ∀ t ∈ els, treeOk t = true := by
  rw [fgApEls] at h
  cases hg : pyTruthyGtZero (rowGet w "armor_piercing") with
  | error e => rw [hg] at h; simp only [Bind.bind, Except.bind] at h; exact absurd h (by simp)
  | ok b =>
    rw [hg] at h
    simp only [Bind.bind, Except.bind] at h
    cases b with
    | false =>
      simp only [Bool.false_eq_true, if_false, Pure.pure, Except.pure] at h
      have := Except.ok.inj h
      subst this
      simp
    | true =>
      simp only [if_true, Pure.pure, Except.pure] at h
      have := Except.ok.inj h
      subst this
      intro t ht
      rcases List.mem_singleton.1 ht with rfl
      exact treeOk_elNum (by decide) hap

theorem fgReachEls_ok {w : Row} {els : List XTree}
    (hreach : textOk (pyStr (rowGet w "reach")) = true)
    (h : fgReachEls w = .ok els) : ∀ t ∈ els, treeOk t = true := by
  rw [fgReachEls] at h
  cases hg : pyTruthyGtZero (rowGet w "reach") with
  | error e => rw [hg] at h; simp only [Bind.bind, Except.bind] at h; exact absurd h (by simp)
  | ok b =>
    rw [hg] at h
    simp only [Bind.bind, Except.bind] at h
    cases b with
    | false =>
      simp only [Bool.false_eq_true, if_false, Pure.pure, Except.pure] at h
      have := Except.ok.inj h
      subst this
      intro t ht
      rcases List.mem_singleton.1 ht with rfl
      exact treeOk_elNum (by decide) (by decide)
    | true =>
      simp only [if_true, Pure.pure, Except.pure] at h
      have := Except.ok.inj h
      subst this
      intro t ht
      rcases List.mem_singleton.1 ht with rfl
      exact treeOk_elNum (by decide) hreach

theorem fgWeaponEl_ok {p : Nat × Row} {t : XTree} (hsafe : weaponRawOk p.2)
    (h : fgWeaponEl p = .ok t) : treeOk t = true := by
  obtain ⟨htrait, hbonus, hap, hreach⟩ := hsafe
  rw [fgWeaponEl] at h
  cases hA : fgApEls p.2 with
  | error e => rw [hA] at h; simp only [Bind.bind, Except.bind] at h; exact absurd h (by simp)
  | ok apEls =>
    rw [hA] at h
    simp only [Bind.bind, Except.bind] at h
    cases hR : fgReachEls p.2 with
    | error e => rw [hR] at h; exact absurd h (by simp)
    | ok reachEls =>
      rw [hR] at h
      simp only [Pure.pure, Except.pure] at h
      have := Except.ok.inj h
      subst this
      rw [treeOk, validXmlName_idTag]
      simp only [Bool.true_and, List.all_nil]
      apply forestOk_ofList_forall
      intro x hx
      simp only [List.mem_append] at hx
      rcases hx with ((((((hx | hx) | hx) | hx) | hx) | hx) | hx)
      · rcases List.mem_cons.1 hx with rfl | hx1
        · exact treeOk_elStr (by decide) (textOk_xml_escape _)
        · rcases List.mem_cons.1 hx1 with rfl | hx2
          · exact treeOk_elStr (by decide) (textOk_xml_escape _)
          · rcases List.mem_cons.1 hx2 with rfl | hx3
            · exact treeOk_elDice (by decide) (textOk_xml_escape _)
            · rcases List.mem_cons.1 hx3 with rfl | hx4
              · exact treeOk_elNum (by decide) hbonus
              · simp at hx4
      · exact fgApEls_ok hap hA x hx
      · rcases List.mem_cons.1 hx with rfl | hx1
        · exact treeOk_elStr (by decide) htrait
        · rcases List.mem_cons.1 hx1 with rfl | hx2
          · exact treeOk_elNum (by decide) (by decide)
          · rcases List.mem_cons.1 hx2 with rfl | hx3
            · exact treeOk_elNum (by decide) (by decide)
            · simp at hx3
      · split at hx
        · rcases List.mem_singleton.1 hx with rfl
          exact treeOk_elStr (by decide) (textOk_xml_escape _)
        · simp at hx
      · exact fgReachEls_ok hreach hR x hx
      · split at hx
        · rcases List.mem_singleton.1 hx with rfl
          exact treeOk_elStr (by decide) (textOk_xml_escape _)
        · simp at hx
      · rcases List.mem_cons.1 hx with rfl | hx1
        · decide
        · rcases List.mem_cons.1 hx1 with rfl | hx2
          · decide
          · simp at hx2

theorem fgWeaponsEls_ok {weapons : List Row} {els : List XTree}
    (hsafe : ∀ w ∈ weapons, weaponRawOk w) (h : fgWeaponsEls weapons = .ok els) :
    ∀ t ∈ els, treeOk t = true := by
  rw [fgWeaponsEls] at h
  split at h
  · cases hm : weapons.enum.mapM fgWeaponEl with
    | error e => rw [hm] at h; simp only [Bind.bind, Except.bind] at h; exact absurd h (by simp)
    | ok l =>
      rw [hm] at h
      simp only [Bind.bind, Except.bind, Pure.pure, Except.pure] at h
      have := Except.ok.inj h
      subst this
      intro t ht
      rcases List.mem_singleton.1 ht with rfl
      rw [treeOk]
      simp only [Bool.and_eq_true]
      refine ⟨⟨by decide, by decide⟩, ?_⟩
      apply forestOk_ofList_forall
      intro x hx
      obtain ⟨p, hp, hfp⟩ := mapM_ok_mem hm x hx
      have hmem : p.2 ∈ weapons :=
        List.getElem?_mem (List.mem_enum_iff_getElem?.1 hp)
      exact fgWeaponEl_ok (hsafe p.2 hmem) hfp
  · simp only [Pure.pure, Except.pure] at h
    have := Except.ok.inj h
    subst this
    simp

theorem fgPowerEls_ok {npc : Row} {els : List XTree}
    (hpp : textOk (pyStr (rowGet npc "power_points")) = true)
    (h : fgPowerEls npc = .ok els) : ∀ t ∈ els, treeOk t = true := by
  rw [fgPowerEls] at h
  cases hg : pyTruthyGtZero (rowGet npc "power_points") with
  | error e => rw [hg] at h; simp only [Bind.bind, Except.bind] at h; exact absurd h (by simp)
  | ok b =>
    rw [hg] at h
    simp only [Bind.bind, Except.bind] at h
    cases b with
    | false =>
      simp only [Bool.false_eq_true, if_false, Pure.pure, Except.pure] at h
      have := Except.ok.inj h
      subst this
      simp
    | true =>
      simp only [if_true] at h
      cases hj : fgJsonEls "powers" ", " (rowGet npc "powers_json") with
      | error e => rw [hj] at h; exact absurd h (by simp)
      | ok jEls =>
        rw [hj] at h
        simp only [Pure.pure, Except.pure] at h
        have := Except.ok.inj h
        subst this
        intro t ht
        simp only [List.mem_append] at ht
        rcases ht with ht | ht
        · rcases List.mem_singleton.1 ht with rfl
          exact treeOk_elNum (by decide) hpp
        · exact fgJsonEls_ok (by decide) hj t ht

theorem fgDescPart_ok {npc : Row} {field : String} {label : Option String}
    (hlab : ∀ lab, label = some lab → textOk lab = true) :
    ∀ t ∈ fgDescPart npc field label, treeOk t = true := by
  intro t ht
  rw [fgDescPart.eq_def] at ht
  split at ht
  · cases label with
    | none =>
      rcases List.mem_singleton.1 ht with rfl
      rw [treeOk]
      simp only [Bool.and_eq_true]
      refine ⟨⟨by decide, by decide⟩, ?_⟩
      exact forestOk_single (by rw [treeOk]; exact textOk_xml_escape _)
    | some lab =>
      rcases List.mem_singleton.1 ht with rfl
      rw [treeOk]
      simp only [Bool.and_eq_true]
      refine ⟨⟨by decide, by decide⟩, ?_⟩
      apply forestOk_ofList_forall
      intro x hx
      rcases List.mem_cons.1 hx with rfl | hx1
      · exact treeOk_el_text (by decide) (by decide) (hlab lab rfl)
      · rcases List.mem_singleton.1 hx1 with rfl
        rw [treeOk]
        exact textOk_append (by decide) (textOk_xml_escape _)
  · simp at ht

theorem fgDescParts_ok {npc : Row} : ∀ t ∈ fgDescParts npc, treeOk t = true := by
  intro t ht
  rw [fgDescParts] at ht
  simp only [List.mem_append] at ht
  rcases ht with ((((((ht | ht) | ht) | ht) | ht) | ht) | ht)
  · split at ht
    · rcases List.mem_singleton.1 ht with rfl
      rw [treeOk]
      simp only [Bool.and_eq_true]
      refine ⟨⟨by decide, by decide⟩, ?_⟩
      apply forestOk_single
      rw [treeOk]
      simp only [Bool.and_eq_true]
      refine ⟨⟨by decide, by decide⟩, ?_⟩
      apply forestOk_single
      rw [treeOk]
      exact textOk_append (textOk_append (by decide) (textOk_xml_escape _)) (by decide)
    · simp at ht
  · exact fgDescPart_ok (by simp) t ht
  · exact fgDescPart_ok (by simp) t ht
  · exact fgDescPart_ok (fun lab hl => by cases hl; decide) t ht
  · exact fgDescPart_ok (fun lab hl => by cases hl; decide) t ht
  · exact fgDescPart_ok (fun lab hl => by cases hl; decide) t ht
  · exact fgDescPart_ok (fun lab hl => by cases hl; decide) t ht

theorem fgDescEls_ok {npc : Row} : ∀ t ∈ fgDescEls npc, treeOk t = true := by
  intro t ht
  rw [fgDescEls] at ht
  split at ht
  · rcases List.mem_singleton.1 ht with rfl
    rw [treeOk]
    simp only [Bool.and_eq_true]
    refine ⟨⟨by decide, by decide⟩, ?_⟩
    exact forestOk_ofList_forall fgDescParts_ok
  · simp at ht

/-! ## Claim C4 -/

/-- C4, counterexample to the claim as stated: the exporter does not
always produce well-formed XML.  An NPC named `"7"` (storable through
`POST /api/npcs`) yields the element name `make_id("7") = "7"`, which is
not a valid XML name; and a weapon whose `trait_type` is `"<Melee>"` is
interpolated into the document unescaped. -/
theorem c4_counterexample :
    (match api_create_npc emptyDB [("name", .jstr "7"), ("agility", .jint 8)] with
     | .ok (nid, db) =>
       match api_fg_xml db nid with
       | .ok t => wfXml (flattenTree t)
       | .error _ => true
     | .error _ => true) = false ∧
    (match npc_to_fg_xml [("name", .jstr "K")] []
        [[("name", .jstr "K"), ("damage_str", .jstr "d4"), ("damagedice", .jstr "d4"),
          ("trait_type", .jstr "<Melee>")]] with
     | .ok t => wfXml (flattenTree t)
     | .error _ => true) = false := by
  constructor <;> decide

/-- C4 (amended): for every NPC row whose `name` is a string with
`make_id(name)` a valid XML element name, and whose raw-interpolated
columns (and those of its weapons and skills) render as markup-free text
— always true of integer and `NULL` values — a successful run of
`npc_to_fg_xml` produces a well-formed XML document.  (The Markdown half
of the claim is trivial: every character sequence is valid Markdown.) -/
theorem c4_fg_xml_well_formed (npc : Row) (skills weapons : List Row) (nm : String) (t : XTree)
    (hname : rowGet npc "name" = .jstr nm)
    (hid : validXmlName (make_id nm) = true)
    (hraw : rawFieldsOk npc)
    (hsk : ∀ s ∈ skills, skillRawOk s)
    (hw : ∀ w ∈ weapons, weaponRawOk w)
    (hgen : npc_to_fg_xml npc skills weapons = .ok t) :
    treeOk t = true ∧ wfXml (flattenTree t) = true := by
  obtain ⟨hben, hpace, hparry, htough, hta, hsz, hpp⟩ := hraw
  rw [npc_to_fg_xml] at hgen
  rw [hname] at hgen
  simp only [Bind.bind, Except.bind] at hgen
  cases hA : fgAttrEls npc with
  | error e => rw [hA] at hgen; exact absurd hgen (by simp)
  | ok attrEls =>
  rw [hA] at hgen
  cases hT : fgToughArmorEls npc with
  | error e => rw [hT] at hgen; exact absurd hgen (by simp)
  | ok taEls =>
  rw [hT] at hgen
  cases hS : fgSkillsEls skills with
  | error e => rw [hS] at hgen; exact absurd hgen (by simp)
  | ok skillsEls =>
  rw [hS] at hgen
  cases hE : fgJsonEls "edges" ", " (rowGet npc "edges_json") with
  | error e => rw [hE] at hgen; exact absurd hgen (by simp)
  | ok edgesEls =>
  rw [hE] at hgen
  cases hH : fgJsonEls "hindrances" ", " (rowGet npc "hindrances_json") with
  | error e => rw [hH] at hgen; exact absurd hgen (by simp)
  | ok hindEls =>
  rw [hH] at hgen
  cases hG : fgJsonEls "gear" ", " (rowGet npc "gear_json") with
  | error e => rw [hG] at hgen; exact absurd hgen (by simp)
  | ok gearEls =>
  rw [hG] at hgen
  cases hW : fgWeaponsEls weapons with
  | error e => rw [hW] at hgen; exact absurd hgen (by simp)
  | ok weaponEls =>
  rw [hW] at hgen
  cases hP : fgPowerEls npc with
  | error e => rw [hP] at hgen; exact absurd hgen (by simp)
  | ok powerEls =>
  rw [hP] at hgen
  cases hSp : fgJsonEls "specialabilities" "; " (rowGet npc "special_abilities_json") with
  | error e => rw [hSp] at hgen; exact absurd hgen (by simp)
  | ok spEls =>
  rw [hSp] at hgen
  simp only [Pure.pure, Except.pure] at hgen
  have hteq := Except.ok.inj hgen
  subst hteq
  have htree : treeOk (XTree.el (make_id nm) [] (XForest.ofList
      ([elStr "name" (xml_escape (.jstr nm))] ++ fgWildcardEls npc ++ attrEls ++
       fgDerivedEls npc ++ taEls ++ fgSizeEls npc ++ skillsEls ++ edgesEls ++ hindEls ++
       gearEls ++ weaponEls ++ powerEls ++ spEls ++ fgDescEls npc ++
       [XTree.el "token" [("type", "token")]
         (.ofList [.txt ("tokens/" ++ make_id nm ++ ".png")])]))) = true := by
    rw [treeOk, hid]
    simp only [Bool.true_and, List.all_nil]
    apply forestOk_ofList_forall
    intro x hx
    simp only [List.mem_append] at hx
    rcases hx with (((((((((((((hx | hx) | hx) | hx) | hx) | hx) | hx) | hx) | hx) |
      hx) | hx) | hx) | hx) | hx) | hx
    · rcases List.mem_singleton.1 hx with rfl
      exact treeOk_elStr (by decide) (textOk_xml_escape _)
    · exact fgWildcardEls_ok hben x hx
    · exact fgAttrEls_ok hA x hx
    · exact fgDerivedEls_ok hpace hparry htough x hx
    · exact fgToughArmorEls_ok hta hT x hx
    · exact fgSizeEls_ok hsz x hx
    · exact fgSkillsEls_ok hsk hS x hx
    · exact fgJsonEls_ok (by decide) hE x hx
    · exact fgJsonEls_ok (by decide) hH x hx
    · exact fgJsonEls_ok (by decide) hG x hx
    · exact fgWeaponsEls_ok hw hW x hx
    · exact fgPowerEls_ok hpp hP x hx
    · exact fgJsonEls_ok (by decide) hSp x hx
    · exact fgDescEls_ok x hx
    · rcases List.mem_singleton.1 hx with rfl
      exact treeOk_el_text (by decide) (by decide)
        (textOk_append (textOk_append (by decide) (textOk_make_id nm)) (by decide))
  exact ⟨htree, wfXml_of_treeOk htree⟩

/-- C4 witness: the amended theorem applied to a concrete minimal NPC. -/
theorem c4_fg_xml_well_formed_witness :
    wfXml (flattenTree ((npc_to_fg_xml [("name", .jstr "Lyssa")] [] []).toOption.getD
      (.txt ""))) = true :=
  (c4_fg_xml_well_formed [("name", .jstr "Lyssa")] [] [] "Lyssa" _ rfl (by decide)
    ⟨by decide, by decide, by decide, by decide, by decide, by decide, by decide⟩
    (by simp) (by simp) rfl).2

/-! ## Claim C1 -/

/-- C1: in the client build audit, with a non-negative Fighting die:
(a) when the NPC has no Fighting skill the Parry check passes exactly
for a Parry of 2, and (b) whenever Parry equals
`2 + floor(FightingDie / 2)` the audit emits a `pass` finding and no
`warn`. -/
theorem c1_audit_parry (skills : List AuditSkill) (edgesLegacy : List String) (parry : Int)
    (hdie : 0 ≤ fightingDie skills) :
    (skills.find? (fun s => s.name = "Fighting") = none →
      ((auditParryFinding skills edgesLegacy parry).level = "pass" ↔ parry = 2)) ∧
    (parry = 2 + fightingDie skills / 2 →
      (auditParryFinding skills edgesLegacy parry).level = "pass" ∧
      (auditParryFinding skills edgesLegacy parry).level ≠ "warn") := by
  have hlevel_ne : parry ≠ expParry skills →
      (auditParryFinding skills edgesLegacy parry).level = "info" ∨
      (auditParryFinding skills edgesLegacy parry).level = "warn" := by
    intro h
    rw [auditParryFinding, if_pos h]
    dsimp only
    split
    · exact Or.inl rfl
    · exact Or.inr rfl
  have hlevel_eq : parry = expParry skills →
      (auditParryFinding skills edgesLegacy parry).level = "pass" := by
    intro h
    rw [auditParryFinding, if_neg (by simp [h])]
  constructor
  · intro hnone
    have hf : fightingDie skills = 0 := by rw [fightingDie, hnone]
    have h2 : expParry skills = 2 := by rw [expParry, hf]; norm_num
    constructor
    · intro hlev
      by_contra hp
      rcases hlevel_ne (by rw [h2]; exact hp) with hl | hl <;>
        rw [hl] at hlev <;> exact absurd hlev (by decide)
    · intro hp
      exact hlevel_eq (by rw [h2, hp])
  · intro hpar
    have hpe : parry = expParry skills := by
      rw [expParry]
      rcases lt_or_eq_of_le hdie with hlt | heq
      · rw [if_pos hlt]
        exact hpar
      · rw [if_neg (by omega)]
        rw [← heq] at hpar
        simpa using hpar
    have hp := hlevel_eq hpe
    rw [hp]
    exact ⟨rfl, by decide⟩

/-- C1 witness: an NPC with Fighting d8 and Parry 6 passes the check. -/
theorem c1_audit_parry_witness :
    (auditParryFinding [⟨"Fighting", 8⟩] [] 6).level = "pass" :=
  ((c1_audit_parry [⟨"Fighting", 8⟩] [] 6 (by decide)).2 (by decide)).1

/-! ## Claim C5 -/

/-- C5: for every catalogue list and every source name `s` other than
`"All"` (and non-empty), the filter operations return only entries whose
`source` equals `s`; with the source absent or `"All"` the full list is
returned unchanged. -/
theorem c5_catalogue_filter (cat : List Row) (s : String) (hAll : s ≠ "All") (hne : s ≠ "") :
    (∀ e ∈ get_weapons cat (some s), rowGet e "source" = .jstr s) ∧
    (∀ e ∈ get_armor cat (some s), rowGet e "source" = .jstr s) ∧
    (∀ e ∈ get_gear cat (some s), rowGet e "source" = .jstr s) ∧
    (∀ sev, ∀ e ∈ get_hindrances cat (some s) sev, rowGet e "source" = .jstr s) ∧
    (∀ e ∈ api_catalogue_weapons cat (some s), rowGet e "source" = .jstr s) ∧
    (∀ e ∈ api_catalogue_armor cat (some s), rowGet e "source" = .jstr s) ∧
    (∀ e ∈ api_catalogue_gear cat (some s), rowGet e "source" = .jstr s) ∧
    (get_weapons cat none = cat ∧ get_weapons cat (some "All") = cat ∧
     get_armor cat none = cat ∧ get_armor cat (some "All") = cat ∧
     get_gear cat none = cat ∧ get_gear cat (some "All") = cat ∧
     api_catalogue_weapons cat none = cat ∧ api_catalogue_weapons cat (some "All") = cat ∧
     api_catalogue_armor cat none = cat ∧ api_catalogue_armor cat (some "All") = cat ∧
     api_catalogue_gear cat none = cat ∧ api_catalogue_gear cat (some "All") = cat) := by
  refine ⟨?_, ?_, ?_, ?_, ?_, ?_, ?_, ?_⟩
  · intro e he
    rw [get_weapons, if_pos ⟨hne, hAll⟩] at he
    exact of_decide_eq_true (List.mem_filter.1 he).2
  · intro e he
    rw [get_armor, if_pos ⟨hne, hAll⟩] at he
    exact of_decide_eq_true (List.mem_filter.1 he).2
  · intro e he
    rw [get_gear, if_pos ⟨hne, hAll⟩] at he
    exact of_decide_eq_true (List.mem_filter.1 he).2
  · intro sev e he
    rcases sev with _ | sv
    · simp only [get_hindrances.eq_def] at he
      rw [if_pos ⟨hne, hAll⟩] at he
      exact of_decide_eq_true (List.mem_filter.1 he).2
    · simp only [get_hindrances.eq_def] at he
      by_cases hsv : sv ≠ "" ∧ sv ≠ "All"
      · rw [if_pos hsv, if_pos ⟨hne, hAll⟩] at he
        have hm := (List.mem_filter.1 he).1
        exact of_decide_eq_true (List.mem_filter.1 hm).2
      · rw [if_neg hsv, if_pos ⟨hne, hAll⟩] at he
        exact of_decide_eq_true (List.mem_filter.1 he).2
  · intro e he
    rw [api_catalogue_weapons] at he
    simp only [Option.getD_some] at he
    rw [if_neg hAll] at he
    exact of_decide_eq_true (List.mem_filter.1 he).2
  · intro e he
    rw [api_catalogue_armor] at he
    simp only [Option.getD_some] at he
    rw [if_neg hAll] at he
    exact of_decide_eq_true (List.mem_filter.1 he).2
  · intro e he
    rw [api_catalogue_gear] at he
    simp only [Option.getD_some] at he
    rw [if_neg hAll] at he
    exact of_decide_eq_true (List.mem_filter.1 he).2
  · refine ⟨rfl, ?_, rfl, ?_, rfl, ?_, ?_, ?_, ?_, ?_, ?_, ?_⟩ <;>
      simp [get_weapons, get_armor, get_gear,
        api_catalogue_weapons, api_catalogue_armor, api_catalogue_gear]

/-- C5 witness: applied to a one-entry catalogue, source `"Core"`, and
the entry the filter returns. -/
theorem c5_catalogue_filter_witness :
    rowGet [("name", JVal.jstr "Axe"), ("source", JVal.jstr "Core")] "source" =
      JVal.jstr "Core" :=
  (c5_catalogue_filter [[("name", .jstr "Axe"), ("source", .jstr "Core")]] "Core"
    (by decide) (by decide)).1
    [("name", JVal.jstr "Axe"), ("source", JVal.jstr "Core")] (by decide)

/-! ## Claim C6 -/

/-- C6: for every id with no matching `npcs` row, `GET /api/npcs/<id>`,
the statblock export and the FG XML export all answer 404 with the JSON
body `{'error': 'Not found'}` (and, being reads, leave the database
unchanged — the handlers issue no write statement). -/
theorem c6_missing_npc_404 (db : DB) (npcId : Int)
    (h : ∀ n ∈ db.npcs, n.id ≠ npcId) :
    api_get_npc db npcId = .error .notFound ∧
    api_statblock db npcId = .error .notFound ∧
    api_fg_xml db npcId = .error .notFound ∧
    errBody .notFound = [("error", .jstr "Not found")] := by
  have hfind : db.npcs.find? (fun n => n.id = npcId) = none := by
    rw [List.find?_eq_none]
    intro n hn
    simp [h n hn]
  refine ⟨?_, ?_, ?_, rfl⟩
  · rw [api_get_npc, hfind]
  · rw [api_statblock, hfind]
  · rw [api_fg_xml, hfind]

/-- C6 witness: the empty database has no NPC 1. -/
theorem c6_missing_npc_404_witness : api_get_npc emptyDB 1 = .error .notFound :=
  (c6_missing_npc_404 emptyDB 1 (by simp [emptyDB])).1

/-! ## Claim C9 -/

/-- C9: the delete handlers are total and idempotent: for every id —
matching a row or not — they answer the success JSON body (never a 404),
and deleting twice leaves the same state as deleting once. -/
theorem c9_delete_total_idempotent (db : DB) (npcId skillId : Int) :
    (api_delete_npc db npcId).1 = [("deleted", .jint npcId)] ∧
    (api_delete_skill db skillId).1 = [("deleted", .jint skillId)] ∧
    (api_delete_npc (api_delete_npc db npcId).2 npcId).2 = (api_delete_npc db npcId).2 ∧
    (api_delete_skill (api_delete_skill db skillId).2 skillId).2 =
      (api_delete_skill db skillId).2 := by
  refine ⟨rfl, rfl, ?_, ?_⟩
  · rw [api_delete_npc, api_delete_npc]
    simp [List.filter_filter]
  · rw [api_delete_skill, api_delete_skill]
    simp [List.filter_filter]

/-! ## Claim C10 -/

/-- C10: the three `die_str` helpers agree on every trained die
(`v > 0` renders as `"d" ++ v`) but differ on the untrained case:
`app.py` and `npc_manager.py` render `0`/`None` as `"—"`, while
`fg_export.py` renders the empty string. -/
theorem c10_die_str_agreement (v : Int) (hv : 0 < v) :
    (app_die_str (.jint v) = .ok ("d" ++ intRepr v) ∧
     manager_die_str (.jint v) = .ok ("d" ++ intRepr v) ∧
     fg_die_str (.jint v) = .ok ("d" ++ intRepr v)) ∧
    (app_die_str (.jint 0) = .ok "—" ∧ manager_die_str (.jint 0) = .ok "—" ∧
     fg_die_str (.jint 0) = .ok "" ∧
     app_die_str .jnull = .ok "—" ∧ manager_die_str .jnull = .ok "—" ∧
     fg_die_str .jnull = .ok "") := by
  refine ⟨⟨?_, ?_, ?_⟩, rfl, rfl, rfl, rfl, rfl, rfl⟩
  · simp [app_die_str, truthy, pyGtZero, pyStr, hv, hv.ne', Bind.bind, Except.bind,
      Pure.pure, Except.pure]
  · simp [manager_die_str, truthy, pyGtZero, pyStr, hv, hv.ne', Bind.bind, Except.bind,
      Pure.pure, Except.pure]
  · simp [fg_die_str, truthy, pyGtZero, pyStr, hv, hv.ne', Bind.bind, Except.bind,
      Pure.pure, Except.pure]

/-- C10 witness: the helpers at `d8`. -/
theorem c10_die_str_agreement_witness :
    app_die_str (.jint 8) = .ok ("d" ++ intRepr 8) :=
  ((c10_die_str_agreement 8 (by decide)).1).1

/-! ## Claim C8 -/

theorem applyWrites_append (ws1 ws2 : List SqlWrite) (db : DB) :
    applyWrites (ws1 ++ ws2) db = applyWrites ws2 (applyWrites ws1 db) := by
  rw [applyWrites, applyWrites, applyWrites, List.foldl_append]

theorem runStmts_writes (ws : List SqlWrite) (c p : DB) :
    runStmts (ws.map .write) c p = c := by
  induction ws generalizing p with
  | nil => rfl
  | cons w rest ih =>
    rw [List.map_cons, runStmts]
    exact ih _

theorem runStmts_writes_append (ws : List SqlWrite) (rest : List Stmt) (c p : DB) :
    runStmts (ws.map .write ++ rest) c p = runStmts rest c (applyWrites ws p) := by
  induction ws generalizing p with
  | nil => rfl
  | cons w ws' ih =>
    rw [List.map_cons, List.cons_append, runStmts, ih]
    rfl

theorem foldl_preserve {α β : Type} {f : β → α → β} {P : β → Prop}
    (hf : ∀ b a, P b → P (f b a)) :
    ∀ (l : List α) (b), P b → P (l.foldl f b) := by
  intro l
  induction l with
  | nil => intro b hb; exact hb
  | cons a rest ih =>
    intro b hb
    rw [List.foldl_cons]
    exact ih _ (hf b a hb)

theorem foldlM_except_preserve {α β ε : Type} {f : β → α → Except ε β} {P : β → Prop}
    (hf : ∀ b a b', P b → f b a = .ok b' → P b') :
    ∀ (l : List α) (b), P b → ∀ b', l.foldlM f b = .ok b' → P b' := by
  intro l
  induction l with
  | nil =>
    intro b hb b' h
    rw [List.foldlM_nil] at h
    have : b = b' := Except.ok.inj h
    subst this
    exact hb
  | cons a rest ih =>
    intro b hb b' h
    rw [List.foldlM_cons] at h
    cases hfa : f b a with
    | error e =>
      rw [hfa] at h
      simp only [Bind.bind, Except.bind] at h
      exact absurd h (by simp)
    | ok b1 =>
      rw [hfa] at h
      simp only [Bind.bind, Except.bind] at h
      exact ih b1 (hf b a b1 hb hfa) b' h

theorem migHindrances_writes {parseH matchH nid raws db}
    {acc : List SqlWrite × DB × Bool} (hacc : acc.2.1 = applyWrites acc.1 db) :
    (migHindrances parseH matchH nid raws acc).2.1 =
      applyWrites (migHindrances parseH matchH nid raws acc).1 db := by
  rw [migHindrances]
  apply foldl_preserve (P := fun a => a.2.1 = applyWrites a.1 db) _ raws acc hacc
  intro b a hb
  dsimp only
  split
  · exact hb
  · simp only
    rw [applyWrites_append, ← hb]
    rfl

theorem migEdges_writes {parseE matchE nid raws db}
    {acc : List SqlWrite × DB × Bool} (hacc : acc.2.1 = applyWrites acc.1 db) :
    (migEdges parseE matchE nid raws acc).2.1 =
      applyWrites (migEdges parseE matchE nid raws acc).1 db := by
  rw [migEdges]
  apply foldl_preserve (P := fun a => a.2.1 = applyWrites a.1 db) _ raws acc hacc
  intro b a hb
  dsimp only
  split
  · exact hb
  · simp only
    rw [applyWrites_append, ← hb]
    rfl

theorem migPowers_writes {matchP nid raws db}
    {acc : List SqlWrite × DB × Bool} (hacc : acc.2.1 = applyWrites acc.1 db) :
    (migPowers matchP nid raws acc).2.1 =
      applyWrites (migPowers matchP nid raws acc).1 db := by
  rw [migPowers]
  apply foldl_preserve (P := fun a => a.2.1 = applyWrites a.1 db) _ raws acc hacc
  intro b a hb
  dsimp only
  split
  · exact hb
  · simp only
    rw [applyWrites_append, ← hb]
    rfl

theorem migNpc_writes {parseH parseE matchH matchE matchP db}
    {acc acc' : List SqlWrite × DB} {n : NpcRow} (hacc : acc.2 = applyWrites acc.1 db)
    (h : migNpc parseH parseE matchH matchE matchP acc n = .ok acc') :
    acc'.2 = applyWrites acc'.1 db := by
  rw [migNpc] at h
  split at h
  · rename_i hRaw eRaw pRaw hH hE hP
    split at h
    · have := Except.ok.inj h
      subst this
      exact hacc
    · have h1 : (migHindrances parseH matchH n.id hRaw (acc.1, acc.2, false)).2.1 =
          applyWrites (migHindrances parseH matchH n.id hRaw (acc.1, acc.2, false)).1 db :=
        migHindrances_writes (by simpa using hacc)
      have h2 : (migEdges parseE matchE n.id eRaw
            (migHindrances parseH matchH n.id hRaw (acc.1, acc.2, false))).2.1 =
          applyWrites (migEdges parseE matchE n.id eRaw
            (migHindrances parseH matchH n.id hRaw (acc.1, acc.2, false))).1 db :=
        migEdges_writes h1
      have h3 : (migPowers matchP n.id pRaw (migEdges parseE matchE n.id eRaw
            (migHindrances parseH matchH n.id hRaw (acc.1, acc.2, false)))).2.1 =
          applyWrites (migPowers matchP n.id pRaw (migEdges parseE matchE n.id eRaw
            (migHindrances parseH matchH n.id hRaw (acc.1, acc.2, false)))).1 db :=
        migPowers_writes h2
      rcases hmp : migPowers matchP n.id pRaw
          (migEdges parseE matchE n.id eRaw
            (migHindrances parseH matchH n.id hRaw (acc.1, acc.2, false))) with ⟨ws0, st0, touched0⟩
      dsimp only at h
      rw [hmp] at h h3
      simp only at h h3
      split at h
      · have := Except.ok.inj h
        subst this
        simp only
        rw [applyWrites_append, ← h3]
        rfl
      · have := Except.ok.inj h
        subst this
        exact h3
  · exact absurd h (by simp)

theorem migFold_applyWrites {parseH parseE matchH matchE matchP} {db : DB}
    {ws : List SqlWrite} {st : DB}
    (h : migFold parseH parseE matchH matchE matchP db = .ok (ws, st)) :
    st = applyWrites ws db := by
  have := foldlM_except_preserve (P := fun acc : List SqlWrite × DB => acc.2 = applyWrites acc.1 db)
    (fun b a b' hb hf => migNpc_writes hb hf) db.npcs ([], db) rfl (ws, st) h
  exact this

theorem observableAt_nil (k : Nat) (db : DB) : observableAt [] k db = db := by
  rw [observableAt, List.take_nil]
  rfl

/-- C8: the multi-statement handlers are atomic.  For the legacy-JSON
migration: when it succeeds its trace is all its writes followed by the
single final `commit`, every strict prefix of the trace observes the
original database, and the complete trace observes exactly the handler's
final state; when it aborts, no prefix of its trace ever changes the
observable database.  The portrait upload likewise either answers 400
with an empty trace or performs its one `UPDATE` and commit, and its
complete trace observes exactly the handler's final state. -/
theorem c8_request_atomicity (parseH : String → ParsedHindrance)
    (parseE : String → String × String) (matchH matchE : String → Option String)
    (matchP : String → Option (String × Int)) (db : DB) (npcId : Int)
    (hasFile : Bool) (fname : String) (k : Nat) :
    (∀ ws st, migFold parseH parseE matchH matchE matchP db = .ok (ws, st) →
      api_migration_execute parseH parseE matchH matchE matchP db = .ok st ∧
      (k < (migrationTrace parseH parseE matchH matchE matchP db).length →
        observableAt (migrationTrace parseH parseE matchH matchE matchP db) k db = db) ∧
      observableAt (migrationTrace parseH parseE matchH matchE matchP db)
        (migrationTrace parseH parseE matchH matchE matchP db).length db = st) ∧
    (∀ ws, migFold parseH parseE matchH matchE matchP db = .error ws →
      api_migration_execute parseH parseE matchH matchE matchP db = .error () ∧
      observableAt (migrationTrace parseH parseE matchH matchE matchP db) k db = db) ∧
    ((k < (portraitTrace npcId hasFile fname).length →
      observableAt (portraitTrace npcId hasFile fname) k db = db) ∧
     observableAt (portraitTrace npcId hasFile fname)
       (portraitTrace npcId hasFile fname).length db =
       (api_upload_portrait db npcId hasFile fname).2) := by
  refine ⟨?_, ?_, ?_⟩
  · intro ws st h
    have htr : migrationTrace parseH parseE matchH matchE matchP db =
        ws.map .write ++ [.commit] := by
      rw [migrationTrace, h]
    have hst := migFold_applyWrites h
    refine ⟨by rw [api_migration_execute, h], ?_, ?_⟩
    · intro hk
      rw [htr] at hk ⊢
      simp only [List.length_append, List.length_map, List.length_cons,
        List.length_nil] at hk
      rw [observableAt, List.take_append_of_le_length (by simp; omega),
        ← List.map_take]
      exact runStmts_writes _ _ _
    · rw [htr, observableAt, List.take_length, runStmts_writes_append, runStmts, runStmts]
      exact hst.symm
  · intro ws h
    have htr : migrationTrace parseH parseE matchH matchE matchP db = ws.map .write := by
      rw [migrationTrace, h]
    refine ⟨by rw [api_migration_execute, h], ?_⟩
    rw [htr, observableAt, ← List.map_take]
    exact runStmts_writes _ _ _
  · by_cases h1 : hasFile
    · by_cases h2 : fname = ""
      · have htr : portraitTrace npcId hasFile fname = [] := by
          rw [portraitTrace, if_neg (by simpa using h1), if_pos h2]
        have hdb : (api_upload_portrait db npcId hasFile fname).2 = db := by
          rw [api_upload_portrait, if_neg (by simpa using h1), if_pos h2]
        rw [htr, hdb]
        exact ⟨fun _ => observableAt_nil k db, observableAt_nil 0 db⟩
      · by_cases h3 : [".png", ".jpg", ".jpeg", ".webp", ".gif"].contains
            (pathSuffixLower fname)
        · have htr : portraitTrace npcId hasFile fname =
              [.write (.wSetPortrait npcId ("npc_" ++ toString npcId ++ pathSuffixLower fname)),
               .commit] := by
            rw [portraitTrace, if_neg (by simpa using h1), if_neg h2]
            rw [if_neg (not_not_intro h3)]
          have hdb : (api_upload_portrait db npcId hasFile fname).2 =
              applyWrite (.wSetPortrait npcId
                ("npc_" ++ toString npcId ++ pathSuffixLower fname)) db := by
            rw [api_upload_portrait, if_neg (by simpa using h1), if_neg h2]
            rw [if_neg (not_not_intro h3)]
            rfl
          rw [htr, hdb]
          constructor
          · intro hk
            simp only [List.length_cons, List.length_nil] at hk
            match k, hk with
            | 0, _ => rfl
            | 1, _ => rfl
          · rfl
        · have htr : portraitTrace npcId hasFile fname = [] := by
            rw [portraitTrace, if_neg (by simpa using h1), if_neg h2]
            rw [if_pos h3]
          have hdb : (api_upload_portrait db npcId hasFile fname).2 = db := by
            rw [api_upload_portrait, if_neg (by simpa using h1), if_neg h2]
            rw [if_pos h3]
          rw [htr, hdb]
          exact ⟨fun _ => observableAt_nil k db, observableAt_nil 0 db⟩
    · have htr : portraitTrace npcId hasFile fname = [] := by
        rw [portraitTrace, if_pos (by simpa using h1)]
      have hdb : (api_upload_portrait db npcId hasFile fname).2 = db := by
        rw [api_upload_portrait, if_pos (by simpa using h1)]
      rw [htr, hdb]
      exact ⟨fun _ => observableAt_nil k db, observableAt_nil 0 db⟩

/-- C8 witness: the migration conjunct on the empty database (an empty
write list committed) and the portrait conjunct on a 400 rejection. -/
theorem c8_request_atomicity_witness :
    api_migration_execute (fun r => ⟨r, "Minor", ""⟩) (fun r => (r, ""))
        (fun _ => none) (fun _ => none) (fun _ => none) emptyDB = .ok emptyDB ∧
    observableAt (portraitTrace 1 false "") (portraitTrace 1 false "").length emptyDB =
      (api_upload_portrait emptyDB 1 false "").2 := by
  have h := c8_request_atomicity (fun r => ⟨r, "Minor", ""⟩) (fun r => (r, ""))
    (fun _ => none) (fun _ => none) (fun _ => none) emptyDB 1 false "" 0
  exact ⟨(h.1 [] emptyDB rfl).1, h.2.2.2⟩

/-! ## Association-list lemmas for the row model -/

theorem lookup_mem {r : Row} {k : String} {v : JVal} (h : r.lookup k = some v) : (k, v) ∈ r := by
  induction r with
  | nil => exact absurd h (by simp [List.lookup])
  | cons kv rest ih =>
    cases kv with
    | mk k0 v0 =>
      rw [List.lookup] at h
      cases hbeq : (k == k0) with
      | true =>
        rw [hbeq] at h
        have hk : k = k0 := eq_of_beq hbeq
        have hv : v0 = v := Option.some.inj h
        subst hk; subst hv
        exact List.mem_cons_self _ _
      | false =>
        rw [hbeq] at h
        exact List.mem_cons_of_mem _ (ih h)

theorem lookup_cons_self {k : String} {v : JVal} {r : Row} :
    ((k, v) :: r).lookup k = some v := by
  rw [List.lookup, beq_self_eq_true]

theorem lookup_cons_ne {k k0 : String} {v0 : JVal} {r : Row} (h : k ≠ k0) :
    ((k0, v0) :: r).lookup k = r.lookup k := by
  rw [List.lookup]
  have : (k == k0) = false := beq_eq_false_iff_ne.mpr h
  rw [this]

theorem seq_le_foldl_max (ids : List Int) : ∀ (seq : Int), seq ≤ ids.foldl max seq := by
  induction ids with
  | nil => intro seq; exact le_refl _
  | cons a rest ih =>
    intro seq
    rw [List.foldl_cons]
    exact le_trans (le_max_left seq a) (ih _)

theorem mem_le_foldl_max {ids : List Int} : ∀ {i}, i ∈ ids → ∀ (seq : Int), i ≤ ids.foldl max seq := by
  induction ids with
  | nil => intro i h; exact absurd h (List.not_mem_nil _)
  | cons a rest ih =>
    intro i h seq
    rw [List.foldl_cons]
    cases h with
    | head => exact le_trans (le_max_right seq a) (seq_le_foldl_max rest _)
    | tail _ hmem => exact ih hmem _

theorem freshId_gt {seq : Int} {ids : List Int} {i : Int} (h : i ∈ ids) : i < freshId seq ids := by
  rw [freshId]
  exact lt_of_le_of_lt (mem_le_foldl_max h seq) (lt_add_one _)

theorem lookup_map_replace {r : Row} {k : String} (v : JVal) (h : (r.lookup k).isSome) :
    (r.map (fun kv => if kv.1 = k then (k, v) else kv)).lookup k = some v := by
  induction r with
  | nil => exact absurd h (by simp [List.lookup])
  | cons kv0 rest ih =>
    cases kv0 with
    | mk k0 v0 =>
      rw [List.map_cons]
      by_cases hk : k0 = k
      · rw [if_pos (by simpa using hk)]
        exact lookup_cons_self
      · rw [if_neg (by simpa using hk)]
        rw [lookup_cons_ne (fun he => hk he.symm)]
        rw [lookup_cons_ne (fun he => hk he.symm)] at h
        exact ih h

theorem lookup_append_single {r : Row} {k : String} (v : JVal) (h : r.lookup k = none) :
    (r ++ [(k, v)]).lookup k = some v := by
  induction r with
  | nil => exact lookup_cons_self
  | cons kv0 rest ih =>
    cases kv0 with
    | mk k0 v0 =>
      by_cases hk : k = k0
      · subst hk
        rw [lookup_cons_self] at h
        exact absurd h (by simp)
      · rw [lookup_cons_ne hk] at h
        rw [List.cons_append, lookup_cons_ne hk]
        exact ih h

theorem lookup_rowSet_self (r : Row) (k : String) (v : JVal) :
    (rowSet r k v).lookup k = some v := by
  rw [rowSet]
  by_cases h : (r.lookup k).isSome
  · rw [if_pos h]
    exact lookup_map_replace v h
  · rw [if_neg h]
    exact lookup_append_single v (Option.not_isSome_iff_eq_none.mp h)

theorem lookup_rowSet_other {r : Row} {k k0 : String} (v : JVal) (h : k ≠ k0) :
    (rowSet r k0 v).lookup k = r.lookup k := by
  rw [rowSet]
  by_cases hs : (r.lookup k0).isSome
  · rw [if_pos hs]
    clear hs
    induction r with
    | nil => rfl
    | cons kv0 rest ih =>
      cases kv0 with
      | mk k1 v1 =>
        rw [List.map_cons]
        by_cases hk : k1 = k0
        · rw [if_pos (by simpa using hk)]
          rw [lookup_cons_ne h, lookup_cons_ne (hk ▸ h), ih]
        · rw [if_neg (by simpa using hk)]
          by_cases hkk : k = k1
          · subst hkk
            rw [lookup_cons_self, lookup_cons_self]
          · rw [lookup_cons_ne hkk, lookup_cons_ne hkk, ih]
  · rw [if_neg hs]
    clear hs
    induction r with
    | nil => exact lookup_cons_ne h
    | cons kv0 rest ih =>
      cases kv0 with
      | mk k1 v1 =>
        by_cases hkk : k = k1
        · subst hkk
          rw [List.cons_append, lookup_cons_self, lookup_cons_self]
        · rw [List.cons_append, lookup_cons_ne hkk, lookup_cons_ne hkk, ih]

theorem applySets_lookup_not_mem {data : Row} {k : String} :
    ∀ {r : Row}, k ∉ data.map Prod.fst → (applySets r data).lookup k = r.lookup k := by
  induction data with
  | nil => intro r _; rfl
  | cons kv rest ih =>
    intro r h
    rw [List.map_cons, List.mem_cons] at h
    push_neg at h
    rw [applySets, List.foldl_cons]
    have step : (rest.foldl (fun acc kv => if kv.1 = "id" then acc else rowSet acc kv.1 kv.2)
        (if kv.1 = "id" then r else rowSet r kv.1 kv.2)) =
        applySets (if kv.1 = "id" then r else rowSet r kv.1 kv.2) rest := rfl
    rw [step, ih h.2]
    by_cases hid : kv.1 = "id"
    · rw [if_pos hid]
    · rw [if_neg hid]
      exact lookup_rowSet_other kv.2 h.1

theorem applySets_lookup_first {data : Row} {k : String} {v : JVal}
    (hnd : (data.map Prod.fst).Nodup) (hk : data.lookup k = some v) (hid : k ≠ "id") :
    ∀ (r : Row), (applySets r data).lookup k = some v := by
  induction data with
  | nil => exact absurd hk (by simp [List.lookup])
  | cons kv rest ih =>
    intro r
    cases kv with
    | mk k0 v0 =>
      rw [List.map_cons, List.nodup_cons] at hnd
      rw [applySets, List.foldl_cons]
      have step : (rest.foldl (fun acc kv => if kv.1 = "id" then acc else rowSet acc kv.1 kv.2)
          (if (k0, v0).1 = "id" then r else rowSet r (k0, v0).1 (k0, v0).2)) =
          applySets (if (k0, v0).1 = "id" then r else rowSet r k0 v0) rest := rfl
      rw [step]
      by_cases hkk : k = k0
      · subst hkk
        rw [lookup_cons_self] at hk
        have hv : v0 = v := Option.some.inj hk
        subst hv
        rw [applySets_lookup_not_mem hnd.1]
        rw [if_neg (by simpa using hid)]
        exact lookup_rowSet_self r k v0
      · rw [lookup_cons_ne hkk] at hk
        exact ih hnd.2 hk _

theorem present_lookup_not_mem {keys : List String} {data : Row} {k : String} (h : k ∉ keys) :
    (keys.filterMap (fun k0 => (data.lookup k0).map (fun v => (k0, v)))).lookup k = none := by
  induction keys with
  | nil => rfl
  | cons k0 rest ih =>
    rw [List.mem_cons] at h
    push_neg at h
    rw [List.filterMap_cons]
    cases h0 : data.lookup k0 with
    | none =>
      simp only [Option.map_none']
      exact ih h.2
    | some v0 =>
      simp only [Option.map_some']
      rw [lookup_cons_ne h.1]
      exact ih h.2

theorem present_lookup {keys : List String} {data : Row} {k : String}
    (hnd : keys.Nodup) (hk : k ∈ keys) :
    (keys.filterMap (fun k0 => (data.lookup k0).map (fun v => (k0, v)))).lookup k =
      data.lookup k := by
  induction keys with
  | nil => exact absurd hk (List.not_mem_nil _)
  | cons k0 rest ih =>
    rw [List.nodup_cons] at hnd
    rw [List.filterMap_cons]
    by_cases hkk : k = k0
    · subst hkk
      cases h0 : data.lookup k with
      | none =>
        simp only [Option.map_none']
        rw [present_lookup_not_mem hnd.1]
      | some v0 =>
        simp only [Option.map_some']
        exact lookup_cons_self
    · have hkr : k ∈ rest := by
        cases List.mem_cons.mp hk with
        | inl h => exact absurd h hkk
        | inr h => exact h
      cases h0 : data.lookup k0 with
      | none =>
        simp only [Option.map_none']
        exact ih hnd.2 hkr
      | some v0 =>
        simp only [Option.map_some']
        rw [lookup_cons_ne hkk]
        exact ih hnd.2 hkr

theorem find?_append_none {α} {p : α → Bool} {l1 l2 : List α} (h : l1.find? p = none) :
    (l1 ++ l2).find? p = l2.find? p := by
  induction l1 with
  | nil => rfl
  | cons a rest ih =>
    cases hp : p a with
    | true =>
      rw [List.find?_cons_of_pos _ hp] at h
      exact absurd h (by simp)
    | false =>
      rw [List.find?_cons_of_neg _ (by simp [hp])] at h
      rw [List.cons_append, List.find?_cons_of_neg _ (by simp [hp])]
      exact ih h

theorem applySets_lookup_cases {data : Row} {k : String} {v : JVal} :
    ∀ {r : Row}, (applySets r data).lookup k = some v → (k, v) ∈ data ∨ r.lookup k = some v := by
  induction data with
  | nil => intro r h; exact Or.inr h
  | cons kv rest ih =>
    intro r h
    rw [applySets, List.foldl_cons] at h
    have h' : (applySets (if kv.1 = "id" then r else rowSet r kv.1 kv.2) rest).lookup k =
        some v := h
    rcases ih h' with hmem | hr
    · exact Or.inl (List.mem_cons_of_mem _ hmem)
    · by_cases hid : kv.1 = "id"
      · rw [if_pos hid] at hr
        exact Or.inr hr
      · rw [if_neg hid] at hr
        by_cases hkk : k = kv.1
        · subst hkk
          rw [lookup_rowSet_self] at hr
          have hv : kv.2 = v := Option.some.inj hr
          left
          rw [← hv]
          exact List.mem_cons_self _ _
        · rw [lookup_rowSet_other _ hkk] at hr
          exact Or.inr hr

theorem mem_sortByName {r : Row} {rows : List Row} : r ∈ sortByName rows ↔ r ∈ rows :=
  (List.perm_insertionSort _ rows).mem_iff

theorem mem_sortBySeverityName {r : Row} {rows : List Row} :
    r ∈ sortBySeverityName rows ↔ r ∈ rows :=
  (List.perm_insertionSort _ rows).mem_iff

/-- C7 counterexample: the handlers store attribute dice without
validation — creating an NPC with `agility = 7` succeeds and reaches a
state violating the die invariant. -/
theorem c7_counterexample : ∃ db, Reach db ∧ ¬ dieInv db := by
  refine ⟨({ npcs := [⟨1, [("name", JVal.jstr "X"), ("agility", JVal.jint 7)]⟩],
             skills := [], weapons := [], armor := [], gear := [], hindrances := [],
             edges := [], powers := [], seqNpc := 1 } : DB),
    @Reach.create emptyDB [("name", JVal.jstr "X"), ("agility", JVal.jint 7)] 1 _
      Reach.init rfl, ?_⟩
  intro h
  have hd := h.1 ⟨1, [("name", JVal.jstr "X"), ("agility", JVal.jint 7)]⟩
    (List.mem_cons_self _ _) "agility" (by decide) (.jint 7) rfl
  exact absurd hd (by decide)

/-- C7 (amended): in every state reachable through the C7 operations
(NPC create/update, skill add, hindrance add, and the deletes) with
well-formed request bodies — supplied attribute and skill dice on the
SWADE ladder, severities `Minor`/`Major` — every stored attribute die,
skill die, and hindrance severity is well-formed. -/
theorem c7_die_severity_invariant (db : DB) (h : ReachGood db) : dieInv db := by
  induction h with
  | init =>
    exact ⟨fun n hn => absurd hn (List.not_mem_nil _),
      fun c hc => absurd hc (List.not_mem_nil _),
      fun c hc => absurd hc (List.not_mem_nil _)⟩
  | create hr hgood hc ih =>
    rename_i db0 data0 nid0 db'0
    rw [api_create_npc] at hc
    split at hc
    · exact absurd hc (by simp)
    · exact absurd hc (by simp)
    · injection hc with hinj
      injection hinj with h1 h2
      subst h2
      have hsub : ∀ a ∈ attrNames, a ∈ npcFields := by decide
      have hnd : npcFields.Nodup := by decide
      refine ⟨?_, ih.2.1, ih.2.2⟩
      intro n hn a ha v hv
      rcases List.mem_append.mp hn with hold | hnew
      · exact ih.1 n hold a ha v hv
      · have hn1 : n = ⟨freshId db0.seqNpc (db0.npcs.map (·.id)),
            npcFields.filterMap (fun k => (data0.lookup k).map (fun v => (k, v)))⟩ := by
          simpa using hnew
        rw [hn1] at hv
        rw [present_lookup hnd (hsub a ha)] at hv
        exact hgood (a, v) (lookup_mem hv) ha
  | update hr hgood hu ih =>
    rename_i db0 npcId0 data0 db'0
    rw [api_update_npc] at hu
    split at hu
    · exact absurd hu (by simp)
    · split at hu
      · exact absurd hu (by simp)
      · split at hu
        · have h2 := Except.ok.inj hu
          subst h2
          exact ih
        · split at hu
          · have h2 := Except.ok.inj hu
            subst h2
            refine ⟨?_, ih.2.1, ih.2.2⟩
            intro n hn a ha v hv
            rcases List.mem_map.mp hn with ⟨m, hm, hg⟩
            by_cases hmid : m.id = npcId0
            · rw [if_pos hmid] at hg
              rw [← hg] at hv
              rcases applySets_lookup_cases hv with hmem | hold
              · exact hgood (a, v) hmem ha
              · exact ih.1 m hm a ha v hold
            · rw [if_neg hmid] at hg
              rw [← hg] at hv
              exact ih.1 m hm a ha v hv
          · split at hu
            · exact absurd hu (by simp)
            · split at hu
              · exact absurd hu (by simp)
              · split at hu
                · exact absurd hu (by simp)
                · have h2 := Except.ok.inj hu
                  subst h2
                  refine ⟨?_, ih.2.1, ih.2.2⟩
                  intro n hn a ha v hv
                  rcases List.mem_map.mp hn with ⟨m, hm, hg⟩
                  by_cases hmid : m.id = npcId0
                  · rw [if_pos hmid] at hg
                    rw [← hg] at hv
                    rcases applySets_lookup_cases hv with hmem | hold
                    · exact hgood (a, v) hmem ha
                    · exact ih.1 m hm a ha v hold
                  · rw [if_neg hmid] at hg
                    rw [← hg] at hv
                    exact ih.1 m hm a ha v hv
  | addSkill hr hgood hs ih =>
    rename_i db0 npcId0 data0 db'0
    rw [api_add_skill] at hs
    split at hs
    case _ nameV dieV hname hdie =>
      split at hs
      · injection hs with hinj
        subst hinj
        refine ⟨ih.1, ?_, ih.2.2⟩
        intro c hc v hv
        rcases List.mem_append.mp hc with hold | hnew
        · exact ih.2.1 c (List.mem_of_mem_filter hold) v hv
        · have hc1 : c = ⟨freshId db0.seqSkill (db0.skills.map (·.id)), npcId0,
              [("name", nameV), ("die", dieV)]⟩ := by simpa using hnew
          rw [hc1] at hv
          rw [lookup_cons_ne (by decide), lookup_cons_self] at hv
          have hveq : dieV = v := Option.some.inj hv
          rw [← hveq]
          exact hgood ("die", dieV) (lookup_mem hdie) rfl
      · exact absurd hs (by simp)
    all_goals exact absurd hs (by simp)
  | addHindrance hr hgood hh ih =>
    rename_i db0 npcId0 data0 db'0
    rw [api_add_npc_hindrance] at hh
    split at hh
    case _ nameV sevV hname hsev =>
      split at hh
      · injection hh with hinj
        subst hinj
        refine ⟨ih.1, ih.2.1, ?_⟩
        intro c hc v hv
        rcases List.mem_append.mp hc with hold | hnew
        · exact ih.2.2 c hold v hv
        · have hc1 : c = ⟨freshId db0.seqHindrance (db0.hindrances.map (·.id)), npcId0,
              [("name", nameV), ("severity", sevV),
               ("source", (data0.lookup "source").getD .jnull),
               ("notes", (data0.lookup "notes").getD .jnull)]⟩ := by simpa using hnew
          rw [hc1] at hv
          rw [lookup_cons_ne (by decide), lookup_cons_self] at hv
          have hveq : sevV = v := Option.some.inj hv
          rw [← hveq]
          exact hgood ("severity", sevV) (lookup_mem hsev) rfl
      · exact absurd hh (by simp)
    all_goals exact absurd hh (by simp)
  | deleteNpc hr ih =>
    refine ⟨?_, ?_, ?_⟩
    · intro n hn a ha v hv
      exact ih.1 n (List.mem_of_mem_filter hn) a ha v hv
    · intro c hc v hv
      exact ih.2.1 c (List.mem_of_mem_filter hc) v hv
    · intro c hc v hv
      exact ih.2.2 c (List.mem_of_mem_filter hc) v hv
  | delSkill hr ih =>
    refine ⟨ih.1, ?_, ih.2.2⟩
    intro c hc v hv
    exact ih.2.1 c (List.mem_of_mem_filter hc) v hv
  | delHindrance hr ih =>
    refine ⟨ih.1, ih.2.1, ?_⟩
    intro c hc v hv
    exact ih.2.2 c (List.mem_of_mem_filter hc) v hv

/-- C7 witness: the invariant evaluated on the state created by one
well-formed create. -/
theorem c7_die_severity_invariant_witness :
    dieInv
      { npcs := [⟨1, [("name", JVal.jstr "X"), ("agility", JVal.jint 8)]⟩],
        skills := [], weapons := [], armor := [], gear := [], hindrances := [],
        edges := [], powers := [], seqNpc := 1 } :=
  c7_die_severity_invariant _
    (@ReachGood.create emptyDB [("name", JVal.jstr "X"), ("agility", JVal.jint 8)] 1 _
      ReachGood.init (by decide) rfl)

/-! ## Referential-integrity helper lemmas (claim C3) -/

theorem refOk_mono {npcs npcs' : List NpcRow} (hids : ∀ n ∈ npcs, ∃ m ∈ npcs', m.id = n.id)
    {c : ChildRow} (h : refOk npcs c) : refOk npcs' c := by
  obtain ⟨n, hn, hid⟩ := h
  obtain ⟨m, hm, hmid⟩ := hids n hn
  exact ⟨m, hm, hmid.trans hid⟩

theorem refAll_mono {npcs npcs' : List NpcRow} {cs : List ChildRow}
    (hids : ∀ n ∈ npcs, ∃ m ∈ npcs', m.id = n.id) (h : refAll npcs cs) : refAll npcs' cs :=
  fun c hc => refOk_mono hids (h c hc)

theorem refAll_append_one {npcs : List NpcRow} {cs : List ChildRow} {c0 : ChildRow}
    (h : refAll npcs cs) (h0 : refOk npcs c0) : refAll npcs (cs ++ [c0]) := by
  intro c hc
  rcases List.mem_append.mp hc with h1 | h2
  · exact h c h1
  · have hc0 : c = c0 := by simpa using h2
    rw [hc0]
    exact h0

theorem refAll_sub {npcs : List NpcRow} {cs cs' : List ChildRow}
    (hsub : ∀ c ∈ cs', c ∈ cs) (h : refAll npcs cs) : refAll npcs cs' :=
  fun c hc => h c (hsub c hc)

theorem ids_sub_append (npcs l : List NpcRow) : ∀ n ∈ npcs, ∃ m ∈ npcs ++ l, m.id = n.id :=
  fun n hn => ⟨n, List.mem_append_left _ hn, rfl⟩

theorem ids_map_keep {f : NpcRow → NpcRow} (hf : ∀ n, (f n).id = n.id) (npcs : List NpcRow) :
    ∀ n ∈ npcs, ∃ m ∈ npcs.map f, m.id = n.id :=
  fun n hn => ⟨f n, List.mem_map_of_mem f hn, hf n⟩

theorem fkInv_npcs_grow {db : DB} {npcs' : List NpcRow}
    (hids : ∀ n ∈ db.npcs, ∃ m ∈ npcs', m.id = n.id) (h : fkInv db) :
    refAll npcs' db.skills ∧ refAll npcs' db.weapons ∧ refAll npcs' db.armor ∧
    refAll npcs' db.gear ∧ refAll npcs' db.hindrances ∧ refAll npcs' db.edges ∧
    refAll npcs' db.powers :=
  ⟨refAll_mono hids h.1, refAll_mono hids h.2.1, refAll_mono hids h.2.2.1,
   refAll_mono hids h.2.2.2.1, refAll_mono hids h.2.2.2.2.1, refAll_mono hids h.2.2.2.2.2.1,
   refAll_mono hids h.2.2.2.2.2.2⟩

theorem refOk_of_npcExists {db : DB} {npcId : Int} (h : npcExists db npcId = true)
    (id0 : Int) (fields : Row) : refOk db.npcs ⟨id0, npcId, fields⟩ := by
  rw [npcExists, List.any_eq_true] at h
  obtain ⟨n, hn, hp⟩ := h
  exact ⟨n, hn, of_decide_eq_true hp⟩

theorem childRef_of_mem {db : DB} {c : ChildRow}
    (hc : c ∈ db.skills ∨ c ∈ db.weapons ∨ c ∈ db.armor ∨ c ∈ db.gear ∨
      c ∈ db.hindrances ∨ c ∈ db.edges ∨ c ∈ db.powers) :
    childRef db c.npcId = true := by
  rw [childRef]
  apply decide_eq_true
  rcases hc with h|h|h|h|h|h|h
  · exact Or.inl (List.any_eq_true.mpr ⟨c, h, by simp⟩)
  · exact Or.inr (Or.inl (List.any_eq_true.mpr ⟨c, h, by simp⟩))
  · exact Or.inr (Or.inr (Or.inl (List.any_eq_true.mpr ⟨c, h, by simp⟩)))
  · exact Or.inr (Or.inr (Or.inr (Or.inl (List.any_eq_true.mpr ⟨c, h, by simp⟩))))
  · exact Or.inr (Or.inr (Or.inr (Or.inr (Or.inl (List.any_eq_true.mpr ⟨c, h, by simp⟩)))))
  · exact Or.inr (Or.inr (Or.inr (Or.inr (Or.inr (Or.inl
      (List.any_eq_true.mpr ⟨c, h, by simp⟩))))))
  · exact Or.inr (Or.inr (Or.inr (Or.inr (Or.inr (Or.inr
      (List.any_eq_true.mpr ⟨c, h, by simp⟩))))))

theorem refAll_map_if {npcs : List NpcRow} {cs : List ChildRow} {npcId : Int}
    {g : NpcRow → NpcRow} (h : refAll npcs cs) (hno : ∀ c ∈ cs, c.npcId ≠ npcId) :
    refAll (npcs.map (fun m => if m.id = npcId then g m else m)) cs := by
  intro c hc
  obtain ⟨n, hn, hid⟩ := h c hc
  refine ⟨n, ?_, hid⟩
  have hne : n.id ≠ npcId := by
    rw [hid]
    exact hno c hc
  have hfix : (if n.id = npcId then g n else n) = n := if_neg hne
  rw [← hfix]
  exact List.mem_map_of_mem _ hn

theorem fkInv_delete (db : DB) (npcId : Int) (h : fkInv db) :
    fkInv (api_delete_npc db npcId).2 := by
  have comp : ∀ (cs : List ChildRow), refAll db.npcs cs →
      refAll (db.npcs.filter (fun n => n.id ≠ npcId))
        (cs.filter (fun c => c.npcId ≠ npcId)) := by
    intro cs hcs c hc
    rw [List.mem_filter] at hc
    obtain ⟨n, hn, hid⟩ := hcs c hc.1
    refine ⟨n, List.mem_filter.mpr ⟨hn, ?_⟩, hid⟩
    rw [hid]
    exact hc.2
  exact ⟨comp _ h.1, comp _ h.2.1, comp _ h.2.2.1, comp _ h.2.2.2.1, comp _ h.2.2.2.2.1,
    comp _ h.2.2.2.2.2.1, comp _ h.2.2.2.2.2.2⟩

theorem fkInv_ins_hindrance {st : DB} {r : ChildRow} (h : fkInv st)
    (href : refOk st.npcs r) : fkInv (applyWrite (.wInsHindrance r) st) := by
  refine ⟨h.1, h.2.1, h.2.2.1, h.2.2.2.1, ?_, h.2.2.2.2.2.1, h.2.2.2.2.2.2⟩
  exact refAll_append_one h.2.2.2.2.1 href

theorem fkInv_ins_edge {st : DB} {r : ChildRow} (h : fkInv st)
    (href : refOk st.npcs r) : fkInv (applyWrite (.wInsEdge r) st) := by
  refine ⟨h.1, h.2.1, h.2.2.1, h.2.2.2.1, h.2.2.2.2.1, ?_, h.2.2.2.2.2.2⟩
  exact refAll_append_one h.2.2.2.2.2.1 href

theorem fkInv_ins_power {st : DB} {r : ChildRow} (h : fkInv st)
    (href : refOk st.npcs r) : fkInv (applyWrite (.wInsPower r) st) := by
  refine ⟨h.1, h.2.1, h.2.2.1, h.2.2.2.1, h.2.2.2.2.1, h.2.2.2.2.2.1, ?_⟩
  exact refAll_append_one h.2.2.2.2.2.2 href

theorem ids_map_if {npcs : List NpcRow} {npcId : Int} {g : NpcRow → Row} :
    ∀ n ∈ npcs, ∃ m ∈ npcs.map (fun m => if m.id = npcId then (⟨m.id, g m⟩ : NpcRow) else m),
      m.id = n.id := by
  intro n hn
  refine ⟨_, List.mem_map_of_mem _ hn, ?_⟩
  dsimp only
  by_cases hm : n.id = npcId
  · rw [if_pos hm]
  · rw [if_neg hm]

theorem ids_map_setid {npcs : List NpcRow} {npcId j : Int} (hj : j = npcId) {g : NpcRow → Row} :
    ∀ n ∈ npcs, ∃ m ∈ npcs.map (fun m => if m.id = npcId then (⟨j, g m⟩ : NpcRow) else m),
      m.id = n.id := by
  intro n hn
  refine ⟨_, List.mem_map_of_mem _ hn, ?_⟩
  dsimp only
  by_cases hm : n.id = npcId
  · rw [if_pos hm, hj, hm]
  · rw [if_neg hm]

theorem fkInv_clear_legacy {st : DB} {npcId : Int} (h : fkInv st) :
    fkInv (applyWrite (.wClearLegacy npcId) st) := by
  exact @fkInv_npcs_grow st _ ids_map_if h

theorem ids_clear_legacy {st : DB} {npcId : Int} {R : List NpcRow}
    (h : ∀ n' ∈ R, ∃ m ∈ st.npcs, m.id = n'.id) :
    ∀ n' ∈ R, ∃ m ∈ (applyWrite (.wClearLegacy npcId) st).npcs, m.id = n'.id := by
  intro n' hn'
  obtain ⟨m, hm, hmid⟩ := h n' hn'
  obtain ⟨m2, hm2, hm2id⟩ := @ids_map_if st.npcs npcId
    (fun m => rowSet (rowSet (rowSet m.fields "hindrances_json" (.jstr "[]"))
      "edges_json" (.jstr "[]")) "powers_json" (.jstr "[]")) m hm
  exact ⟨m2, hm2, hm2id.trans hmid⟩

theorem foldlM_except_preserve_mem {α β ε : Type} {f : β → α → Except ε β} {P : β → Prop} :
    ∀ {l : List α}, (∀ b a b', a ∈ l → P b → f b a = .ok b' → P b') →
    ∀ (b), P b → ∀ b', l.foldlM f b = .ok b' → P b' := by
  intro l
  induction l with
  | nil =>
    intro _ b hb b' h
    rw [List.foldlM_nil] at h
    have hbb : b = b' := Except.ok.inj h
    subst hbb
    exact hb
  | cons a rest ih =>
    intro hf b hb b' h
    rw [List.foldlM_cons] at h
    cases hfa : f b a with
    | error e =>
      rw [hfa] at h
      simp only [Bind.bind, Except.bind] at h
      exact absurd h (by simp)
    | ok b1 =>
      rw [hfa] at h
      simp only [Bind.bind, Except.bind] at h
      exact ih (fun b0 a0 b0' ha0 => hf b0 a0 b0' (List.mem_cons_of_mem _ ha0)) b1
        (hf b a b1 (List.mem_cons_self _ _) hb hfa) b' h

theorem migHindrances_fk {parseH : String → ParsedHindrance} {matchH : String → Option String}
    {nid : Int} {raws : List String} {R : List NpcRow} {acc : List SqlWrite × DB × Bool}
    (hnid : ∃ n' ∈ R, n'.id = nid)
    (hq : fkInv acc.2.1 ∧ ∀ n' ∈ R, ∃ m ∈ acc.2.1.npcs, m.id = n'.id) :
    fkInv (migHindrances parseH matchH nid raws acc).2.1 ∧
    ∀ n' ∈ R, ∃ m ∈ (migHindrances parseH matchH nid raws acc).2.1.npcs, m.id = n'.id := by
  rw [migHindrances]
  apply foldl_preserve
    (P := fun a : List SqlWrite × DB × Bool =>
      fkInv a.2.1 ∧ ∀ n' ∈ R, ∃ m ∈ a.2.1.npcs, m.id = n'.id) _ raws acc hq
  intro b a hb
  dsimp only
  split
  · exact hb
  · obtain ⟨n', hn', hid⟩ := hnid
    obtain ⟨m, hm, hmid⟩ := hb.2 n' hn'
    exact ⟨fkInv_ins_hindrance hb.1 ⟨m, hm, hmid.trans hid⟩, hb.2⟩

theorem migEdges_fk {parseE : String → String × String} {matchE : String → Option String}
    {nid : Int} {raws : List String} {R : List NpcRow} {acc : List SqlWrite × DB × Bool}
    (hnid : ∃ n' ∈ R, n'.id = nid)
    (hq : fkInv acc.2.1 ∧ ∀ n' ∈ R, ∃ m ∈ acc.2.1.npcs, m.id = n'.id) :
    fkInv (migEdges parseE matchE nid raws acc).2.1 ∧
    ∀ n' ∈ R, ∃ m ∈ (migEdges parseE matchE nid raws acc).2.1.npcs, m.id = n'.id := by
  rw [migEdges]
  apply foldl_preserve
    (P := fun a : List SqlWrite × DB × Bool =>
      fkInv a.2.1 ∧ ∀ n' ∈ R, ∃ m ∈ a.2.1.npcs, m.id = n'.id) _ raws acc hq
  intro b a hb
  dsimp only
  split
  · exact hb
  · obtain ⟨n', hn', hid⟩ := hnid
    obtain ⟨m, hm, hmid⟩ := hb.2 n' hn'
    exact ⟨fkInv_ins_edge hb.1 ⟨m, hm, hmid.trans hid⟩, hb.2⟩

theorem migPowers_fk {matchP : String → Option (String × Int)}
    {nid : Int} {raws : List String} {R : List NpcRow} {acc : List SqlWrite × DB × Bool}
    (hnid : ∃ n' ∈ R, n'.id = nid)
    (hq : fkInv acc.2.1 ∧ ∀ n' ∈ R, ∃ m ∈ acc.2.1.npcs, m.id = n'.id) :
    fkInv (migPowers matchP nid raws acc).2.1 ∧
    ∀ n' ∈ R, ∃ m ∈ (migPowers matchP nid raws acc).2.1.npcs, m.id = n'.id := by
  rw [migPowers]
  apply foldl_preserve
    (P := fun a : List SqlWrite × DB × Bool =>
      fkInv a.2.1 ∧ ∀ n' ∈ R, ∃ m ∈ a.2.1.npcs, m.id = n'.id) _ raws acc hq
  intro b a hb
  dsimp only
  split
  · exact hb
  · obtain ⟨n', hn', hid⟩ := hnid
    obtain ⟨m, hm, hmid⟩ := hb.2 n' hn'
    exact ⟨fkInv_ins_power hb.1 ⟨m, hm, hmid.trans hid⟩, hb.2⟩

theorem migNpc_fk {parseH : String → ParsedHindrance} {parseE : String → String × String}
    {matchH matchE : String → Option String} {matchP : String → Option (String × Int)}
    {R : List NpcRow} {acc acc' : List SqlWrite × DB} {n : NpcRow} (hn : n ∈ R)
    (hq : fkInv acc.2 ∧ ∀ n' ∈ R, ∃ m ∈ acc.2.npcs, m.id = n'.id)
    (h : migNpc parseH parseE matchH matchE matchP acc n = .ok acc') :
    fkInv acc'.2 ∧ ∀ n' ∈ R, ∃ m ∈ acc'.2.npcs, m.id = n'.id := by
  rw [migNpc] at h
  split at h
  · rename_i hRaw eRaw pRaw hH hE hP
    split at h
    · have hae := Except.ok.inj h
      subst hae
      exact hq
    · have h1 : fkInv (migHindrances parseH matchH n.id hRaw (acc.1, acc.2, false)).2.1 ∧
          ∀ n' ∈ R, ∃ m ∈ (migHindrances parseH matchH n.id hRaw
            (acc.1, acc.2, false)).2.1.npcs, m.id = n'.id :=
        migHindrances_fk ⟨n, hn, rfl⟩ (by exact hq)
      have h2 : fkInv (migEdges parseE matchE n.id eRaw
            (migHindrances parseH matchH n.id hRaw (acc.1, acc.2, false))).2.1 ∧
          ∀ n' ∈ R, ∃ m ∈ (migEdges parseE matchE n.id eRaw
            (migHindrances parseH matchH n.id hRaw (acc.1, acc.2, false))).2.1.npcs,
            m.id = n'.id :=
        migEdges_fk ⟨n, hn, rfl⟩ h1
      have h3 : fkInv (migPowers matchP n.id pRaw (migEdges parseE matchE n.id eRaw
            (migHindrances parseH matchH n.id hRaw (acc.1, acc.2, false)))).2.1 ∧
          ∀ n' ∈ R, ∃ m ∈ (migPowers matchP n.id pRaw (migEdges parseE matchE n.id eRaw
            (migHindrances parseH matchH n.id hRaw (acc.1, acc.2, false)))).2.1.npcs,
            m.id = n'.id :=
        migPowers_fk ⟨n, hn, rfl⟩ h2
      rcases hmp : migPowers matchP n.id pRaw
          (migEdges parseE matchE n.id eRaw
            (migHindrances parseH matchH n.id hRaw (acc.1, acc.2, false))) with ⟨ws0, st0, touched0⟩
      dsimp only at h
      rw [hmp] at h h3
      simp only at h h3
      split at h
      · have hae := Except.ok.inj h
        subst hae
        exact ⟨fkInv_clear_legacy h3.1, ids_clear_legacy h3.2⟩
      · have hae := Except.ok.inj h
        subst hae
        exact h3
  · exact absurd h (by simp)

theorem migFold_fk {parseH : String → ParsedHindrance} {parseE : String → String × String}
    {matchH matchE : String → Option String} {matchP : String → Option (String × Int)}
    {db : DB} {ws : List SqlWrite} {st : DB}
    (h : migFold parseH parseE matchH matchE matchP db = .ok (ws, st)) (hfk : fkInv db) :
    fkInv st := by
  have hres := foldlM_except_preserve_mem
    (P := fun acc : List SqlWrite × DB =>
      fkInv acc.2 ∧ ∀ n' ∈ db.npcs, ∃ m ∈ acc.2.npcs, m.id = n'.id)
    (fun b a b' ha hb hf => migNpc_fk ha hb hf) ([], db)
    ⟨hfk, fun n hn => ⟨n, hn, rfl⟩⟩ (ws, st) h
  exact hres.1

/-- C3: the single `DELETE FROM npcs` leaves no child row referencing the
deleted id (the cascade), and every API-reachable database state
satisfies referential integrity: each child row's `npc_id` names an
existing `npcs` row. -/
theorem c3_cascade_delete_fk (db : DB) (npcId : Int) (h : Reach db) :
    (∀ c ∈ (api_delete_npc db npcId).2.skills, c.npcId ≠ npcId) ∧
    (∀ c ∈ (api_delete_npc db npcId).2.weapons, c.npcId ≠ npcId) ∧
    (∀ c ∈ (api_delete_npc db npcId).2.armor, c.npcId ≠ npcId) ∧
    (∀ c ∈ (api_delete_npc db npcId).2.gear, c.npcId ≠ npcId) ∧
    (∀ c ∈ (api_delete_npc db npcId).2.hindrances, c.npcId ≠ npcId) ∧
    (∀ c ∈ (api_delete_npc db npcId).2.edges, c.npcId ≠ npcId) ∧
    (∀ c ∈ (api_delete_npc db npcId).2.powers, c.npcId ≠ npcId) ∧
    fkInv db := by
  have hdel : ∀ (cs : List ChildRow), ∀ c ∈ cs.filter (fun c => c.npcId ≠ npcId),
      c.npcId ≠ npcId := by
    intro cs c hc
    exact of_decide_eq_true (List.mem_filter.mp hc).2
  refine ⟨hdel _, hdel _, hdel _, hdel _, hdel _, hdel _, hdel _, ?_⟩
  clear hdel
  clear npcId
  induction h with
  | init =>
    exact ⟨fun c hc => absurd hc (List.not_mem_nil _), fun c hc => absurd hc (List.not_mem_nil _),
      fun c hc => absurd hc (List.not_mem_nil _), fun c hc => absurd hc (List.not_mem_nil _),
      fun c hc => absurd hc (List.not_mem_nil _), fun c hc => absurd hc (List.not_mem_nil _),
      fun c hc => absurd hc (List.not_mem_nil _)⟩
  | create hr hc ih =>
    rename_i db0 data0 nid0 db'0
    rw [api_create_npc] at hc
    split at hc
    · exact absurd hc (by simp)
    · exact absurd hc (by simp)
    · injection hc with hinj
      injection hinj with h1 h2
      subst h2
      exact @fkInv_npcs_grow db0 _ (ids_sub_append _ _) ih
  | update hr hu ih =>
    rename_i db0 npcId0 data0 db'0
    rw [api_update_npc] at hu
    split at hu
    · exact absurd hu (by simp)
    · split at hu
      · exact absurd hu (by simp)
      · split at hu
        · have h2 := Except.ok.inj hu
          subst h2
          exact ih
        · split at hu
          · have h2 := Except.ok.inj hu
            subst h2
            exact @fkInv_npcs_grow db0 _ ids_map_if ih
          · split at hu
            · exact absurd hu (by simp)
            · split at hu
              · exact absurd hu (by simp)
              · rename_i j0 hj0 hg1
                split at hu
                · exact absurd hu (by simp)
                · rename_i hg2
                  have h2 := Except.ok.inj hu
                  subst h2
                  by_cases hjj : j0 = npcId0
                  · exact @fkInv_npcs_grow db0 _ (ids_map_setid hjj) ih
                  · have hnc : ¬ childRef db0 npcId0 = true := fun hcr => hg2 ⟨hjj, hcr⟩
                    refine ⟨?_, ?_, ?_, ?_, ?_, ?_, ?_⟩
                    · exact refAll_map_if ih.1
                        (fun c hcm heq => hnc (heq ▸ childRef_of_mem (Or.inl hcm)))
                    · exact refAll_map_if ih.2.1
                        (fun c hcm heq => hnc (heq ▸ childRef_of_mem (Or.inr (Or.inl hcm))))
                    · exact refAll_map_if ih.2.2.1
                        (fun c hcm heq => hnc (heq ▸ childRef_of_mem
                          (Or.inr (Or.inr (Or.inl hcm)))))
                    · exact refAll_map_if ih.2.2.2.1
                        (fun c hcm heq => hnc (heq ▸ childRef_of_mem
                          (Or.inr (Or.inr (Or.inr (Or.inl hcm))))))
                    · exact refAll_map_if ih.2.2.2.2.1
                        (fun c hcm heq => hnc (heq ▸ childRef_of_mem
                          (Or.inr (Or.inr (Or.inr (Or.inr (Or.inl hcm)))))))
                    · exact refAll_map_if ih.2.2.2.2.2.1
                        (fun c hcm heq => hnc (heq ▸ childRef_of_mem
                          (Or.inr (Or.inr (Or.inr (Or.inr (Or.inr (Or.inl hcm))))))))
                    · exact refAll_map_if ih.2.2.2.2.2.2
                        (fun c hcm heq => hnc (heq ▸ childRef_of_mem
                          (Or.inr (Or.inr (Or.inr (Or.inr (Or.inr (Or.inr hcm))))))))
  | deleteNpc hr ih =>
    exact fkInv_delete _ _ ih
  | addSkill hr hs ih =>
    rename_i db0 npcId0 data0 db'0
    rw [api_add_skill] at hs
    split at hs
    case _ nameV dieV hname hdie =>
      split at hs
      · rename_i hex
        injection hs with hinj
        subst hinj
        refine ⟨?_, ih.2.1, ih.2.2.1, ih.2.2.2.1, ih.2.2.2.2.1, ih.2.2.2.2.2.1,
          ih.2.2.2.2.2.2⟩
        exact refAll_append_one
          (refAll_sub (fun c hcm => List.mem_of_mem_filter hcm) ih.1)
          (refOk_of_npcExists hex _ _)
      · exact absurd hs (by simp)
    all_goals exact absurd hs (by simp)
  | addWeapon hr hw ih =>
    rename_i db0 npcId0 d0 db'0
    rw [api_add_weapon] at hw
    split at hw
    case _ nameV dsV ddV h1 h2 h3 =>
      split at hw
      · rename_i hex
        injection hw with hinj
        subst hinj
        exact ⟨ih.1, refAll_append_one ih.2.1 (refOk_of_npcExists hex _ _), ih.2.2.1,
          ih.2.2.2.1, ih.2.2.2.2.1, ih.2.2.2.2.2.1, ih.2.2.2.2.2.2⟩
      · exact absurd hw (by simp)
    all_goals exact absurd hw (by simp)
  | addArmor hr ha ih =>
    rename_i db0 npcId0 d0 db'0
    rw [api_add_armor] at ha
    split at ha
    case _ nameV h1 =>
      split at ha
      · rename_i hex
        injection ha with hinj
        subst hinj
        exact ⟨ih.1, ih.2.1, refAll_append_one ih.2.2.1 (refOk_of_npcExists hex _ _),
          ih.2.2.2.1, ih.2.2.2.2.1, ih.2.2.2.2.2.1, ih.2.2.2.2.2.2⟩
      · exact absurd ha (by simp)
    all_goals exact absurd ha (by simp)
  | addGear hr hg ih =>
    rename_i db0 npcId0 d0 db'0
    rw [api_add_gear] at hg
    split at hg
    case _ nameV h1 =>
      split at hg
      · rename_i hex
        injection hg with hinj
        subst hinj
        exact ⟨ih.1, ih.2.1, ih.2.2.1, refAll_append_one ih.2.2.2.1
            (refOk_of_npcExists hex _ _),
          ih.2.2.2.2.1, ih.2.2.2.2.2.1, ih.2.2.2.2.2.2⟩
      · exact absurd hg (by simp)
    all_goals exact absurd hg (by simp)
  | addHindrance hr hh ih =>
    rename_i db0 npcId0 data0 db'0
    rw [api_add_npc_hindrance] at hh
    split at hh
    case _ nameV sevV h1 h2 =>
      split at hh
      · rename_i hex
        injection hh with hinj
        subst hinj
        exact ⟨ih.1, ih.2.1, ih.2.2.1, ih.2.2.2.1,
          refAll_append_one ih.2.2.2.2.1 (refOk_of_npcExists hex _ _),
          ih.2.2.2.2.2.1, ih.2.2.2.2.2.2⟩
      · exact absurd hh (by simp)
    all_goals exact absurd hh (by simp)
  | addEdge hr he ih =>
    rename_i db0 npcId0 data0 db'0
    rw [api_add_npc_edge] at he
    split at he
    case _ nameV h1 =>
      split at he
      · rename_i hex
        injection he with hinj
        subst hinj
        exact ⟨ih.1, ih.2.1, ih.2.2.1, ih.2.2.2.1, ih.2.2.2.2.1,
          refAll_append_one ih.2.2.2.2.2.1 (refOk_of_npcExists hex _ _),
          ih.2.2.2.2.2.2⟩
      · exact absurd he (by simp)
    all_goals exact absurd he (by simp)
  | addPower hr hp ih =>
    rename_i db0 npcId0 data0 db'0
    rw [api_add_npc_power] at hp
    split at hp
    case _ nameV h1 =>
      split at hp
      · rename_i hex
        injection hp with hinj
        subst hinj
        exact ⟨ih.1, ih.2.1, ih.2.2.1, ih.2.2.2.1, ih.2.2.2.2.1, ih.2.2.2.2.2.1,
          refAll_append_one ih.2.2.2.2.2.2 (refOk_of_npcExists hex _ _)⟩
      · exact absurd hp (by simp)
    all_goals exact absurd hp (by simp)
  | delSkill hr ih =>
    exact ⟨refAll_sub (fun c hcm => List.mem_of_mem_filter hcm) ih.1, ih.2.1, ih.2.2.1,
      ih.2.2.2.1, ih.2.2.2.2.1, ih.2.2.2.2.2.1, ih.2.2.2.2.2.2⟩
  | delWeapon hr ih =>
    exact ⟨ih.1, refAll_sub (fun c hcm => List.mem_of_mem_filter hcm) ih.2.1, ih.2.2.1,
      ih.2.2.2.1, ih.2.2.2.2.1, ih.2.2.2.2.2.1, ih.2.2.2.2.2.2⟩
  | delArmor hr ih =>
    exact ⟨ih.1, ih.2.1, refAll_sub (fun c hcm => List.mem_of_mem_filter hcm) ih.2.2.1,
      ih.2.2.2.1, ih.2.2.2.2.1, ih.2.2.2.2.2.1, ih.2.2.2.2.2.2⟩
  | delGear hr ih =>
    exact ⟨ih.1, ih.2.1, ih.2.2.1,
      refAll_sub (fun c hcm => List.mem_of_mem_filter hcm) ih.2.2.2.1,
      ih.2.2.2.2.1, ih.2.2.2.2.2.1, ih.2.2.2.2.2.2⟩
  | delHindrance hr ih =>
    exact ⟨ih.1, ih.2.1, ih.2.2.1, ih.2.2.2.1,
      refAll_sub (fun c hcm => List.mem_of_mem_filter hcm) ih.2.2.2.2.1,
      ih.2.2.2.2.2.1, ih.2.2.2.2.2.2⟩
  | delEdge hr ih =>
    exact ⟨ih.1, ih.2.1, ih.2.2.1, ih.2.2.2.1, ih.2.2.2.2.1,
      refAll_sub (fun c hcm => List.mem_of_mem_filter hcm) ih.2.2.2.2.2.1,
      ih.2.2.2.2.2.2⟩
  | delPower hr ih =>
    exact ⟨ih.1, ih.2.1, ih.2.2.1, ih.2.2.2.1, ih.2.2.2.2.1, ih.2.2.2.2.2.1,
      refAll_sub (fun c hcm => List.mem_of_mem_filter hcm) ih.2.2.2.2.2.2⟩
  | legacyGear hr hlg ih =>
    rename_i db0 npcId0 idx0 db'0
    rw [api_delete_legacy_gear] at hlg
    split at hlg
    · exact absurd hlg (by simp)
    · dsimp only at hlg
      split at hlg
      · exact absurd hlg (by simp)
      · split at hlg
        · split at hlg
          · exact absurd hlg (by simp)
          · split at hlg
            · exact absurd hlg (by simp)
            · injection hlg with hinj
              subst hinj
              exact @fkInv_npcs_grow db0 _ ids_map_if ih
        · exact absurd hlg (by simp)
  | portrait hr ih =>
    rename_i db0 npcId0 hasFile0 fname0
    rw [api_upload_portrait]
    split
    · exact ih
    · split
      · exact ih
      · dsimp only
        split
        · exact ih
        · exact @fkInv_npcs_grow db0 _ ids_map_if ih
  | migrate hr hm ih =>
    rw [api_migration_execute] at hm
    split at hm
    · rename_i ws0 st0 heq
      have h2 := Except.ok.inj hm
      subst h2
      exact migFold_fk heq ih
    · exact absurd hm (by simp)

/-- C3 witness: cascade delete and the FK invariant on a two-step
reachable state (create, then add one skill). -/
theorem c3_cascade_delete_fk_witness :
    (∀ c ∈ (api_delete_npc
        ({ npcs := [⟨1, [("name", JVal.jstr "X")]⟩],
           skills := [⟨1, 1, [("name", JVal.jstr "Fighting"), ("die", JVal.jint 8)]⟩],
           weapons := [], armor := [], gear := [], hindrances := [], edges := [],
           powers := [], seqNpc := 1, seqSkill := 1 } : DB) 1).2.skills, c.npcId ≠ 1) ∧
    fkInv
      ({ npcs := [⟨1, [("name", JVal.jstr "X")]⟩],
         skills := [⟨1, 1, [("name", JVal.jstr "Fighting"), ("die", JVal.jint 8)]⟩],
         weapons := [], armor := [], gear := [], hindrances := [], edges := [],
         powers := [], seqNpc := 1, seqSkill := 1 } : DB) := by
  have h := c3_cascade_delete_fk
    ({ npcs := [⟨1, [("name", JVal.jstr "X")]⟩],
       skills := [⟨1, 1, [("name", JVal.jstr "Fighting"), ("die", JVal.jint 8)]⟩],
       weapons := [], armor := [], gear := [], hindrances := [], edges := [],
       powers := [], seqNpc := 1, seqSkill := 1 } : DB) 1
    (@Reach.addSkill _ 1 [("name", JVal.jstr "Fighting"), ("die", JVal.jint 8)] _
      (@Reach.create emptyDB [("name", JVal.jstr "X")] 1 _ Reach.init rfl) rfl)
  exact ⟨h.1, h.2.2.2.2.2.2.2⟩

/-! ## Round-trip helper lemmas (claim C2) -/

theorem find?_map_id_pres {npcs : List NpcRow} {g : NpcRow → NpcRow}
    (hg : ∀ n, (g n).id = n.id) (npcId : Int) :
    (npcs.map g).find? (fun n => n.id = npcId) =
      (npcs.find? (fun n => n.id = npcId)).map g := by
  induction npcs with
  | nil => rfl
  | cons a rest ih =>
    rw [List.map_cons]
    by_cases hpa : a.id = npcId
    · rw [List.find?_cons_of_pos _ (by simp [hg a, hpa]),
        List.find?_cons_of_pos _ (by simp [hpa])]
      rfl
    · rw [List.find?_cons_of_neg _ (by simp [hg a, hpa]),
        List.find?_cons_of_neg _ (by simp [hpa]), ih]

theorem api_get_npc_of_find {db : DB} {npcId : Int} {n : NpcRow}
    {e h g p s : JData}
    (hf : db.npcs.find? (fun m => m.id = npcId) = some n)
    (he : loadJsonAny (rowGet (("id", JVal.jint n.id) :: n.fields) "edges_json") = .ok e)
    (hh : loadJsonAny (rowGet (("id", JVal.jint n.id) :: n.fields) "hindrances_json") = .ok h)
    (hg : loadJsonAny (rowGet (("id", JVal.jint n.id) :: n.fields) "gear_json") = .ok g)
    (hp : loadJsonAny (rowGet (("id", JVal.jint n.id) :: n.fields) "powers_json") = .ok p)
    (hs : loadJsonAny
      (rowGet (("id", JVal.jint n.id) :: n.fields) "special_abilities_json") = .ok s) :
    api_get_npc db npcId = .ok
      { fields := ("id", JVal.jint n.id) :: n.fields
        edges := e, hindrances := h, gear := g, powers := p
        specialAbilities := s
        skills := sortByName ((db.skills.filter (fun c => c.npcId = npcId)).map childRowOut)
        weapons := (db.weapons.filter (fun c => c.npcId = npcId)).map childRowOut
        armor := sortByName ((db.armor.filter (fun c => c.npcId = npcId)).map childRowOut)
        gearItems := sortByName ((db.gear.filter (fun c => c.npcId = npcId)).map childRowOut)
        hindranceItems :=
          sortBySeverityName ((db.hindrances.filter (fun c => c.npcId = npcId)).map childRowOut)
        edgeItems := sortByName ((db.edges.filter (fun c => c.npcId = npcId)).map childRowOut)
        powerItems :=
          sortByName ((db.powers.filter (fun c => c.npcId = npcId)).map childRowOut) } := by
  rw [api_get_npc, hf]
  dsimp only
  rw [he, hh, hg, hp, hs]

theorem api_get_npc_inv {db : DB} {npcId : Int} {view : NpcView}
    (h : api_get_npc db npcId = .ok view) :
    ∃ n, db.npcs.find? (fun m => m.id = npcId) = some n ∧
      view.fields = ("id", JVal.jint n.id) :: n.fields ∧
      view.skills =
        sortByName ((db.skills.filter (fun c => c.npcId = npcId)).map childRowOut) ∧
      view.weapons = (db.weapons.filter (fun c => c.npcId = npcId)).map childRowOut ∧
      view.armor = sortByName ((db.armor.filter (fun c => c.npcId = npcId)).map childRowOut) ∧
      view.gearItems =
        sortByName ((db.gear.filter (fun c => c.npcId = npcId)).map childRowOut) ∧
      view.hindranceItems =
        sortBySeverityName
          ((db.hindrances.filter (fun c => c.npcId = npcId)).map childRowOut) ∧
      view.edgeItems =
        sortByName ((db.edges.filter (fun c => c.npcId = npcId)).map childRowOut) ∧
      view.powerItems =
        sortByName ((db.powers.filter (fun c => c.npcId = npcId)).map childRowOut) := by
  rw [api_get_npc] at h
  split at h
  · exact absurd h (by simp)
  · rename_i n hf
    dsimp only at h
    split at h
    · have hv := Except.ok.inj h
      subst hv
      exact ⟨n, hf, rfl, rfl, rfl, rfl, rfl, rfl, rfl, rfl⟩
    · exact absurd h (by simp)

theorem childRowOut_lookup {c : ChildRow} {k : String} (h1 : k ≠ "id") (h2 : k ≠ "npc_id") :
    (childRowOut c).lookup k = c.fields.lookup k := by
  rw [childRowOut, lookup_cons_ne h1, lookup_cons_ne h2]

theorem create_get_roundtrip {db : DB} {data : Row} {nid : Int} {db' : DB}
    (hc : api_create_npc db data = .ok (nid, db'))
    (hjson : ∀ f ∈ ["edges_json", "hindrances_json", "gear_json", "powers_json"],
      ∀ v, data.lookup f = some v → ∃ j, loadJsonAny v = .ok j) :
    ∃ view, api_get_npc db' nid = .ok view ∧
      ∀ k ∈ npcFields, ∀ v, data.lookup k = some v → view.fields.lookup k = some v := by
  rw [api_create_npc] at hc
  split at hc
  · exact absurd hc (by simp)
  · exact absurd hc (by simp)
  · injection hc with hinj
    injection hinj with h1 h2
    subst h2
    subst h1
    set F := freshId db.seqNpc (db.npcs.map (fun x => x.id)) with hF
    set P := npcFields.filterMap (fun k => (data.lookup k).map (fun v => (k, v))) with hP
    have hnd : npcFields.Nodup := by decide
    have hnone : db.npcs.find? (fun m => m.id = F) = none := by
      apply List.find?_eq_none.mpr
      intro n hn
      simp only [decide_eq_true_eq]
      intro he
      rw [hF] at he
      exact absurd he (ne_of_lt (freshId_gt (List.mem_map_of_mem _ hn)))
    have hfind : (db.npcs ++ [(⟨F, P⟩ : NpcRow)]).find? (fun m => m.id = F) =
        some ⟨F, P⟩ := by
      rw [find?_append_none hnone]
      exact List.find?_cons_of_pos _ (by simp)
    have hlk : ∀ k, k ∈ npcFields → P.lookup k = data.lookup k :=
      fun k hk => present_lookup hnd hk
    have hlkn : P.lookup "special_abilities_json" = none := present_lookup_not_mem (by decide)
    have hrow : ∀ k, k ≠ "id" →
        rowGet (("id", JVal.jint F) :: P) k = (P.lookup k).getD JVal.jnull := by
      intro k hk
      rw [rowGet, lookup_cons_ne hk]
    have hedE : ∃ xs, loadJsonAny (rowGet (("id", JVal.jint F) :: P) "edges_json") =
        .ok xs := by
      rw [hrow _ (by decide), hlk _ (by decide)]
      cases hdl : data.lookup "edges_json" with
      | none => exact ⟨.jarr [], rfl⟩
      | some v => exact hjson "edges_json" (by decide) v hdl
    have hhiE : ∃ xs, loadJsonAny (rowGet (("id", JVal.jint F) :: P) "hindrances_json") =
        .ok xs := by
      rw [hrow _ (by decide), hlk _ (by decide)]
      cases hdl : data.lookup "hindrances_json" with
      | none => exact ⟨.jarr [], rfl⟩
      | some v => exact hjson "hindrances_json" (by decide) v hdl
    have hgeE : ∃ xs, loadJsonAny (rowGet (("id", JVal.jint F) :: P) "gear_json") =
        .ok xs := by
      rw [hrow _ (by decide), hlk _ (by decide)]
      cases hdl : data.lookup "gear_json" with
      | none => exact ⟨.jarr [], rfl⟩
      | some v => exact hjson "gear_json" (by decide) v hdl
    have hpoE : ∃ xs, loadJsonAny (rowGet (("id", JVal.jint F) :: P) "powers_json") =
        .ok xs := by
      rw [hrow _ (by decide), hlk _ (by decide)]
      cases hdl : data.lookup "powers_json" with
      | none => exact ⟨.jarr [], rfl⟩
      | some v => exact hjson "powers_json" (by decide) v hdl
    have hspE : ∃ xs,
        loadJsonAny (rowGet (("id", JVal.jint F) :: P) "special_abilities_json") =
        .ok xs := by
      rw [hrow _ (by decide), hlkn]
      exact ⟨.jarr [], rfl⟩
    obtain ⟨ed, hed⟩ := hedE
    obtain ⟨hi, hhi⟩ := hhiE
    obtain ⟨ge, hge⟩ := hgeE
    obtain ⟨po, hpo⟩ := hpoE
    obtain ⟨sp, hsp⟩ := hspE
    refine ⟨_, api_get_npc_of_find hfind hed hhi hge hpo hsp, ?_⟩
    intro k hk v hv
    have hkid : k ≠ "id" := fun he => by
      subst he
      revert hk
      decide
    dsimp only
    rw [lookup_cons_ne hkid, hlk k hk]
    exact hv

theorem update_get_roundtrip {db : DB} {npcId : Int} {data : Row} {db' : DB} {view : NpcView}
    (hu : api_update_npc db npcId data = .ok db')
    (hnd : (data.map Prod.fst).Nodup) (hid : data.lookup "id" = none)
    (hview : api_get_npc db' npcId = .ok view) :
    ∀ k v, data.lookup k = some v → view.fields.lookup k = some v := by
  intro k v hv
  have hkid : k ≠ "id" := fun he => by
    rw [he, hid] at hv
    exact Option.noConfusion hv
  rw [api_update_npc] at hu
  split at hu
  · exact absurd hu (by simp)
  · split at hu
    · exact absurd hu (by simp)
    · split at hu
      · rename_i hfnone
        have h2 := Except.ok.inj hu
        subst h2
        obtain ⟨n1, hf1, _⟩ := api_get_npc_inv hview
        exact absurd (hfnone.symm.trans hf1) (by simp)
      · rename_i n0 hf0
        split at hu
        · have h2 := Except.ok.inj hu
          subst h2
          obtain ⟨n1, hf1, hfields, _⟩ := api_get_npc_inv hview
          have hn0 : n0.id = npcId := by
            have hp := List.find?_some hf0
            simpa using hp
          have hmap : ({db with npcs := db.npcs.map (fun m =>
              if m.id = npcId then ⟨m.id, applySets m.fields data⟩ else m)} : DB).npcs.find?
              (fun m => m.id = npcId) =
              some (if n0.id = npcId then
                (⟨n0.id, applySets n0.fields data⟩ : NpcRow) else n0) := by
            show (db.npcs.map (fun m =>
              if m.id = npcId then (⟨m.id, applySets m.fields data⟩ : NpcRow) else m)).find?
              (fun m => m.id = npcId) = _
            rw [find?_map_id_pres (fun n => by
              split
              · rfl
              · rfl) npcId, hf0]
            rfl
          have hn1 : n1 = (⟨n0.id, applySets n0.fields data⟩ : NpcRow) := by
            have hsome := hmap.symm.trans hf1
            rw [if_pos hn0] at hsome
            exact (Option.some.inj hsome).symm
          rw [hfields, hn1]
          dsimp only
          rw [lookup_cons_ne hkid]
          exact applySets_lookup_first hnd hv hkid _
        · rename_i v0 hv0
          rw [hid] at hv0
          exact absurd hv0 (by simp)

theorem add_skill_get_roundtrip {db : DB} {npcId : Int} {d : Row} {db' : DB} {view : NpcView}
    (ha : api_add_skill db npcId d = .ok db')
    (hview : api_get_npc db' npcId = .ok view) :
    ∃ r ∈ view.skills, ∀ k ∈ ["name", "die"], ∀ v, d.lookup k = some v →
      r.lookup k = some v := by
  rw [api_add_skill] at ha
  split at ha
  case _ nameV dieV hname hdie =>
    split at ha
    · injection ha with hinj
      subst hinj
      obtain ⟨n1, hf1, hfields, hsk, hw, har, hge, hhi, hed, hpo⟩ := api_get_npc_inv hview
      refine ⟨childRowOut ⟨freshId db.seqSkill (db.skills.map (·.id)), npcId,
        [("name", nameV), ("die", dieV)]⟩, ?_, ?_⟩
      · rw [hsk, mem_sortByName]
        exact List.mem_map_of_mem _ (List.mem_filter.mpr
          ⟨List.mem_append_right _ (List.mem_cons_self _ _), by simp⟩)
      · intro k hk v hv
        fin_cases hk
        · have hveq : nameV = v := Option.some.inj (hname.symm.trans hv)
          rw [childRowOut_lookup (by decide) (by decide), lookup_cons_self, hveq]
        · have hveq : dieV = v := Option.some.inj (hdie.symm.trans hv)
          rw [childRowOut_lookup (by decide) (by decide), lookup_cons_ne (by decide),
            lookup_cons_self, hveq]
    · exact absurd ha (by simp)
  all_goals exact absurd ha (by simp)

theorem add_weapon_get_roundtrip {db : DB} {npcId : Int} {d : Row} {db' : DB} {view : NpcView}
    (ha : api_add_weapon db npcId d = .ok db')
    (hview : api_get_npc db' npcId = .ok view) :
    ∃ r ∈ view.weapons, ∀ k ∈ ["name", "damage_str", "damagedice", "armor_piercing",
      "trait_type", "range", "reach", "notes"], ∀ v, d.lookup k = some v →
      r.lookup k = some v := by
  rw [api_add_weapon] at ha
  split at ha
  case _ nameV dsV ddV hname hds hdd =>
    split at ha
    · injection ha with hinj
      subst hinj
      obtain ⟨n1, hf1, hfields, hsk, hw, har, hge, hhi, hed, hpo⟩ := api_get_npc_inv hview
      refine ⟨childRowOut ⟨freshId db.seqWeapon (db.weapons.map (·.id)), npcId,
        [("name", nameV), ("damage_str", dsV), ("damagedice", ddV),
         ("armor_piercing", (d.lookup "armor_piercing").getD (.jint 0)),
         ("trait_type", (d.lookup "trait_type").getD (.jstr "Melee")),
         ("range", (d.lookup "range").getD .jnull),
         ("reach", (d.lookup "reach").getD (.jint 0)),
         ("notes", (d.lookup "notes").getD .jnull)]⟩, ?_, ?_⟩
      · rw [hw]
        exact List.mem_map_of_mem _ (List.mem_filter.mpr
          ⟨List.mem_append_right _ (List.mem_cons_self _ _), by simp⟩)
      · intro k hk v hv
        fin_cases hk
        · have hveq : nameV = v := Option.some.inj (hname.symm.trans hv)
          rw [childRowOut_lookup (by decide) (by decide), lookup_cons_self, hveq]
        · have hveq : dsV = v := Option.some.inj (hds.symm.trans hv)
          rw [childRowOut_lookup (by decide) (by decide), lookup_cons_ne (by decide),
            lookup_cons_self, hveq]
        · have hveq : ddV = v := Option.some.inj (hdd.symm.trans hv)
          rw [childRowOut_lookup (by decide) (by decide), lookup_cons_ne (by decide),
            lookup_cons_ne (by decide), lookup_cons_self, hveq]
        · rw [childRowOut_lookup (by decide) (by decide), lookup_cons_ne (by decide),
            lookup_cons_ne (by decide), lookup_cons_ne (by decide), lookup_cons_self, hv, Option.getD_some]
        · rw [childRowOut_lookup (by decide) (by decide), lookup_cons_ne (by decide),
            lookup_cons_ne (by decide), lookup_cons_ne (by decide), lookup_cons_ne (by decide),
            lookup_cons_self, hv, Option.getD_some]
        · rw [childRowOut_lookup (by decide) (by decide), lookup_cons_ne (by decide),
            lookup_cons_ne (by decide), lookup_cons_ne (by decide), lookup_cons_ne (by decide),
            lookup_cons_ne (by decide), lookup_cons_self, hv, Option.getD_some]
        · rw [childRowOut_lookup (by decide) (by decide), lookup_cons_ne (by decide),
            lookup_cons_ne (by decide), lookup_cons_ne (by decide), lookup_cons_ne (by decide),
            lookup_cons_ne (by decide), lookup_cons_ne (by decide), lookup_cons_self, hv, Option.getD_some]
        · rw [childRowOut_lookup (by decide) (by decide), lookup_cons_ne (by decide),
            lookup_cons_ne (by decide), lookup_cons_ne (by decide), lookup_cons_ne (by decide),
            lookup_cons_ne (by decide), lookup_cons_ne (by decide), lookup_cons_ne (by decide),
            lookup_cons_self, hv, Option.getD_some]
    · exact absurd ha (by simp)
  all_goals exact absurd ha (by simp)

theorem add_armor_get_roundtrip {db : DB} {npcId : Int} {d : Row} {db' : DB} {view : NpcView}
    (ha : api_add_armor db npcId d = .ok db')
    (hview : api_get_npc db' npcId = .ok view) :
    ∃ r ∈ view.armor, ∀ k ∈ ["name", "protection", "area_protected", "min_strength",
      "weight", "cost", "notes"], ∀ v, d.lookup k = some v → r.lookup k = some v := by
  rw [api_add_armor] at ha
  split at ha
  case _ nameV hname =>
    split at ha
    · injection ha with hinj
      subst hinj
      obtain ⟨n1, hf1, hfields, hsk, hw, har, hge, hhi, hed, hpo⟩ := api_get_npc_inv hview
      refine ⟨childRowOut ⟨freshId db.seqArmor (db.armor.map (·.id)), npcId,
        [("name", nameV),
         ("protection", (d.lookup "protection").getD (.jint 0)),
         ("area_protected", (d.lookup "area_protected").getD .jnull),
         ("min_strength", (d.lookup "min_strength").getD .jnull),
         ("weight", (d.lookup "weight").getD (.jint 0)),
         ("cost", (d.lookup "cost").getD .jnull),
         ("notes", (d.lookup "notes").getD .jnull)]⟩, ?_, ?_⟩
      · rw [har, mem_sortByName]
        exact List.mem_map_of_mem _ (List.mem_filter.mpr
          ⟨List.mem_append_right _ (List.mem_cons_self _ _), by simp⟩)
      · intro k hk v hv
        fin_cases hk
        · have hveq : nameV = v := Option.some.inj (hname.symm.trans hv)
          rw [childRowOut_lookup (by decide) (by decide), lookup_cons_self, hveq]
        · rw [childRowOut_lookup (by decide) (by decide), lookup_cons_ne (by decide),
            lookup_cons_self, hv, Option.getD_some]
        · rw [childRowOut_lookup (by decide) (by decide), lookup_cons_ne (by decide),
            lookup_cons_ne (by decide), lookup_cons_self, hv, Option.getD_some]
        · rw [childRowOut_lookup (by decide) (by decide), lookup_cons_ne (by decide),
            lookup_cons_ne (by decide), lookup_cons_ne (by decide), lookup_cons_self, hv, Option.getD_some]
        · rw [childRowOut_lookup (by decide) (by decide), lookup_cons_ne (by decide),
            lookup_cons_ne (by decide), lookup_cons_ne (by decide), lookup_cons_ne (by decide),
            lookup_cons_self, hv, Option.getD_some]
        · rw [childRowOut_lookup (by decide) (by decide), lookup_cons_ne (by decide),
            lookup_cons_ne (by decide), lookup_cons_ne (by decide), lookup_cons_ne (by decide),
            lookup_cons_ne (by decide), lookup_cons_self, hv, Option.getD_some]
        · rw [childRowOut_lookup (by decide) (by decide), lookup_cons_ne (by decide),
            lookup_cons_ne (by decide), lookup_cons_ne (by decide), lookup_cons_ne (by decide),
            lookup_cons_ne (by decide), lookup_cons_ne (by decide), lookup_cons_self, hv, Option.getD_some]
    · exact absurd ha (by simp)
  all_goals exact absurd ha (by simp)

theorem add_gear_get_roundtrip {db : DB} {npcId : Int} {d : Row} {db' : DB} {view : NpcView}
    (ha : api_add_gear db npcId d = .ok db')
    (hview : api_get_npc db' npcId = .ok view) :
    ∃ r ∈ view.gearItems, ∀ k ∈ ["name", "quantity", "weight", "cost", "notes"],
      ∀ v, d.lookup k = some v → r.lookup k = some v := by
  rw [api_add_gear] at ha
  split at ha
  case _ nameV hname =>
    split at ha
    · injection ha with hinj
      subst hinj
      obtain ⟨n1, hf1, hfields, hsk, hw, har, hge, hhi, hed, hpo⟩ := api_get_npc_inv hview
      refine ⟨childRowOut ⟨freshId db.seqGear (db.gear.map (·.id)), npcId,
        [("name", nameV),
         ("quantity", (d.lookup "quantity").getD (.jint 1)),
         ("weight", (d.lookup "weight").getD (.jint 0)),
         ("cost", (d.lookup "cost").getD .jnull),
         ("notes", (d.lookup "notes").getD .jnull)]⟩, ?_, ?_⟩
      · rw [hge, mem_sortByName]
        exact List.mem_map_of_mem _ (List.mem_filter.mpr
          ⟨List.mem_append_right _ (List.mem_cons_self _ _), by simp⟩)
      · intro k hk v hv
        fin_cases hk
        · have hveq : nameV = v := Option.some.inj (hname.symm.trans hv)
          rw [childRowOut_lookup (by decide) (by decide), lookup_cons_self, hveq]
        · rw [childRowOut_lookup (by decide) (by decide), lookup_cons_ne (by decide),
            lookup_cons_self, hv, Option.getD_some]
        · rw [childRowOut_lookup (by decide) (by decide), lookup_cons_ne (by decide),
            lookup_cons_ne (by decide), lookup_cons_self, hv, Option.getD_some]
        · rw [childRowOut_lookup (by decide) (by decide), lookup_cons_ne (by decide),
            lookup_cons_ne (by decide), lookup_cons_ne (by decide), lookup_cons_self, hv, Option.getD_some]
        · rw [childRowOut_lookup (by decide) (by decide), lookup_cons_ne (by decide),
            lookup_cons_ne (by decide), lookup_cons_ne (by decide), lookup_cons_ne (by decide),
            lookup_cons_self, hv, Option.getD_some]
    · exact absurd ha (by simp)
  all_goals exact absurd ha (by simp)

theorem add_hindrance_get_roundtrip {db : DB} {npcId : Int} {d : Row} {db' : DB}
    {view : NpcView} (ha : api_add_npc_hindrance db npcId d = .ok db')
    (hview : api_get_npc db' npcId = .ok view) :
    ∃ r ∈ view.hindranceItems, ∀ k ∈ ["name", "severity", "source", "notes"],
      ∀ v, d.lookup k = some v → r.lookup k = some v := by
  rw [api_add_npc_hindrance] at ha
  split at ha
  case _ nameV sevV hname hsev =>
    split at ha
    · injection ha with hinj
      subst hinj
      obtain ⟨n1, hf1, hfields, hsk, hw, har, hge, hhi, hed, hpo⟩ := api_get_npc_inv hview
      refine ⟨childRowOut ⟨freshId db.seqHindrance (db.hindrances.map (·.id)), npcId,
        [("name", nameV), ("severity", sevV),
         ("source", (d.lookup "source").getD .jnull),
         ("notes", (d.lookup "notes").getD .jnull)]⟩, ?_, ?_⟩
      · rw [hhi, mem_sortBySeverityName]
        exact List.mem_map_of_mem _ (List.mem_filter.mpr
          ⟨List.mem_append_right _ (List.mem_cons_self _ _), by simp⟩)
      · intro k hk v hv
        fin_cases hk
        · have hveq : nameV = v := Option.some.inj (hname.symm.trans hv)
          rw [childRowOut_lookup (by decide) (by decide), lookup_cons_self, hveq]
        · have hveq : sevV = v := Option.some.inj (hsev.symm.trans hv)
          rw [childRowOut_lookup (by decide) (by decide), lookup_cons_ne (by decide),
            lookup_cons_self, hveq]
        · rw [childRowOut_lookup (by decide) (by decide), lookup_cons_ne (by decide),
            lookup_cons_ne (by decide), lookup_cons_self, hv, Option.getD_some]
        · rw [childRowOut_lookup (by decide) (by decide), lookup_cons_ne (by decide),
            lookup_cons_ne (by decide), lookup_cons_ne (by decide), lookup_cons_self, hv, Option.getD_some]
    · exact absurd ha (by simp)
  all_goals exact absurd ha (by simp)

theorem add_edge_get_roundtrip {db : DB} {npcId : Int} {d : Row} {db' : DB} {view : NpcView}
    (ha : api_add_npc_edge db npcId d = .ok db')
    (hview : api_get_npc db' npcId = .ok view) :
    ∃ r ∈ view.edgeItems, ∀ k ∈ ["name", "source", "notes"],
      ∀ v, d.lookup k = some v → r.lookup k = some v := by
  rw [api_add_npc_edge] at ha
  split at ha
  case _ nameV hname =>
    split at ha
    · injection ha with hinj
      subst hinj
      obtain ⟨n1, hf1, hfields, hsk, hw, har, hge, hhi, hed, hpo⟩ := api_get_npc_inv hview
      refine ⟨childRowOut ⟨freshId db.seqEdge (db.edges.map (·.id)), npcId,
        [("name", nameV),
         ("source", (d.lookup "source").getD .jnull),
         ("notes", (d.lookup "notes").getD .jnull)]⟩, ?_, ?_⟩
      · rw [hed, mem_sortByName]
        exact List.mem_map_of_mem _ (List.mem_filter.mpr
          ⟨List.mem_append_right _ (List.mem_cons_self _ _), by simp⟩)
      · intro k hk v hv
        fin_cases hk
        · have hveq : nameV = v := Option.some.inj (hname.symm.trans hv)
          rw [childRowOut_lookup (by decide) (by decide), lookup_cons_self, hveq]
        · rw [childRowOut_lookup (by decide) (by decide), lookup_cons_ne (by decide),
            lookup_cons_self, hv, Option.getD_some]
        · rw [childRowOut_lookup (by decide) (by decide), lookup_cons_ne (by decide),
            lookup_cons_ne (by decide), lookup_cons_self, hv, Option.getD_some]
    · exact absurd ha (by simp)
  all_goals exact absurd ha (by simp)

theorem add_power_get_roundtrip {db : DB} {npcId : Int} {d : Row} {db' : DB} {view : NpcView}
    (ha : api_add_npc_power db npcId d = .ok db')
    (hview : api_get_npc db' npcId = .ok view) :
    ∃ r ∈ view.powerItems, ∀ k ∈ ["name", "power_points", "range", "duration",
      "trapping", "source", "notes"], ∀ v, d.lookup k = some v → r.lookup k = some v := by
  rw [api_add_npc_power] at ha
  split at ha
  case _ nameV hname =>
    split at ha
    · injection ha with hinj
      subst hinj
      obtain ⟨n1, hf1, hfields, hsk, hw, har, hge, hhi, hed, hpo⟩ := api_get_npc_inv hview
      refine ⟨childRowOut ⟨freshId db.seqPower (db.powers.map (·.id)), npcId,
        [("name", nameV),
         ("power_points", (d.lookup "power_points").getD (.jint 0)),
         ("range", (d.lookup "range").getD .jnull),
         ("duration", (d.lookup "duration").getD .jnull),
         ("trapping", (d.lookup "trapping").getD .jnull),
         ("source", (d.lookup "source").getD .jnull),
         ("notes", (d.lookup "notes").getD .jnull)]⟩, ?_, ?_⟩
      · rw [hpo, mem_sortByName]
        exact List.mem_map_of_mem _ (List.mem_filter.mpr
          ⟨List.mem_append_right _ (List.mem_cons_self _ _), by simp⟩)
      · intro k hk v hv
        fin_cases hk
        · have hveq : nameV = v := Option.some.inj (hname.symm.trans hv)
          rw [childRowOut_lookup (by decide) (by decide), lookup_cons_self, hveq]
        · rw [childRowOut_lookup (by decide) (by decide), lookup_cons_ne (by decide),
            lookup_cons_self, hv, Option.getD_some]
        · rw [childRowOut_lookup (by decide) (by decide), lookup_cons_ne (by decide),
            lookup_cons_ne (by decide), lookup_cons_self, hv, Option.getD_some]
        · rw [childRowOut_lookup (by decide) (by decide), lookup_cons_ne (by decide),
            lookup_cons_ne (by decide), lookup_cons_ne (by decide), lookup_cons_self, hv, Option.getD_some]
        · rw [childRowOut_lookup (by decide) (by decide), lookup_cons_ne (by decide),
            lookup_cons_ne (by decide), lookup_cons_ne (by decide), lookup_cons_ne (by decide),
            lookup_cons_self, hv, Option.getD_some]
        · rw [childRowOut_lookup (by decide) (by decide), lookup_cons_ne (by decide),
            lookup_cons_ne (by decide), lookup_cons_ne (by decide), lookup_cons_ne (by decide),
            lookup_cons_ne (by decide), lookup_cons_self, hv, Option.getD_some]
        · rw [childRowOut_lookup (by decide) (by decide), lookup_cons_ne (by decide),
            lookup_cons_ne (by decide), lookup_cons_ne (by decide), lookup_cons_ne (by decide),
            lookup_cons_ne (by decide), lookup_cons_ne (by decide), lookup_cons_self, hv, Option.getD_some]
    · exact absurd ha (by simp)
  all_goals exact absurd ha (by simp)

/-- C2 counterexample: `POST /api/npcs` accepts a body whose `edges_json`
is not JSON (`"x"`); the subsequent `GET /api/npcs/1` then raises during
`json.loads` (HTTP 500, an empty error body) instead of returning the
stored values — the round trip of the original claim fails. -/
theorem c2_counterexample :
    api_create_npc emptyDB [("name", JVal.jstr "A"), ("edges_json", JVal.jstr "x")] =
      .ok (1, { npcs := [⟨1, [("name", JVal.jstr "A"), ("edges_json", JVal.jstr "x")]⟩],
                skills := [], weapons := [], armor := [], gear := [], hindrances := [],
                edges := [], powers := [], seqNpc := 1 }) ∧
    api_get_npc
      { npcs := [⟨1, [("name", JVal.jstr "A"), ("edges_json", JVal.jstr "x")]⟩],
        skills := [], weapons := [], armor := [], gear := [], hindrances := [],
        edges := [], powers := [], seqNpc := 1 } 1 = .error .serverErr :=
  ⟨rfl, rfl⟩

/-- C2 (amended): the round trips hold for request bodies the handlers
store without raising on read-back.  (1) An NPC created with any subset
of the allowed field list whose legacy `*_json` values (if supplied)
are valid JSON — `json.loads` succeeds; the document need not be a
string array — reads back through `GET` with exactly the supplied field
values.  (2) A `PUT` body with distinct keys and no `id` rewrite reads
back with the updated values whenever the subsequent `GET` succeeds.
(3–9) A child record added through each of the seven child `POST`
endpoints appears in the next successful `GET`'s corresponding
collection with every supplied value preserved. -/
theorem c2_roundtrip :
    (∀ db data nid db', api_create_npc db data = .ok (nid, db') →
      (∀ f ∈ ["edges_json", "hindrances_json", "gear_json", "powers_json"],
        ∀ v, data.lookup f = some v → ∃ j, loadJsonAny v = .ok j) →
      ∃ view, api_get_npc db' nid = .ok view ∧
        ∀ k ∈ npcFields, ∀ v, data.lookup k = some v → view.fields.lookup k = some v) ∧
    (∀ db npcId data db' view, api_update_npc db npcId data = .ok db' →
      (data.map Prod.fst).Nodup → data.lookup "id" = none →
      api_get_npc db' npcId = .ok view →
      ∀ k v, data.lookup k = some v → view.fields.lookup k = some v) ∧
    (∀ db npcId d db' view, api_add_skill db npcId d = .ok db' →
      api_get_npc db' npcId = .ok view →
      ∃ r ∈ view.skills, ∀ k ∈ ["name", "die"],
        ∀ v, d.lookup k = some v → r.lookup k = some v) ∧
    (∀ db npcId d db' view, api_add_weapon db npcId d = .ok db' →
      api_get_npc db' npcId = .ok view →
      ∃ r ∈ view.weapons, ∀ k ∈ ["name", "damage_str", "damagedice", "armor_piercing",
        "trait_type", "range", "reach", "notes"],
        ∀ v, d.lookup k = some v → r.lookup k = some v) ∧
    (∀ db npcId d db' view, api_add_armor db npcId d = .ok db' →
      api_get_npc db' npcId = .ok view →
      ∃ r ∈ view.armor, ∀ k ∈ ["name", "protection", "area_protected", "min_strength",
        "weight", "cost", "notes"], ∀ v, d.lookup k = some v → r.lookup k = some v) ∧
    (∀ db npcId d db' view, api_add_gear db npcId d = .ok db' →
      api_get_npc db' npcId = .ok view →
      ∃ r ∈ view.gearItems, ∀ k ∈ ["name", "quantity", "weight", "cost", "notes"],
        ∀ v, d.lookup k = some v → r.lookup k = some v) ∧
    (∀ db npcId d db' view, api_add_npc_hindrance db npcId d = .ok db' →
      api_get_npc db' npcId = .ok view →
      ∃ r ∈ view.hindranceItems, ∀ k ∈ ["name", "severity", "source", "notes"],
        ∀ v, d.lookup k = some v → r.lookup k = some v) ∧
    (∀ db npcId d db' view, api_add_npc_edge db npcId d = .ok db' →
      api_get_npc db' npcId = .ok view →
      ∃ r ∈ view.edgeItems, ∀ k ∈ ["name", "source", "notes"],
        ∀ v, d.lookup k = some v → r.lookup k = some v) ∧
    (∀ db npcId d db' view, api_add_npc_power db npcId d = .ok db' →
      api_get_npc db' npcId = .ok view →
      ∃ r ∈ view.powerItems, ∀ k ∈ ["name", "power_points", "range", "duration",
        "trapping", "source", "notes"], ∀ v, d.lookup k = some v → r.lookup k = some v) :=
  ⟨fun _ _ _ _ hc hjson => create_get_roundtrip hc hjson,
   fun _ _ _ _ _ hu hnd hid hview => update_get_roundtrip hu hnd hid hview,
   fun _ _ _ _ _ ha hview => add_skill_get_roundtrip ha hview,
   fun _ _ _ _ _ ha hview => add_weapon_get_roundtrip ha hview,
   fun _ _ _ _ _ ha hview => add_armor_get_roundtrip ha hview,
   fun _ _ _ _ _ ha hview => add_gear_get_roundtrip ha hview,
   fun _ _ _ _ _ ha hview => add_hindrance_get_roundtrip ha hview,
   fun _ _ _ _ _ ha hview => add_edge_get_roundtrip ha hview,
   fun _ _ _ _ _ ha hview => add_power_get_roundtrip ha hview⟩

/-- C2 witness: the create→get round trip evaluated on a concrete body
whose `edges_json` is valid JSON but not a string array (`[1,2]`) — the
handler stores it and the `GET` succeeds and returns the field value. -/
theorem c2_roundtrip_witness :
    ∃ view, api_get_npc
        ({ npcs := [⟨1, [("name", JVal.jstr "A"),
             ("edges_json", JVal.jstr "[1,2]")]⟩],
           skills := [], weapons := [], armor := [], gear := [], hindrances := [],
           edges := [], powers := [], seqNpc := 1 } : DB) 1 = .ok view ∧
      ∀ k ∈ npcFields, ∀ v,
        (([("name", JVal.jstr "A"), ("edges_json", JVal.jstr "[1,2]")] :
          Row).lookup k) = some v → view.fields.lookup k = some v := by
  have h := c2_roundtrip.1 emptyDB
    [("name", JVal.jstr "A"), ("edges_json", JVal.jstr "[1,2]")] 1
    ({ npcs := [⟨1, [("name", JVal.jstr "A"),
         ("edges_json", JVal.jstr "[1,2]")]⟩],
       skills := [], weapons := [], armor := [], gear := [], hindrances := [],
       edges := [], powers := [], seqNpc := 1 } : DB) rfl
  apply h
  intro f hf v hv
  fin_cases hf
  · have hveq : JVal.jstr "[1,2]" = v := Option.some.inj hv
    rw [← hveq]
    exact ⟨.jarr [.jnum "1", .jnum "2"], rfl⟩
  · exact Option.noConfusion hv
  · exact Option.noConfusion hv
  · exact Option.noConfusion hv

end TributeLands
